import Mathlib

/-!
Verification of the schema-to-type compiler in `src/helpers/parser.ts`
(mongoose-tsgen).

The development shallowly embeds the parser's JavaScript value universe as
the inductive type `MVal` and transcribes the source functions
(`shouldLeanIncludeVirtuals`, `getSubDocName`, `getFuncType`,
`parseFunctions`, `convertBaseTypeToTs`, `makeLine`, `parseSchema` /
`parseKey`, `replaceModelTypes`) into Lean.  JavaScript runtime exceptions
(TypeError on property access of null/undefined, calling missing methods,
stack exhaustion) are modelled with `Except String`; the finite JS call
stack is modelled with an explicit fuel parameter, so that the mutual
recursion of `parseSchema` and `parseKey` (which genuinely diverges on some
inputs, e.g. unrecognized string type tags) is total in Lean.

Braces inside generated text are written with the escapes \x7b and \x7d.
-/

/-! ## The JavaScript value universe -/

/-- Native constructor / class values that the parser compares against with
`===`: the JS primitives wrappers, `Date`, `Buffer`, `Map`, and the mongoose
schema-type classes.  `mixed` stands for `mongoose.Schema.Types.Mixed`,
whose static `schemaName` property is the string `"Mixed"`. -/
inductive NativeCtor where
  | jsString
  | jsNumber
  | jsBoolean
  | jsDate
  | jsBuffer
  | jsMap
  | schemaObjectId
  | typesObjectId
  | schemaDecimal128
  | typesDecimal128
  | mixed
  deriving DecidableEq, Repr

/-- A JavaScript value as seen by the parser: `undefined`, `null`, booleans,
numbers, strings, native constructors, opaque functions, arrays and plain
objects (association lists in insertion order). -/
inductive MVal where
  | vUndefined
  | vNull
  | vBool (b : Bool)
  | vNum (n : Int)
  | vStr (s : String)
  | vCtor (c : NativeCtor)
  | vFunc
  | vArr (elems : List MVal)
  | vObj (fields : List (String × MVal))

/-- JavaScript truthiness. -/
def truthy : MVal → Bool
  | .vUndefined => false
  | .vNull => false
  | .vBool b => b
  | .vNum n => n != 0
  | .vStr s => s != ""
  | _ => true

/-- First-match association-list lookup (JS object property lookup). -/
def lookupField : List (String × MVal) → String → Option MVal
  | [], _ => none
  | (k, v) :: rest, key => if k = key then some v else lookupField rest key

/-- Kernel-reducible decimal rendering of a natural number (the library
`toString` goes through well-founded recursion, which blocks evaluation
inside proofs). -/
def natToStrAux : Nat → Nat → List Char
  | 0, _ => []
  | fuel + 1, n =>
      if n < 10 then [Char.ofNat (48 + n)]
      else natToStrAux fuel (n / 10) ++ [Char.ofNat (48 + n % 10)]

def natToStr (n : Nat) : String := String.mk (natToStrAux (n + 1) n)

def intToStr (n : Int) : String :=
  if n < 0 then "-" ++ natToStr ((-n).toNat) else natToStr n.toNat

def digitsToNat (l : List Char) : Nat :=
  l.foldl (fun a c => a * 10 + (c.toNat - 48)) 0

/-- A canonical JS array-index key: a canonical decimal numeral (no leading
zeros) below 2^32 - 1. -/
def jsIndexOf (s : String) : Option Nat :=
  let l := s.toList
  if !l.isEmpty && l.all Char.isDigit && (l == ['0'] || l.head? != some '0') then
    let n := digitsToNat l
    if n < 4294967295 then some n else none
  else none

/-- Property read `v[k]`.  Throws (models the JS TypeError) when the receiver
is `null` or `undefined`.  Mongoose's `Mixed` class exposes
`schemaName = "Mixed"`; other receivers yield `undefined` for unknown keys. -/
def getProp : MVal → String → Except String MVal
  | .vUndefined, k => .error ("TypeError: Cannot read properties of undefined (reading " ++ k ++ ")")
  | .vNull, k => .error ("TypeError: Cannot read properties of null (reading " ++ k ++ ")")
  | .vObj fields, k => .ok ((lookupField fields k).getD .vUndefined)
  | .vArr l, k =>
      .ok (if k = "length" then .vNum (l.length : Int)
           else match jsIndexOf k with
                | some i => l.getD i .vUndefined
                | none => .vUndefined)
  | .vStr s, k =>
      .ok (if k = "length" then .vNum (s.length : Int)
           else match jsIndexOf k with
                | some i =>
                    if h : i < s.toList.length then .vStr (String.mk [s.toList.get ⟨i, h⟩])
                    else .vUndefined
                | none => .vUndefined)
  | .vCtor c, k =>
      .ok (if k = "schemaName" && c = NativeCtor.mixed then .vStr "Mixed" else .vUndefined)
  | .vFunc, k => .ok (if k = "length" then .vNum 0 else .vUndefined)
  | .vBool _, _ => .ok .vUndefined
  | .vNum _, _ => .ok .vUndefined

/-- Optional-chaining property read `v?.k`: `undefined` on a nullish
receiver instead of throwing. -/
def getPropOpt (v : MVal) (k : String) : MVal :=
  match v with
  | .vUndefined => .vUndefined
  | .vNull => .vUndefined
  | _ => match getProp v k with
         | .ok r => r
         | .error _ => .vUndefined

/-- Insertion-order-preserving property write: existing key is updated in
place, a new key is appended (JS object assignment). -/
def setField (fields : List (String × MVal)) (key : String) (v : MVal) :
    List (String × MVal) :=
  if (lookupField fields key).isSome then
    fields.map (fun kv => if kv.1 = key then (key, v) else kv)
  else fields ++ [(key, v)]

/-- Property write `v.k = x`; throws on non-object receivers (the source is
a strict-mode module). -/
def setPropE : MVal → String → MVal → Except String MVal
  | .vObj fields, k, x => .ok (.vObj (setField fields k x))
  | _, k, _ => .error ("TypeError: Cannot create property " ++ k)

/-- JS own-property enumeration order: canonical integer keys first, in
ascending numeric order, then the remaining string keys in insertion
order. -/
def insertIdxKey (x : Nat × String) : List (Nat × String) → List (Nat × String)
  | [] => [x]
  | y :: ys => if x.1 < y.1 then x :: y :: ys else y :: insertIdxKey x ys

def sortIdxKeys : List (Nat × String) → List (Nat × String)
  | [] => []
  | x :: xs => insertIdxKey x (sortIdxKeys xs)

def jsKeyOrder (keys : List String) : List String :=
  let idx := keys.filterMap (fun k => (jsIndexOf k).map (fun n => (n, k)))
  let rest := keys.filter (fun k => (jsIndexOf k).isNone)
  (sortIdxKeys idx).map Prod.snd ++ rest

/-- `Object.keys`: throws on nullish, integer-index enumeration for arrays
and strings, empty for primitives and functions. -/
def jsObjectKeys : MVal → Except String (List String)
  | .vUndefined => .error "TypeError: Cannot convert undefined to object"
  | .vNull => .error "TypeError: Cannot convert null to object"
  | .vObj fields => .ok (jsKeyOrder (fields.map Prod.fst))
  | .vArr l => .ok ((List.range l.length).map natToStr)
  | .vStr s => .ok ((List.range s.length).map natToStr)
  | _ => .ok []

/-- JS string coercion with explicit fuel (arrays stringify their elements
joined by commas, with nullish elements rendered empty, which is a genuinely
recursive traversal).  The fuel is always instantiated large enough by
`jsToStringVal`. -/
def jsStrAux : Nat → String → (MVal ⊕ List MVal) → String
  | 0, _, _ => ""
  | _ + 1, _, .inl .vUndefined => "undefined"
  | _ + 1, _, .inl .vNull => "null"
  | _ + 1, _, .inl (.vBool b) => cond b "true" "false"
  | _ + 1, _, .inl (.vNum n) => intToStr n
  | _ + 1, _, .inl (.vStr s) => s
  | _ + 1, _, .inl (.vCtor _) => "function"
  | _ + 1, _, .inl .vFunc => "function"
  | n + 1, _, .inl (.vArr l) => jsStrAux n "," (.inr l)
  | _ + 1, _, .inl (.vObj _) => "[object Object]"
  | _ + 1, _, .inr [] => ""
  | n + 1, sep, .inr [x] =>
      (match x with
       | .vUndefined => ""
       | .vNull => ""
       | v => jsStrAux n sep (.inl v))
  | n + 1, sep, .inr (x :: xs) =>
      (match x with
       | .vUndefined => ""
       | .vNull => ""
       | v => jsStrAux n sep (.inl v)) ++ sep ++ jsStrAux n sep (.inr xs)

/-- JS string coercion (`String(v)`, template-literal interpolation); the
fuel models the JS call stack consumed by nested-array stringification and
is threaded from the surrounding computation. -/
def jsCoerceStrF (fuel : Nat) (v : MVal) : String :=
  jsStrAux fuel "," (.inl v)

/-- `Array.prototype.join` with an arbitrary separator; throws when the
receiver has no `join` method (e.g. a string). -/
def jsArrayJoinF (fuel : Nat) : MVal → String → Except String String
  | .vArr l, sep => .ok (jsStrAux fuel sep (.inr l))
  | _, _ => .error "TypeError: join is not a function"

/-- The value's `length` as read by `x?.length > 0` comparisons: arrays and
strings report their length, functions their arity (modelled as 0), plain
objects a numeric `length` property if any. -/
def jsLenOf : MVal → Option Int
  | .vArr l => some (l.length : Int)
  | .vStr s => some (s.length : Int)
  | .vFunc => some 0
  | .vObj fields =>
      match lookupField fields "length" with
      | some (.vNum n) => some n
      | _ => none
  | _ => none

/-- `x?.length > 0` (nullish propagates to `undefined > 0`, which is
false). -/
def jsLenGtZero (v : MVal) : Bool :=
  match jsLenOf v with
  | some n => n > 0
  | none => false

def isArrayV : MVal → Bool
  | .vArr _ => true
  | _ => false

def isPlainObjectV : MVal → Bool
  | .vObj _ => true
  | _ => false

def isCtorVal : MVal → NativeCtor → Bool
  | .vCtor c, c' => c == c'
  | _, _ => false

def isStrVal : MVal → String → Bool
  | .vStr s, t => s == t
  | _, _ => false

/-- Value-level model of `_.cloneDeep`: the clone denotes the same value.
(The aliasing content of cloning is analysed separately in the store-based
embedding used for the frame property.) -/
def cloneDeepV (v : MVal) : MVal := v

/-- `v[0]` for the array case of `parseKey` (`val = val[0]`). -/
def headOrUndefined : MVal → MVal
  | .vArr (x :: _) => x
  | .vArr [] => .vUndefined
  | v => v

def asStrE : MVal → Except String String
  | .vStr s => .ok s
  | _ => .error "TypeError: expected a string receiver"

/-! ## shouldLeanIncludeVirtuals -/

/-- Transcription of `shouldLeanIncludeVirtuals` over the JS schema value:
reads `schema.options?.toObject ?? \x7b\x7d` and tests
`(!virtuals && !getters) || (virtuals === false && getters === true)`. -/
def shouldLeanIncludeVirtualsV (schema : MVal) : Bool :=
  let toObjectOptions :=
    match getPropOpt (getPropOpt schema "options") "toObject" with
    | .vUndefined => MVal.vObj []
    | .vNull => MVal.vObj []
    | x => x
  let virtuals := getPropOpt toObjectOptions "virtuals"
  let getters := getPropOpt toObjectOptions "getters"
  if (!truthy virtuals && !truthy getters)
      || ((match virtuals with | .vBool false => true | _ => false)
          && (match getters with | .vBool true => true | _ => false)) then
    false
  else true

/-- Schema value with both `toObject` flags set to explicit booleans — the
claim's framing of the configuration as two boolean flags. -/
def mkToObjectSchema (virtuals getters : Bool) : MVal :=
  .vObj [("options", .vObj [("toObject",
    .vObj [("virtuals", .vBool virtuals), ("getters", .vBool getters)])])]

/-- The two flags as booleans: the plain (lean) shape includes virtuals? -/
def leanVirtualsFlag (virtuals getters : Bool) : Bool :=
  shouldLeanIncludeVirtualsV (mkToObjectSchema virtuals getters)

/-! ## getSubDocName -/

/-- Kernel-reducible `split(".")` (JS semantics: `"" → [""]`,
`"a." → ["a", ""]`). -/
def splitDotAux : List Char → List Char → List String
  | [], acc => [String.mk acc.reverse]
  | c :: rest, acc =>
      if c == '.' then String.mk acc.reverse :: splitDotAux rest []
      else splitDotAux rest (c :: acc)

def splitOnDot (s : String) : List String := splitDotAux s.toList []

/-- Kernel-reducible `endsWith("s")`. -/
def endsInS (s : String) : Bool :=
  match s.toList.getLast? with
  | some c => c == 's'
  | none => false

/-- Kernel-reducible `slice(0, -1)`. -/
def dropLastStr (s : String) : String := String.mk s.toList.dropLast

/-- One path segment, capitalized: `p[0].toUpperCase() + p.slice(1)`.
Throws on the empty segment (`p[0]` is `undefined` in JS). -/
def capSeg : String → Except String String
  | p =>
    match p.toList with
    | [] => .error "TypeError: Cannot read properties of undefined (reading toUpperCase)"
    | c :: rest => .ok (String.mk (c.toUpper :: rest))

/-- Transcription of `getSubDocName`: owner name concatenated with each
dot-separated segment capitalized; if the result ends in `"s"`, exactly one
trailing character is stripped. -/
def getSubDocName (path : String) (modelName : String) : Except String String := do
  let caps ← (splitOnDot path).mapM capSeg
  let subDocName := modelName ++ String.join caps
  if endsInS subDocName then pure (dropLastStr subDocName)
  else pure subDocName

/-- A path segment first-letter-capitalized (total rendering used by the
spec-side namer). -/
def capSegTotal (p : String) : String :=
  match p.toList with
  | [] => ""
  | c :: rest => String.mk (c.toUpper :: rest)

/-- The Sub-Entity Namer as the specification words it: concatenate the
owning name with each dot-separated path segment first-letter-capitalized;
if that concatenation ends in "s", strip exactly one trailing character.
(Spec-side rendering used to state the refinement.) -/
def subDocNameSpec (path : String) (modelName : String) : String :=
  let cat := modelName ++ String.join ((splitOnDot path).map capSegTotal)
  if endsInS cat then dropLastStr cat else cat

/-! ## getFuncType and the signature regex -/

/-- JS `\w` (ASCII word character). -/
def isWordChar (c : Char) : Bool := c.isAlpha || c.isDigit || c == '_'

/-- Characters matched by `.` in a JS regex (not a line terminator). -/
def jsDotChar (c : Char) : Bool :=
  !(c == '\n' || c == '\r' || c == Char.ofNat 8232 || c == Char.ofNat 8233)

/-- Split a character list at the LAST occurrence of `pat` (the greedy
behaviour of the `(.*)` capture group preceding a literal). -/
def splitAtLastOcc (pat : List Char) : List Char → Option (List Char × List Char)
  | [] => none
  | c :: rest =>
      match splitAtLastOcc pat rest with
      | some (pre, post) => some (c :: pre, post)
      | none =>
          if pat.isPrefixOf (c :: rest) then some ([], (c :: rest).drop pat.length)
          else none

/-- The optional leading group `(?:this: \w*(?:, )?)?` of the signature
regex, consumed greedily. -/
def stripThisPart (l : List Char) : List Char :=
  if ("this: ".toList).isPrefixOf l then
    let r := (l.drop 6).dropWhile isWordChar
    if (", ".toList).isPrefixOf r then r.drop 2 else r
  else l

/-- Attempt to match `\((?:this: \w*(?:, )?)?(.*)\) => (.*)` just after an
opening parenthesis: both `(.*)` groups stay within the current line, the
first is greedy (last occurrence of `") => "`), and the `this:` prefix can
never contain `") => "`, so consuming it greedily is complete. -/
def sigMatchAt (rest : List Char) : Option (List Char × List Char) :=
  let line := rest.takeWhile jsDotChar
  match splitAtLastOcc (") => ".toList) line with
  | some (pre, post) => some (stripThisPart pre, post)
  | none => none

/-- Leftmost-match scan of the signature regex. -/
def sigScan : List Char → Option (List Char × List Char)
  | [] => none
  | c :: rest =>
      if c == '(' then
        match sigMatchAt rest with
        | some r => some r
        | none => sigScan rest
      else sigScan rest

/-- `funcSignature.match(/\((?:this: \w*(?:, )?)?(.*)\) => (.*)/)`, returning
the two capture groups (params, returnType) when the regex matches. -/
def matchFuncSig (s : String) : Option (String × String) :=
  (sigScan s.toList).map (fun pr => (String.mk pr.1, String.mk pr.2))

inductive FuncKind where
  | methods
  | statics
  | query
  deriving DecidableEq, Repr

/-- Transcription of `getFuncType`: bind the role-specific receiver type and
splice in the matched parameter list / return type (`any` when the return
type is absent). -/
def getFuncType (funcSignature : String) (funcType : FuncKind) (modelName : String) :
    String :=
  let m := matchFuncSig funcSignature
  let params : Option String := m.map Prod.fst
  let returnTypeOpt : Option String := m.map Prod.snd
  let paramsLenGtZero : Bool :=
    match params with
    | some p => p.length > 0
    | none => false
  let paramsPart : String :=
    if paramsLenGtZero then ", " ++ (params.getD "") else ""
  match funcType with
  | .query =>
      "<Q extends mongoose.Query<any, " ++ modelName ++ "Document>>(this: Q" ++
        paramsPart ++ ") => Q"
  | .methods =>
      "(this: " ++ modelName ++ "Document" ++ paramsPart ++ ") => " ++
        (returnTypeOpt.getD "any")
  | .statics =>
      "(this: " ++ modelName ++ "Model" ++ paramsPart ++ ") => " ++
        (returnTypeOpt.getD "any")

/-! ## makeLine, parseFunctions, convertBaseTypeToTs -/

/-- Transcription of `makeLine` (key truthiness = nonemptiness). -/
def makeLine (key val : String) (isOptional : Bool) (newline : Bool) : String :=
  let line := if key ≠ "" then key ++ (if isOptional then "?" else "") ++ ": " else ""
  let line := line ++ val ++ ";"
  if newline then line ++ "\n" else line

/-- Transcription of `parseFunctions`: every member is rendered with the
default signature `(...args: any[]) => any` passed through `getFuncType`;
the `initializeTimestamps` hook is skipped. -/
def parseFunctions (funcs : MVal) (modelName : String) (funcType : FuncKind) :
    Except String String := do
  let keys ← jsObjectKeys funcs
  pure (keys.foldl (fun acc key =>
    if ["initializeTimestamps"].contains key then acc
    else acc ++ makeLine key (getFuncType "(...args: any[]) => any" funcType modelName)
           false true) "")

/-- Transcription of `convertBaseTypeToTs`.  `none` models the `undefined`
result (the `__v` numeric case); the sentinel `"\x7b\x7d"` signals a nested
object.  The fuel only feeds the enum `join` stringification. -/
def convertBaseTypeToTs (fuel : Nat) (key : String) (val : MVal) (isDocument : Bool) :
    Except String (Option String) := do
  let schemaName ← getProp val "schemaName"
  let typeProp ← getProp val "type"
  if isStrVal schemaName "Mixed" || isStrVal (getPropOpt typeProp "schemaName") "Mixed" then
    pure (some "any")
  else
    let mongooseType ← if isCtorVal typeProp NativeCtor.jsMap then getProp val "of"
                       else pure typeProp
    match mongooseType with
    | .vCtor .jsString => convertStringCase fuel val
    | .vStr "String" => convertStringCase fuel val
    | .vCtor .jsNumber => pure (if key ≠ "__v" then some "number" else none)
    | .vStr "Number" => pure (if key ≠ "__v" then some "number" else none)
    | .vCtor .schemaDecimal128 =>
        pure (some (if isDocument then "mongoose.Types.Decimal128" else "number"))
    | .vCtor .typesDecimal128 =>
        pure (some (if isDocument then "mongoose.Types.Decimal128" else "number"))
    | .vCtor .jsBoolean => pure (some "boolean")
    | .vCtor .jsDate => pure (some "Date")
    | .vCtor .jsBuffer => pure (some "Buffer")
    | .vStr "Buffer" => pure (some "Buffer")
    | .vCtor .schemaObjectId => pure (some "mongoose.Types.ObjectId")
    | .vCtor .typesObjectId => pure (some "mongoose.Types.ObjectId")
    | .vStr "ObjectId" => pure (some "mongoose.Types.ObjectId")
    | _ => pure (some "\x7b\x7d")
where
  convertStringCase (fuel : Nat) (val : MVal) : Except String (Option String) := do
    let enumV ← getProp val "enum"
    if jsLenGtZero enumV then do
      let joined ← jsArrayJoinF fuel enumV "\" | \""
      pure (some ("\"" ++ joined ++ "\""))
    else pure (some "string")

/-- The membership test of `parseKey` that expands a bare native type into
`\x7b type: val \x7d`. -/
def isBaseTypeCandidate (v : MVal) : Bool :=
  match v with
  | .vCtor c =>
      [NativeCtor.jsString, NativeCtor.jsNumber, NativeCtor.jsBoolean,
       NativeCtor.jsDate, NativeCtor.jsBuffer, NativeCtor.schemaObjectId,
       NativeCtor.typesObjectId, NativeCtor.typesDecimal128,
       NativeCtor.schemaDecimal128].contains c
  | .vStr s => ["String", "Number", "Buffer"].contains s
  | _ => false

/-- The JS quote character (code 39). -/
def quoteChar : Char := Char.ofNat 39

def removeFirstQuoteL : List Char → List Char
  | [] => []
  | c :: rest => if c == quoteChar then rest else c :: removeFirstQuoteL rest

/-- `docRef.replace(..., "")` with a single-quote pattern: removes the first
occurrence only. -/
def removeFirstQuote (s : String) : String := String.mk (removeFirstQuoteL s.toList)

def containsDotStr (s : String) : Bool := s.toList.contains '.'

def optStrTruthy : Option String → Bool
  | some s => s ≠ ""
  | none => false

/-! ## Documentation-comment templates -/

def toLowerJs (s : String) : String := String.mk (s.toList.map Char.toLower)

def getObjectDocs (modelName : String) : String :=
  "/**\n * Lean version of " ++ modelName ++ "Document (type alias of `" ++ modelName ++
  "`)\n * \n * Use this type alias to avoid conflicts with model names:\n * ```\n * import \x7b " ++
  modelName ++ " \x7d from \"../models\"\n * import \x7b " ++ modelName ++
  "Object \x7d from \"../interfaces/mongoose.gen.ts\"\n * \n * const " ++
  toLowerJs modelName ++ "Object: " ++ modelName ++ "Object = " ++ toLowerJs modelName ++
  ".toObject();\n * ```\n */"

def getQueryDocs (modelName : String) : String :=
  "/**\n * Mongoose Query types\n * \n * Use type assertion to ensure " ++ modelName ++
  " query type safety:\n * ```\n * " ++ modelName ++ "Schema.query = <" ++ modelName ++
  "Queries>\x7b ... \x7d;\n * ```\n */"

def getMethodDocs (modelName : String) : String :=
  "/**\n * Mongoose Method types\n * \n * Use type assertion to ensure " ++ modelName ++
  " methods type safety:\n * ```\n * " ++ modelName ++ "Schema.methods = <" ++ modelName ++
  "Methods>\x7b ... \x7d;\n * ```\n */"

def getStaticDocs (modelName : String) : String :=
  "/**\n * Mongoose Static types\n * \n * Use type assertion to ensure " ++ modelName ++
  " statics type safety:\n * ```\n * " ++ modelName ++ "Schema.statics = <" ++ modelName ++
  "Statics>\x7b ... \x7d;\n * ```\n */"

def getModelDocs (modelName : String) : String :=
  "/**\n * Mongoose Model type\n * \n * Pass this type to the Mongoose Model constructor:\n * ```\n * const " ++
  modelName ++ " = mongoose.model<" ++ modelName ++ "Document, " ++ modelName ++
  "Model>(\"" ++ modelName ++ "\", " ++ modelName ++ "Schema);\n * ```\n */"

def getSchemaDocs (modelName : String) : String :=
  "/**\n * Mongoose Schema type\n * \n * Assign this type to new " ++ modelName ++
  " schema instances:\n * ```\n * const " ++ modelName ++ "Schema: " ++ modelName ++
  "Schema = new mongoose.Schema(\x7b ... \x7d)\n * ```\n */"

/-- `getLeanDocs`; `fullName` is the optional second parameter. -/
def getLeanDocs (modelName : String) (fullName : Option String) : String :=
  "/**\n * Lean version of " ++ (fullName.getD modelName) ++
  "Document\n * \n * This has all Mongoose getters & functions removed. This type will be returned from `" ++
  modelName ++ "Document.toObject()`." ++
  (if !optStrTruthy fullName || some modelName == fullName then
    " To avoid conflicts with model names, use the type alias `" ++ modelName ++ "Object`."
  else "") ++
  "\n * ```\n * const " ++ toLowerJs modelName ++ "Object = " ++ toLowerJs modelName ++
  ".toObject();\n * ```\n */"

def getSubdocumentDocs (modelName : String) (path : String) : String :=
  "/**\n * Mongoose Embedded Document type\n * \n * Type of `" ++ modelName ++
  "Document[\"" ++ path ++ "\"]` element.\n */"

def getDocumentDocs (modelName : String) : String :=
  "/**\n * Mongoose Document type\n * \n * Pass this type to the Mongoose Model constructor:\n * ```\n * const " ++
  modelName ++ " = mongoose.model<" ++ modelName ++ "Document, " ++ modelName ++
  "Model>(\"" ++ modelName ++ "\", " ++ modelName ++ "Schema);\n * ```\n */"

/-! ## flatten / unflatten (`flat` library, `safe: true`) -/

/-- Fields of an object in JS enumeration order. -/
def orderFields (fields : List (String × MVal)) : List (String × MVal) :=
  (jsKeyOrder (fields.map Prod.fst)).map (fun k => (k, (lookupField fields k).getD .vUndefined))

/-- `flatten(tree, \x7b safe: true \x7d)` body: descends into non-empty plain
objects joining keys with dots; arrays and every other value are leaves.
Fuel models the recursion stack. -/
def flattenF : Nat → List (String × MVal) → String → Except String (List (String × MVal))
  | 0, _, _ => .error "RangeError: Maximum call stack size exceeded"
  | _ + 1, [], _ => .ok []
  | n + 1, (k, v) :: rest, pre => do
      let key := if pre == "" then k else pre ++ "." ++ k
      let head ← match v with
        | .vObj [] => pure [(key, MVal.vObj [])]
        | .vObj fields => flattenF n (orderFields fields) key
        | _ => pure [(key, v)]
      let tail ← flattenF n rest pre
      pure (head ++ tail)

def flattenTreeF (fuel : Nat) (tree : MVal) : Except String (List (String × MVal)) := do
  let keys ← jsObjectKeys tree
  flattenF fuel (keys.map (fun k => (k, getPropOpt tree k))) ""

/-- Insert one dotted key into a nested object tree (the `unflatten`
rebuild).  A non-object intermediate value swallows the assignment, and
integer segments are treated as object keys: schema paths are modelled as
non-numeric, see the development header. -/
def insertFlat (fields : List (String × MVal)) : List String → MVal → List (String × MVal)
  | [], _ => fields
  | [seg], v => setField fields seg v
  | seg :: rest, v =>
      match lookupField fields seg with
      | some (.vObj inner) => setField fields seg (.vObj (insertFlat inner rest v))
      | some _ => fields
      | none => setField fields seg (.vObj (insertFlat [] rest v))

def unflattenObjF (flat : List (String × MVal)) : List (String × MVal) :=
  flat.foldl (fun acc kv => insertFlat acc (splitOnDot kv.1) kv.2) []

/-! ## The Schema Tree Compiler: `parseSchema` / `parseKey` -/

/-- The two mutually recursive procedures, as one fueled call relation:
`schemaCall` is `parseSchema` (arguments in source order), `keyCall` is the
inner `parseKey` closure (which captures the enclosing call's `schema` and
`isDocument`). -/
inductive PCall where
  | schemaCall (schema : MVal) (modelName : Option String) (addModel : Bool)
      (isDocument : Bool) (header footer : String) (isAugmented : Bool)
  | keyCall (schema : MVal) (isDocument : Bool) (key : String) (valOriginal : MVal)

/-- The metadata keys skipped by `parseKey`. -/
def internalMetadataKeys : List String :=
  ["get", "set", "schemaName", "defaultOptions", "_checkRequired", "_cast",
   "checkRequired", "cast", "__v"]

/-- State of `parseKey`'s local variables after the normalization prefix
(source lines 471-535): the possibly rewritten `val`, and the `isOptional` /
`isArray` flags. -/
structure PKNorm where
  val : MVal
  isOptional : Bool
  isArray : Bool

/-- Source line 519-535: a bare native type is expanded to
`\x7b type: val \x7d`. -/
def pkExpandBase (s : PKNorm) : PKNorm :=
  if isBaseTypeCandidate s.val then ⟨.vObj [("type", s.val)], s.isOptional, s.isArray⟩
  else s

/-- The normalization prefix of `parseKey` (source lines 471-535): clone,
`isOptional = !val.required`, subdocument-array unwrap (`val = val[0]`,
optionality from `_isDefaultSetToUndefined`), `type`-attribute array unwrap
with the validator-wrapped rewrite (which forces `required`), and the bare
native-type expansion. -/
def pkNormalize (valOriginal : MVal) : Except String PKNorm := do
  let val := if isPlainObjectV valOriginal then cloneDeepV valOriginal else valOriginal
  let isOptional := !truthy (← getProp val "required")
  if isArrayV val then
    let val := headOrUndefined val
    let d ← getProp val "_isDefaultSetToUndefined"
    let isOptional := match d with
      | .vUndefined => false
      | .vNull => false
      | x => truthy x
    pure (pkExpandBase ⟨val, isOptional, true⟩)
  else
    let tp ← getProp val "type"
    if isArrayV tp then
      let val ← setPropE val "type" (headOrUndefined tp)
      let t0 ← getProp val "type"
      let t0t ← getProp t0 "type"
      if truthy t0t then
        let t0r ← getProp t0 "ref"
        let val ← if truthy t0r then setPropE val "ref" t0r else pure val
        let val ← setPropE val "type" t0t
        pure (pkExpandBase ⟨val, false, true⟩)
      else
        pure (pkExpandBase ⟨val, isOptional, true⟩)
    else
      pure (pkExpandBase ⟨val, isOptional, false⟩)

/-- Which branch of the `parseKey` type-resolution chain fires (source lines
539-598): `skip` models the early `return ""` and the `undefined` type,
`direct` a resolved type text (with the forced-required adjustments of the
virtual, `_id` and nested cases), `recurse` the nested-object sentinel. -/
inductive PKPlan where
  | skip
  | direct (ty : String) (forceRequired : Bool)
  | recurse

/-- The type-resolution chain of `parseKey` (source lines 539-598), in
source order: synthesized sub-entity name, virtual property, internal
metadata key, cross-entity reference, then the base-type table. -/
def pkPlan (fuel : Nat) (schema : MVal) (isDocument : Bool) (key : String) (val : MVal) :
    Except String PKPlan := do
  let inferredName ← getProp val "_inferredInterfaceName"
  if truthy inferredName then
    pure (.direct (jsCoerceStrF fuel inferredName ++ (if isDocument then "Document" else ""))
      false)
  else
    let pathP ← getProp val "path"
    let settersP ← getProp val "setters"
    let gettersP ← getProp val "getters"
    if truthy pathP && truthy pathP && truthy settersP && truthy gettersP then
      if key == "id" then pure .skip
      else if !isDocument && !shouldLeanIncludeVirtualsV schema then pure .skip
      else pure (.direct "any" true)
    else if key ≠ "" && internalMetadataKeys.contains key then
      pure .skip
    else
      let refP ← getProp val "ref"
      if truthy refP then
        let refS ← asStrE refP
        let docRef0 := removeFirstQuote refS
        let docRef ← if containsDotStr docRef0 then getSubDocName docRef0 ""
                     else pure docRef0
        pure (.direct (if isDocument then
            docRef ++ "Document[\"_id\"] | " ++ docRef ++ "Document"
          else docRef ++ "[\"_id\"] | " ++ docRef) false)
      else
        let convertedType ← convertBaseTypeToTs fuel key val isDocument
        if convertedType == some "\x7b\x7d" then
          pure .recurse
        else
          match convertedType with
          | none => pure .skip
          | some ty => pure (.direct ty (key == "_id"))

/-- The wrapping suffix of `parseKey` (source lines 600-616): map wrapper,
live-shape buffer wrapper, array wrapper (document-array vs plain, with
union parenthesization in the plain shape), and the final `makeLine`. -/
def pkFinish (isDocument : Bool) (key : String) (norm : PKNorm) (ty : String)
    (forceRequired : Bool) : Except String String := do
  let isMap := isCtorVal (← getProp norm.val "type") NativeCtor.jsMap
  let vt := ty
  let vt := if isMap then
      (if isDocument then "mongoose.Types.Map<" ++ vt ++ ">"
       else "Map<string, " ++ vt ++ ">")
    else vt
  let vt := if vt == "Buffer" && isDocument then "mongoose.Types.Buffer" else vt
  let vt ← if norm.isArray then
      if isDocument then do
        let sd ← getProp norm.val "_isSubdocArray"
        pure ("mongoose.Types." ++ (if truthy sd then "Document" else "") ++ "Array<" ++
          vt ++ ">")
      else
        pure ((if vt.toList.contains ' ' then "(" ++ vt ++ ")" else vt) ++ "[]")
    else pure vt
  pure (makeLine key vt (if forceRequired then false else norm.isOptional) true)

/-- Fueled interpreter for `parseSchema`/`parseKey`.  Fuel exhaustion models
JS stack exhaustion (a RangeError): the mutual recursion genuinely diverges
on some inputs, e.g. a field value that is an unrecognized string, so the
embedding cannot be fuel-free. -/
def runP : Nat → PCall → Except String String
  | 0, _ => .error "RangeError: Maximum call stack size exceeded"
  | n + 1, .schemaCall schemaOriginal modelName addModel isDocument header footer isAugmented => do
      let schema := cloneDeepV schemaOriginal
      let childSchemasV ← getProp schema "childSchemas"
      let (template, schema) ←
        if jsLenGtZero childSchemasV && optStrTruthy modelName then do
          let rootPath := modelName.getD ""
          let treeV ← getProp schema "tree"
          let flat0 ← flattenTreeF n treeV
          let childList ← match childSchemasV with
            | .vArr l => pure l
            | _ => Except.error "TypeError: childSchemas.forEach is not a function"
          let (flatFinal, childInterfaces) ← childList.foldlM (fun st child => do
            let model ← getProp child "model"
            let pathV ← getProp model "path"
            let isSubdocArray := truthy (← getProp model "$isArraySubdocument")
            let pathS ← asStrE pathV
            let name ← getSubDocName pathS rootPath
            let cschema0 ← getProp child "schema"
            let cschema1 ← setPropE cschema0 "_isReplacedWithSchema" (.vBool true)
            let cschema2 ← setPropE cschema1 "_inferredInterfaceName" (.vStr name)
            let cschema3 ← setPropE cschema2 "_isSubdocArray" (.vBool isSubdocArray)
            let cschema ←
              if isSubdocArray then
                let defaultValuePath := pathS ++ ".default"
                if (match lookupField st.1 defaultValuePath with
                    | some MVal.vUndefined => true
                    | _ => false) then
                  setPropE cschema3 "_isDefaultSetToUndefined" (.vBool true)
                else pure cschema3
              else pure cschema3
            let flat1 := setField st.1 pathS
              (if isSubdocArray then MVal.vArr [cschema] else cschema)
            let flat2 := flat1.filter (fun kv =>
              !(pathS.toList.isPrefixOf kv.1.toList && kv.1.length > pathS.length))
            let hdr :=
              (if isDocument then
                (if isSubdocArray then getSubdocumentDocs rootPath pathS
                 else getDocumentDocs rootPath)
               else getLeanDocs rootPath (some name)) ++
              (if isAugmented then "\n" else "\nexport ") ++
              (if isDocument then
                "interface " ++ name ++ "Document extends " ++
                (if isSubdocArray then "mongoose.Types.EmbeddedDocument"
                 else "mongoose.Document<mongoose.Types.ObjectId>, " ++ name ++ "Methods") ++
                " \x7b\n"
               else "interface " ++ name ++ " \x7b\n")
            let sub ← runP n (.schemaCall cschema (some name) false isDocument hdr
              "\x7d\n\n" isAugmented)
            pure (flat2, st.2 ++ sub)) (flat0, "")
          let schema' ← setPropE schema "tree" (.vObj (unflattenObjF flatFinal))
          pure (childInterfaces, schema')
        else pure ("", schema)
      let template ←
        if !isDocument then do
          let staticsV ← getProp schema "statics"
          if truthy staticsV && optStrTruthy modelName && addModel then do
            let mn := modelName.getD ""
            let mut t := template
            t := t ++ getObjectDocs mn
            t := t ++ "\n" ++ (if isAugmented then "" else "export ") ++ "type " ++ mn ++
              "Object = " ++ mn ++ "\n\n"
            let queryV ← getProp schema "query"
            let qkeys ← jsObjectKeys queryV
            if qkeys.length > 0 then
              t := t ++ getQueryDocs mn
              t := t ++ "\n" ++ (if isAugmented then "" else "export ") ++ "type " ++ mn ++
                "Queries = \x7b\n"
              let qv := match queryV with
                | .vUndefined => MVal.vObj []
                | .vNull => MVal.vObj []
                | x => x
              t := t ++ (← parseFunctions qv mn .query)
              t := t ++ "\x7d\n\n"
              t := t ++ (if isAugmented then "" else "declare module \"mongoose\" \x7b") ++
                "interface Query<ResultType, DocType extends Document> extends " ++ mn ++
                "Queries \x7b\x7d" ++ (if isAugmented then "" else "\x7d") ++ "\n\n"
            t := t ++ getMethodDocs mn
            t := t ++ "\n" ++ (if isAugmented then "" else "export ") ++ "type " ++ mn ++
              "Methods = \x7b\n"
            t := t ++ (← parseFunctions (← getProp schema "methods") mn .methods)
            t := t ++ "\x7d\n\n"
            t := t ++ getStaticDocs mn
            t := t ++ "\n" ++ (if isAugmented then "" else "export ") ++ "type " ++ mn ++
              "Statics = \x7b\n"
            t := t ++ (← parseFunctions (← getProp schema "statics") mn .statics)
            t := t ++ "\x7d\n\n"
            let modelExtend := "mongoose.Model<" ++ mn ++ "Document>"
            t := t ++ getModelDocs mn
            t := t ++ "\n" ++ (if isAugmented then "" else "export ") ++ "interface " ++ mn ++
              "Model extends " ++ modelExtend ++ ", " ++ mn ++ "Statics \x7b\x7d\n\n"
            t := t ++ getSchemaDocs mn
            t := t ++ "\n" ++ (if isAugmented then "" else "export ") ++ "type " ++ mn ++
              "Schema = mongoose.Schema<" ++ mn ++ "Document, " ++ mn ++ "Model>\n\n"
            pure t
          else pure template
        else pure template
      let template := template ++ header
      let schemaTree ← getProp schema "tree"
      let keys ← jsObjectKeys schemaTree
      let template ← keys.foldlM (fun acc key => do
        let v ← getProp schemaTree key
        let line ← runP n (.keyCall schema isDocument key v)
        pure (acc ++ line)) template
      pure (template ++ footer)
  | n + 1, .keyCall schema isDocument key valOriginal => do
      let norm ← pkNormalize valOriginal
      let plan ← pkPlan n schema isDocument key norm.val
      match plan with
      | .skip => pure ""
      | .direct ty forceRequired =>
          if ty == "" then pure ""
          else pkFinish isDocument key norm ty forceRequired
      | .recurse => do
          let sub ← runP n (.schemaCall (.vObj [("tree", norm.val)]) none false isDocument
            "\x7b\n" "\x7d" true)
          if sub == "" then pure ""
          else pkFinish isDocument key norm sub true

/-- `parseKey(key, valOriginal)` inside a `parseSchema` invocation whose
schema and output shape are given. -/
def parseKeyF (fuel : Nat) (schema : MVal) (isDocument : Bool) (key : String)
    (valOriginal : MVal) : Except String String :=
  runP fuel (.keyCall schema isDocument key valOriginal)

/-- `parseSchema` with all its named options. -/
def parseSchemaF (fuel : Nat) (schema : MVal) (modelName : Option String) (addModel : Bool)
    (isDocument : Bool) (header footer : String) (isAugmented : Bool) :
    Except String String :=
  runP fuel (.schemaCall schema modelName addModel isDocument header footer isAugmented)

/-! ## Shared helper lemmas -/

theorem capSeg_ok {p : String} (h : p ≠ "") : capSeg p = .ok (capSegTotal p) := by
  have hd : p.data ≠ [] := by
    intro hnil
    exact h (by cases p; simp_all)
  cases hp : p.data with
  | nil => exact absurd hp hd
  | cons c rest => simp only [capSeg, capSegTotal, String.toList, hp]

theorem mapM_capSeg (l : List String) (h : ∀ seg ∈ l, seg ≠ "") :
    l.mapM capSeg = .ok (l.map capSegTotal) := by
  induction l with
  | nil => rfl
  | cons x xs ih =>
      rw [List.mapM_cons, capSeg_ok (h x (List.mem_cons_self x xs))]
      rw [ih (fun s hs => h s (List.mem_cons_of_mem x hs))]
      rfl

/-! ## Claim C1 -/

/-- C1 counterexample: with no known call signature the default signature
string is `(...args: any[]) => any`, but the member type actually rendered
before the Structural Patch Pass is `getFuncType` applied to it, which binds
a role-specific receiver: for model `User`, the methods rendering is neither
literally `(...args: any[]) => any` nor equal to the statics rendering.  So
the claim that the rendered member type is literally `(...args: any[]) => any`
and role-independent is false. -/
theorem claim1_counterexample :
    getFuncType "(...args: any[]) => any" FuncKind.methods "User"
        ≠ "(...args: any[]) => any"
    ∧ getFuncType "(...args: any[]) => any" FuncKind.methods "User"
        ≠ getFuncType "(...args: any[]) => any" FuncKind.statics "User" := by
  constructor <;> decide

/-- C1 amended: for every function-collection member with no known call
signature, the default signature passed to the synthesizer is
`(...args: any[]) => any` for every role, and the member type rendered before
the Structural Patch Pass binds the role-specific receiver to it: methods
render as `(this: MDocument, ...args: any[]) => any`, statics as
`(this: MModel, ...args: any[]) => any`, and query modifiers as
`<Q extends mongoose.Query<any, MDocument>>(this: Q, ...args: any[]) => Q`. -/
theorem claim1_amended (modelName : String) :
    getFuncType "(...args: any[]) => any" FuncKind.methods modelName
      = "(this: " ++ modelName ++ "Document, ...args: any[]) => any"
    ∧ getFuncType "(...args: any[]) => any" FuncKind.statics modelName
      = "(this: " ++ modelName ++ "Model, ...args: any[]) => any"
    ∧ getFuncType "(...args: any[]) => any" FuncKind.query modelName
      = "<Q extends mongoose.Query<any, " ++ modelName ++
          "Document>>(this: Q, ...args: any[]) => Q" := by
  refine ⟨?_, ?_, ?_⟩
  · show ("(this: " ++ modelName ++ "Document" ++ ", ...args: any[]") ++ ") => " ++ "any"
        = "(this: " ++ modelName ++ "Document, ...args: any[]) => any"
    simp [String.append_assoc]
  · show ("(this: " ++ modelName ++ "Model" ++ ", ...args: any[]") ++ ") => " ++ "any"
        = "(this: " ++ modelName ++ "Model, ...args: any[]) => any"
    simp [String.append_assoc]
  · show ("<Q extends mongoose.Query<any, " ++ modelName ++ "Document>>(this: Q" ++
          ", ...args: any[]") ++ ") => Q"
        = "<Q extends mongoose.Query<any, " ++ modelName ++
          "Document>>(this: Q, ...args: any[]) => Q"
    simp [String.append_assoc]

/-! ## Claim C2 -/

/-- C2 counterexample: treating the two `toObject` flags as booleans, it is
not the case that exactly one of the four combinations excludes virtuals
from the plain shape — the filter over all four combinations does not have
length one. -/
theorem claim2_counterexample :
    ¬ (([(false, false), (false, true), (true, false), (true, true)].filter
        (fun p : Bool × Bool => leanVirtualsFlag p.1 p.2 == false)).length = 1) := by
  decide

/-- C2 amended: treating the two `toObject` flags (virtuals, getters) as
booleans, exactly two of the four combinations — precisely those with
`virtuals = false` — exclude computed (virtual) properties from the plain
shape; the two combinations with `virtuals = true` include them. -/
theorem claim2_amended :
    (([(false, false), (false, true), (true, false), (true, true)].filter
        (fun p : Bool × Bool => leanVirtualsFlag p.1 p.2 == false)).length = 2)
    ∧ ∀ virtuals getters : Bool,
        (leanVirtualsFlag virtuals getters = false ↔ virtuals = false) := by
  constructor
  · decide
  · decide

/-! ## Claim C6 -/

/-- C6: the Sub-Entity Namer is a pure deterministic function: for every
dotted field path (with nonempty segments, otherwise the source throws a
TypeError on `p[0].toUpperCase()`) and owning-entity name, it returns the
owning name concatenated with each dot-separated path segment first-letter-
capitalized, stripping exactly one trailing character when the concatenation
ends in "s"; in particular `address.city` with owner `User` yields
`UserAddressCity`. -/
theorem claim6 :
    (∀ path modelName : String, (∀ seg ∈ splitOnDot path, seg ≠ "") →
      getSubDocName path modelName = .ok (subDocNameSpec path modelName))
    ∧ getSubDocName "address.city" "User" = .ok "UserAddressCity" := by
  constructor
  · intro path modelName h
    unfold getSubDocName subDocNameSpec
    rw [mapM_capSeg _ h]
    simp only [Bind.bind, Except.bind]
    split <;> rfl
  · rfl

/-- C6 witness: the universal part of `claim6` applied at the concrete path
`address.city` and owner `User`. -/
theorem claim6_witness :
    getSubDocName "address.city" "User" = .ok (subDocNameSpec "address.city" "User") :=
  claim6.1 "address.city" "User" (by decide)

/-! ## More shared helper lemmas -/

theorem removeFirstQuoteL_eq {l : List Char} (h : quoteChar ∉ l) : removeFirstQuoteL l = l := by
  induction l with
  | nil => rfl
  | cons c rest ih =>
      have hc : (c == quoteChar) = false := by
        rw [beq_eq_false_iff_ne]
        intro he
        exact h (he ▸ List.mem_cons_self c rest)
      simp [removeFirstQuoteL, hc, ih (fun hm => h (List.mem_cons_of_mem c hm))]

theorem removeFirstQuote_eq {s : String} (h : quoteChar ∉ s.data) : removeFirstQuote s = s := by
  cases s with
  | mk data => simp [removeFirstQuote, String.toList, removeFirstQuoteL_eq h]

theorem ne_empty_of_bracket {s : String} (h : '[' ∈ s.data) : s ≠ "" := by
  intro he
  subst he
  simp at h

theorem ne_buffer_of_bracket {s : String} (h : '[' ∈ s.data) : s ≠ "Buffer" := by
  intro he
  subst he
  exact absurd h (by decide)

/-! ## Claim C7 -/

/-- A field value whose native type tag is numeric: the bare `Number`
constructor, the string tag `"Number"`, or an object whose `type` attribute
is either of those and which carries no synthesized sub-entity name and is
not a virtual (those markers would take precedence over the tag). -/
def numericTagged (v : MVal) : Prop :=
  v = .vCtor .jsNumber ∨ v = .vStr "Number" ∨
  (∃ fields, v = .vObj fields ∧
    (lookupField fields "type" = some (.vCtor .jsNumber) ∨
     lookupField fields "type" = some (.vStr "Number")) ∧
    lookupField fields "_inferredInterfaceName" = none ∧
    lookupField fields "path" = none)

/-- C7: for every field whose native type tag is numeric and whose key is
exactly `__v`, `parseKey` emits nothing at all — the empty string, not even
an empty line — in both the plain and the live shape (both values of
`isDocument`), for any surrounding schema. -/
theorem claim7 (schema : MVal) (isDocument : Bool) (fuel : Nat) (v : MVal)
    (hfuel : 1 ≤ fuel) (hv : numericTagged v) :
    parseKeyF fuel schema isDocument "__v" v = .ok "" := by
  obtain ⟨m, rfl⟩ : ∃ m, fuel = m + 1 := ⟨fuel - 1, by omega⟩
  rcases hv with h | h | ⟨fields, rfl, hty, hinf, hpath⟩
  · subst h; rfl
  · subst h; rfl
  · rcases hty with hty | hty <;>
      simp [parseKeyF, runP, pkNormalize, pkPlan, getProp, hty, hinf, hpath,
        isBaseTypeCandidate, isCtorVal, isArrayV, truthy, internalMetadataKeys,
        isPlainObjectV, cloneDeepV, pkExpandBase, Bind.bind, Except.bind, Pure.pure,
        Except.pure]

/-- C7 witness: `claim7` applied at the bare `Number` tag in the plain shape
and at the `type`-attribute form in the live shape. -/
theorem claim7_witness :
    parseKeyF 5 (MVal.vObj []) false "__v" (.vCtor .jsNumber) = .ok ""
    ∧ parseKeyF 5 (MVal.vObj []) true "__v" (.vObj [("type", .vCtor .jsNumber)]) = .ok "" :=
  ⟨claim7 (MVal.vObj []) false 5 _ (by omega) (Or.inl rfl),
   claim7 (MVal.vObj []) true 5 _ (by omega)
     (Or.inr (Or.inr ⟨_, rfl, Or.inl rfl, rfl, rfl⟩))⟩

/-! ## Claim C3 -/

/-- C3 counterexample: a field `nums` declared as a `type` attribute holding
the single-element array `[Number]`, with no explicit required flag, is
emitted with the `?` optionality marker in both shapes (`nums?: ...`), while
the bare single-element array form is emitted non-optional — so the claim
that both spellings emit a non-optional line is false. -/
theorem claim3_counterexample :
    parseKeyF 5 (MVal.vObj []) false "nums" (.vObj [("type", .vArr [.vCtor .jsNumber])])
        = .ok "nums?: number[];\n"
    ∧ parseKeyF 5 (MVal.vObj []) true "nums" (.vObj [("type", .vArr [.vCtor .jsNumber])])
        = .ok "nums?: mongoose.Types.Array<number>;\n"
    ∧ parseKeyF 5 (MVal.vObj []) false "nums" (.vArr [.vCtor .jsNumber])
        = .ok "nums: number[];\n" := by
  refine ⟨rfl, rfl, rfl⟩

/-- C3 amended: for a field declared as an array of scalar numbers with no
explicit required flag, the bare single-element array form is emitted
non-optional in both shapes (`makeLine` with `isOptional = false`), but the
`type`-attribute form is emitted optional in both shapes (`isOptional =
true`), because only the subdocument-array branch forces non-optionality;
the `type`-attribute branch keeps `!val.required`. -/
theorem claim3_amended (schema : MVal) (isDocument : Bool) (fuel : Nat) (k : String)
    (hfuel : 1 ≤ fuel) (hk1 : k ≠ "") (hk2 : k ∉ internalMetadataKeys) (hk3 : k ≠ "_id") :
    parseKeyF fuel schema isDocument k (.vArr [.vCtor .jsNumber])
      = .ok (makeLine k (if isDocument then "mongoose.Types.Array<number>" else "number[]")
          false true)
    ∧ parseKeyF fuel schema isDocument k (.vObj [("type", .vArr [.vCtor .jsNumber])])
      = .ok (makeLine k (if isDocument then "mongoose.Types.Array<number>" else "number[]")
          true true) := by
  obtain ⟨m, rfl⟩ : ∃ m, fuel = m + 1 := ⟨fuel - 1, by omega⟩
  simp only [internalMetadataKeys, List.mem_cons, List.not_mem_nil, or_false, not_or] at hk2
  obtain ⟨h1, h2, h3, h4, h5, h6, h7, h8, h9⟩ := hk2
  cases isDocument <;> constructor <;>
    simp [parseKeyF, runP, pkNormalize, pkPlan, pkFinish, getProp, hk1, hk3,
      h1, h2, h3, h4, h5, h6, h7, h8, h9, isStrVal, getPropOpt,
      isBaseTypeCandidate, isCtorVal, isArrayV, truthy, internalMetadataKeys,
      isPlainObjectV, cloneDeepV, pkExpandBase, Bind.bind, Except.bind, Pure.pure,
      Except.pure, headOrUndefined, setPropE, setField, lookupField, makeLine,
      convertBaseTypeToTs]

/-- C3 witness: `claim3_amended` applied at the key `nums` in the plain
shape. -/
theorem claim3_witness :
    parseKeyF 5 (MVal.vObj []) false "nums" (.vArr [.vCtor .jsNumber])
      = .ok (makeLine "nums" "number[]" false true)
    ∧ parseKeyF 5 (MVal.vObj []) false "nums" (.vObj [("type", .vArr [.vCtor .jsNumber])])
      = .ok (makeLine "nums" "number[]" true true) :=
  claim3_amended (MVal.vObj []) false 5 "nums" (by omega) (by decide) (by decide) (by decide)

/-! ## Claim C5 -/

/-- C5: for a field object declaring a cross-entity reference name `R`
(truthy, apostrophe-free, whose `type` attribute if present is a non-`Map`
native constructor, with no sub-entity or virtual markers and no explicit
required flag), the emitted type is the union `R["_id"] | R` in the plain
shape and `RDocument["_id"] | RDocument` in the live shape; when `R`
contains a dot it is first renamed through the Sub-Entity Namer
(`getSubDocName`); and the field is emitted optional (`isOptional = true`). -/
theorem claim5 (schema : MVal) (fuel : Nat) (k : String) (fields : List (String × MVal))
    (R : String) (hfuel : 1 ≤ fuel)
    (href : lookupField fields "ref" = some (.vStr R))
    (hR : R ≠ "")
    (hquote : quoteChar ∉ R.data)
    (htype : lookupField fields "type" = none ∨
      ∃ c, lookupField fields "type" = some (.vCtor c) ∧ c ≠ NativeCtor.jsMap)
    (hinf : lookupField fields "_inferredInterfaceName" = none)
    (hpath : lookupField fields "path" = none)
    (hreq : lookupField fields "required" = none)
    (hk2 : k ∉ internalMetadataKeys) :
    (containsDotStr R = false →
      parseKeyF fuel schema false k (.vObj fields)
        = .ok (makeLine k (R ++ "[\"_id\"] | " ++ R) true true)
      ∧ parseKeyF fuel schema true k (.vObj fields)
        = .ok (makeLine k (R ++ "Document[\"_id\"] | " ++ R ++ "Document") true true))
    ∧ (∀ D, containsDotStr R = true → getSubDocName R "" = .ok D →
      parseKeyF fuel schema false k (.vObj fields)
        = .ok (makeLine k (D ++ "[\"_id\"] | " ++ D) true true)
      ∧ parseKeyF fuel schema true k (.vObj fields)
        = .ok (makeLine k (D ++ "Document[\"_id\"] | " ++ D ++ "Document") true true)) := by
  obtain ⟨m, rfl⟩ : ∃ m, fuel = m + 1 := ⟨fuel - 1, by omega⟩
  simp only [internalMetadataKeys, List.mem_cons, List.not_mem_nil, or_false, not_or] at hk2
  obtain ⟨h1, h2, h3, h4, h5, h6, h7, h8, h9⟩ := hk2
  constructor
  · intro hdot
    have hbr1 : ('[' ∈ (R ++ "[\"_id\"] | " ++ R).data) := by simp [String.data_append]
    have hbr2 : ('[' ∈ (R ++ "Document[\"_id\"] | " ++ R ++ "Document").data) := by
      simp [String.data_append]
    rcases htype with hty | ⟨c, hty, hc⟩
    · constructor <;>
        simp [parseKeyF, runP, pkNormalize, pkPlan, pkFinish, getProp, hR,
          h1, h2, h3, h4, h5, h6, h7, h8, h9, isStrVal, getPropOpt, href, hty, hinf, hpath,
          hreq, hdot, removeFirstQuote_eq hquote, asStrE, truthy,
          ne_empty_of_bracket hbr1, ne_empty_of_bracket hbr2,
          ne_buffer_of_bracket hbr1, ne_buffer_of_bracket hbr2,
          internalMetadataKeys, isBaseTypeCandidate, isCtorVal, isArrayV,
          isPlainObjectV, cloneDeepV, pkExpandBase, Bind.bind, Except.bind, Pure.pure,
          Except.pure, headOrUndefined, makeLine]
    · have hc' : (c == NativeCtor.jsMap) = false := beq_eq_false_iff_ne.mpr hc
      constructor <;>
        simp [parseKeyF, runP, pkNormalize, pkPlan, pkFinish, getProp, hR, hc',
          h1, h2, h3, h4, h5, h6, h7, h8, h9, isStrVal, getPropOpt, href, hty, hinf, hpath,
          hreq, hdot, removeFirstQuote_eq hquote, asStrE, truthy,
          ne_empty_of_bracket hbr1, ne_empty_of_bracket hbr2,
          ne_buffer_of_bracket hbr1, ne_buffer_of_bracket hbr2,
          internalMetadataKeys, isBaseTypeCandidate, isCtorVal, isArrayV,
          isPlainObjectV, cloneDeepV, pkExpandBase, Bind.bind, Except.bind, Pure.pure,
          Except.pure, headOrUndefined, makeLine]
  · intro D hdot hsub
    have hbr1 : ('[' ∈ (D ++ "[\"_id\"] | " ++ D).data) := by simp [String.data_append]
    have hbr2 : ('[' ∈ (D ++ "Document[\"_id\"] | " ++ D ++ "Document").data) := by
      simp [String.data_append]
    rcases htype with hty | ⟨c, hty, hc⟩
    · constructor <;>
        simp [parseKeyF, runP, pkNormalize, pkPlan, pkFinish, getProp, hR,
          h1, h2, h3, h4, h5, h6, h7, h8, h9, isStrVal, getPropOpt, href, hty, hinf, hpath,
          hreq, hdot, hsub, removeFirstQuote_eq hquote, asStrE, truthy,
          ne_empty_of_bracket hbr1, ne_empty_of_bracket hbr2,
          ne_buffer_of_bracket hbr1, ne_buffer_of_bracket hbr2,
          internalMetadataKeys, isBaseTypeCandidate, isCtorVal, isArrayV,
          isPlainObjectV, cloneDeepV, pkExpandBase, Bind.bind, Except.bind, Pure.pure,
          Except.pure, headOrUndefined, makeLine]
    · have hc' : (c == NativeCtor.jsMap) = false := beq_eq_false_iff_ne.mpr hc
      constructor <;>
        simp [parseKeyF, runP, pkNormalize, pkPlan, pkFinish, getProp, hR, hc',
          h1, h2, h3, h4, h5, h6, h7, h8, h9, isStrVal, getPropOpt, href, hty, hinf, hpath,
          hreq, hdot, hsub, removeFirstQuote_eq hquote, asStrE, truthy,
          ne_empty_of_bracket hbr1, ne_empty_of_bracket hbr2,
          ne_buffer_of_bracket hbr1, ne_buffer_of_bracket hbr2,
          internalMetadataKeys, isBaseTypeCandidate, isCtorVal, isArrayV,
          isPlainObjectV, cloneDeepV, pkExpandBase, Bind.bind, Except.bind, Pure.pure,
          Except.pure, headOrUndefined, makeLine]

/-- C5 witness: `claim5` applied at the `Post` entity's `authorId` field
(`\x7b type: ObjectId, ref: "User" \x7d`), plain shape: the emitted line is
`authorId?: User["_id"] | User;`. -/
theorem claim5_witness :
    parseKeyF 5 (MVal.vObj []) false "authorId"
        (.vObj [("type", .vCtor .schemaObjectId), ("ref", .vStr "User")])
      = .ok (makeLine "authorId" ("User" ++ "[\"_id\"] | " ++ "User") true true) :=
  ((claim5 (MVal.vObj []) 5 "authorId"
      [("type", .vCtor .schemaObjectId), ("ref", .vStr "User")] "User"
      (by omega) rfl (by decide) (by decide)
      (Or.inr ⟨NativeCtor.schemaObjectId, rfl, by decide⟩)
      rfl rfl rfl (by decide)).1 (by decide)).1

/-! ## Claim C8 -/

/-- Two successive runs of `parseSchema` on the same schema tree and the
same configuration (model name, shape flag, augmentation flag,
header/footer), as performed per entity by the generator. -/
def compileTwice (fuel : Nat) (schema : MVal) (modelName : Option String)
    (addModel isDocument : Bool) (header footer : String) (isAugmented : Bool) :
    Except String String × Except String String :=
  (parseSchemaF fuel schema modelName addModel isDocument header footer isAugmented,
   parseSchemaF fuel schema modelName addModel isDocument header footer isAugmented)

/-- C8: the compiler is deterministic: calling `parseSchema` twice with the
same schema tree and the same configuration yields byte-identical output
(including identical error behaviour).  The embedding mirrors the source's
entire data flow — property reads, key-enumeration order, hoisting edits,
text assembly — and takes no input besides the arguments shown, so the two
runs are the same pure function application; the source likewise consults no
clock, randomness or ambient mutable state. -/
theorem claim8 (fuel : Nat) (schema : MVal) (modelName : Option String)
    (addModel isDocument : Bool) (header footer : String) (isAugmented : Bool) :
    (compileTwice fuel schema modelName addModel isDocument header footer isAugmented).1
      = (compileTwice fuel schema modelName addModel isDocument header footer
          isAugmented).2 := rfl

/-! ## Structural Patch Pass: `replaceModelTypes`

The pass operates on the already-parsed generated definitions through
ts-morph: for each model it locates the type aliases `MMethods`, `MStatics`,
`MQueries` (object type literals) and the interfaces `MDocument` / `M`, and
overwrites the type of every property whose name has a known signature.
The definitions are modelled as association lists of named members; a name
lookup (`getTypeAlias` / `getInterface`) resolves to the first declaration
with that name, and a missing name is a no-op (the source's `?.`). -/

/-- Member lists of a type literal: property name → type text. -/
abbrev Props := List (String × String)

/-- The per-model known-signature source (`ModelTypes[modelName]`). -/
structure MTypes where
  methods : List (String × String)
  statics : List (String × String)
  query : List (String × String)
  virtuals : List (String × String)

/-- The declarations the pass can address: type aliases and interfaces of
one lookup root. -/
structure TContainer where
  aliases : List (String × Props)
  interfaces : List (String × Props)

/-- The generated source file: an optional module-augmentation block and the
top level.  `getRoot()` selects the block when `isAugmented` and it exists. -/
structure SFileM where
  moduleBlock : Option TContainer
  topLevel : TContainer

/-- Generic first-match association lookup. -/
def lookupA {α : Type} : List (String × α) → String → Option α
  | [], _ => none
  | (k, v) :: rest, key => if k = key then some v else lookupA rest key

/-- Update the first declaration with the given name (ts-morph name lookup);
no-op when the name is absent. -/
def updateFirst {α : Type} (n : String) (f : α → α) : List (String × α) → List (String × α)
  | [] => []
  | (m, ps) :: rest => if m = n then (m, f ps) :: rest else (m, ps) :: updateFirst n f rest

/-- Apply a per-property rewrite to every property signature of a type
literal (`getChildrenOfKind(PropertySignature).forEach(prop => ...
prop.setType(...))`): names are kept, each type is a function of the
property's name and old type. -/
def pmapP (φ : String → String → String) (ps : Props) : Props :=
  ps.map (fun p => (p.1, φ p.1 p.2))

/-- The property rewrite for one function collection: a member with a known
signature gets `getFuncType` of that signature, others keep their type. -/
def patchSigφ (ov : List (String × String)) (kind : FuncKind) (modelName : String) :
    String → String → String :=
  fun name old =>
    match lookupA ov name with
    | some sig => getFuncType sig kind modelName
    | none => old

/-- The property rewrite for virtuals: a member with a known inferred type
gets it verbatim (`prop.setType(newType)`), others keep their type. -/
def patchVirtφ (ov : List (String × String)) : String → String → String :=
  fun name old =>
    match lookupA ov name with
    | some ty => ty
    | none => old

/-- `shouldLeanIncludeVirtuals(schemas[modelName])`: throws when the model
is missing from the loaded-schema map (property read on `undefined`). -/
def leanIncludeE (schemas : String → Option MVal) (m : String) : Except String Bool :=
  match schemas m with
  | some sv => .ok (shouldLeanIncludeVirtualsV sv)
  | none => .error "TypeError: Cannot read properties of undefined (reading options)"

/-- One iteration of the `Object.entries(modelTypes).forEach` body: patch
the three function-collection aliases, then the live-shape interface's
virtuals, then (when the options say lean output includes virtuals) the
plain interface. -/
def patchModelC (schemas : String → Option MVal) (m : String) (e : MTypes)
    (c : TContainer) : Except String TContainer := do
  let c := if e.methods.length > 0 then
      TContainer.mk
        (updateFirst (m ++ "Methods") (pmapP (patchSigφ e.methods .methods m)) c.aliases)
        c.interfaces
    else c
  let c := if e.statics.length > 0 then
      TContainer.mk
        (updateFirst (m ++ "Statics") (pmapP (patchSigφ e.statics .statics m)) c.aliases)
        c.interfaces
    else c
  let c := if e.query.length > 0 then
      TContainer.mk
        (updateFirst (m ++ "Queries") (pmapP (patchSigφ e.query .query m)) c.aliases)
        c.interfaces
    else c
  if e.virtuals.length > 0 then do
    let c := TContainer.mk c.aliases
      (updateFirst (m ++ "Document") (pmapP (patchVirtφ e.virtuals)) c.interfaces)
    let inc ← leanIncludeE schemas m
    let c := if inc then
        TContainer.mk c.aliases (updateFirst m (pmapP (patchVirtφ e.virtuals)) c.interfaces)
      else c
    pure c
  else pure c

/-- The pass over one lookup root. -/
def rmtContainer (mts : List (String × MTypes)) (schemas : String → Option MVal)
    (c : TContainer) : Except String TContainer :=
  mts.foldlM (fun c me => patchModelC schemas me.1 me.2 c) c

/-- Transcription of `replaceModelTypes`: `getRoot()` resolves to the module
block when augmenting (falling back to the file), to the file otherwise. -/
def replaceModelTypes (mts : List (String × MTypes)) (schemas : String → Option MVal)
    (isAugmented : Bool) (s : SFileM) : Except String SFileM :=
  match isAugmented, s.moduleBlock with
  | true, some c => (rmtContainer mts schemas c).map (fun c' => SFileM.mk (some c') s.topLevel)
  | true, none => (rmtContainer mts schemas s.topLevel).map (fun c' => SFileM.mk none c')
  | false, mb => (rmtContainer mts schemas s.topLevel).map (fun c' => SFileM.mk mb c')

def leanIncludeB (schemas : String → Option MVal) (m : String) : Bool :=
  match schemas m with
  | some sv => shouldLeanIncludeVirtualsV sv
  | none => false

def patchModelPure (schemas : String → Option MVal) (m : String) (e : MTypes)
    (c : TContainer) : TContainer :=
  let c := if e.methods.length > 0 then
      TContainer.mk
        (updateFirst (m ++ "Methods") (pmapP (patchSigφ e.methods .methods m)) c.aliases)
        c.interfaces
    else c
  let c := if e.statics.length > 0 then
      TContainer.mk
        (updateFirst (m ++ "Statics") (pmapP (patchSigφ e.statics .statics m)) c.aliases)
        c.interfaces
    else c
  let c := if e.query.length > 0 then
      TContainer.mk
        (updateFirst (m ++ "Queries") (pmapP (patchSigφ e.query .query m)) c.aliases)
        c.interfaces
    else c
  if e.virtuals.length > 0 then
    let c := TContainer.mk c.aliases
      (updateFirst (m ++ "Document") (pmapP (patchVirtφ e.virtuals)) c.interfaces)
    if leanIncludeB schemas m then
      TContainer.mk c.aliases (updateFirst m (pmapP (patchVirtφ e.virtuals)) c.interfaces)
    else c
  else c

def rmtPure (mts : List (String × MTypes)) (schemas : String → Option MVal)
    (c : TContainer) : TContainer :=
  mts.foldl (fun c me => patchModelPure schemas me.1 me.2 c) c

def rmtOkCond (mts : List (String × MTypes)) (schemas : String → Option MVal) : Prop :=
  ∀ me ∈ mts, 0 < me.2.virtuals.length → (schemas me.1).isSome

theorem patchModelC_ok (schemas : String → Option MVal) (m : String) (e : MTypes)
    (c : TContainer) (h : 0 < e.virtuals.length → (schemas m).isSome) :
    patchModelC schemas m e c = .ok (patchModelPure schemas m e c) := by
  unfold patchModelC patchModelPure leanIncludeE leanIncludeB
  by_cases hv : e.virtuals.length > 0
  · have := h hv
    cases hs : schemas m with
    | none => rw [hs] at this; simp at this
    | some sv => simp [hv, hs, Bind.bind, Except.bind, Pure.pure, Except.pure]
  · simp [hv, Bind.bind, Except.bind, Pure.pure, Except.pure]

theorem rmtContainer_ok (mts : List (String × MTypes)) (schemas : String → Option MVal)
    (h : rmtOkCond mts schemas) :
    ∀ c, rmtContainer mts schemas c = .ok (rmtPure mts schemas c) := by
  induction mts with
  | nil => intro c; rfl
  | cons me rest ih =>
      intro c
      have h1 : 0 < me.2.virtuals.length → (schemas me.1).isSome :=
        h me (List.mem_cons_self me rest)
      have h2 : rmtOkCond rest schemas := fun x hx => h x (List.mem_cons_of_mem me hx)
      unfold rmtContainer rmtPure
      rw [List.foldlM_cons, patchModelC_ok schemas me.1 me.2 c h1]
      simpa [rmtContainer, rmtPure, Bind.bind, Except.bind] using ih h2 _

theorem rmtContainer_ok_cond (mts : List (String × MTypes)) (schemas : String → Option MVal)
    (c : TContainer) (c' : TContainer) (h : rmtContainer mts schemas c = .ok c') :
    rmtOkCond mts schemas := by
  induction mts generalizing c with
  | nil => intro me hme; simp at hme
  | cons me rest ih =>
      intro x hx
      unfold rmtContainer at h
      rw [List.foldlM_cons] at h
      cases hp : patchModelC schemas me.1 me.2 c with
      | error err => rw [hp] at h; simp [Bind.bind, Except.bind] at h
      | ok c2 =>
          rw [hp] at h
          simp only [Bind.bind, Except.bind] at h
          rcases List.mem_cons.mp hx with rfl | hmem
          · intro hv
            unfold patchModelC at hp
            by_cases hv' : x.2.virtuals.length > 0
            · simp only [hv', if_true] at hp
              cases hs : schemas x.1 with
              | none => simp [leanIncludeE, hs, Bind.bind, Except.bind] at hp
              | some sv => simp [hs]
            · omega
          · exact ih c2 h x hmem

def entryAliasφ (m : String) (e : MTypes) (n : String) : String → String → String :=
  fun name old =>
    let o1 := if 0 < e.methods.length ∧ n = m ++ "Methods" then
        patchSigφ e.methods .methods m name old else old
    let o2 := if 0 < e.statics.length ∧ n = m ++ "Statics" then
        patchSigφ e.statics .statics m name o1 else o1
    if 0 < e.query.length ∧ n = m ++ "Queries" then
        patchSigφ e.query .query m name o2 else o2

def entryIfaceφ (schemas : String → Option MVal) (m : String) (e : MTypes) (n : String) :
    String → String → String :=
  fun name old =>
    let o1 := if 0 < e.virtuals.length ∧ n = m ++ "Document" then
        patchVirtφ e.virtuals name old else old
    if 0 < e.virtuals.length ∧ leanIncludeB schemas m ∧ n = m then
        patchVirtφ e.virtuals name o1 else o1

def aliasPhiAll : List (String × MTypes) → String → String → String → String
  | [], _ => fun _ old => old
  | me :: rest, n => fun name old => aliasPhiAll rest n name (entryAliasφ me.1 me.2 n name old)

def ifacePhiAll (schemas : String → Option MVal) :
    List (String × MTypes) → String → String → String → String
  | [], _ => fun _ old => old
  | me :: rest, n => fun name old =>
      ifacePhiAll schemas rest n name (entryIfaceφ schemas me.1 me.2 n name old)

theorem updateFirst_names {α : Type} (n : String) (f : α → α) (l : List (String × α)) :
    (updateFirst n f l).map Prod.fst = l.map Prod.fst := by
  induction l with
  | nil => rfl
  | cons kv rest ih =>
      obtain ⟨k, v⟩ := kv
      by_cases h : k = n
      · simp [updateFirst, h]
      · simpa [updateFirst, h] using ih

theorem updateFirst_lookup {α : Type} (n n' : String) (f : α → α) (l : List (String × α)) :
    lookupA (updateFirst n f l) n' =
      if n' = n then (lookupA l n').map f else lookupA l n' := by
  induction l with
  | nil => simp [updateFirst, lookupA]
  | cons kv rest ih =>
      obtain ⟨k, v⟩ := kv
      simp only [updateFirst]
      by_cases hk : k = n
      · subst hk
        by_cases hk' : k = n'
        · subst hk'
          simp [lookupA]
        · have hne : ¬ n' = k := fun h => hk' h.symm
          simp [lookupA, hk', hne]
      · simp only [if_neg hk]
        by_cases hk' : k = n'
        · subst hk'
          simp [lookupA, hk]
        · simp [lookupA, hk', ih]

theorem pmapP_names (φ : String → String → String) (ps : Props) :
    (pmapP φ ps).map Prod.fst = ps.map Prod.fst := by
  induction ps with
  | nil => rfl
  | cons p rest ih => simpa [pmapP] using ih

theorem pmapP_pmapP (φ ψ : String → String → String) (ps : Props) :
    pmapP φ (pmapP ψ ps) = pmapP (fun name old => φ name (ψ name old)) ps := by
  induction ps with
  | nil => rfl
  | cons p rest ih => simpa [pmapP] using ih

theorem pmapP_id (ps : Props) : pmapP (fun _ old => old) ps = ps := by
  induction ps with
  | nil => rfl
  | cons p rest ih => simpa [pmapP] using ih

theorem pmapP_lookup (φ : String → String → String) (ps : Props) (p : String) :
    lookupA (pmapP φ ps) p = (lookupA ps p).map (φ p) := by
  induction ps with
  | nil => rfl
  | cons kv rest ih =>
      obtain ⟨k, v⟩ := kv
      by_cases hk : k = p
      · subst hk; simp [pmapP, lookupA]
      · simpa [pmapP, lookupA, hk] using ih

theorem patchModelPure_aliasNames (schemas : String → Option MVal) (m : String) (e : MTypes)
    (c : TContainer) :
    (patchModelPure schemas m e c).aliases.map Prod.fst = c.aliases.map Prod.fst := by
  unfold patchModelPure
  split_ifs <;> simp [updateFirst_names]

theorem patchModelPure_ifaceNames (schemas : String → Option MVal) (m : String) (e : MTypes)
    (c : TContainer) :
    (patchModelPure schemas m e c).interfaces.map Prod.fst = c.interfaces.map Prod.fst := by
  unfold patchModelPure
  split_ifs <;> simp [updateFirst_names]

theorem strAppendInj {m a b : String} (h : m ++ a = m ++ b) : a = b := by
  have h2 : (m ++ a).data = (m ++ b).data := congrArg String.data h
  rw [String.data_append, String.data_append] at h2
  have h3 := List.append_cancel_left h2
  cases a
  cases b
  exact congrArg String.mk h3

theorem patchModelPure_aliasLookup (schemas : String → Option MVal) (m : String) (e : MTypes)
    (c : TContainer) (n : String) :
    lookupA (patchModelPure schemas m e c).aliases n
      = (lookupA c.aliases n).map (pmapP (entryAliasφ m e n)) := by
  have d12 : (m ++ "Methods") ≠ (m ++ "Statics") :=
    fun h => absurd (strAppendInj h) (by decide)
  have d13 : (m ++ "Methods") ≠ (m ++ "Queries") :=
    fun h => absurd (strAppendInj h) (by decide)
  have d23 : (m ++ "Statics") ≠ (m ++ "Queries") :=
    fun h => absurd (strAppendInj h) (by decide)
  unfold patchModelPure entryAliasφ
  by_cases g1 : e.methods.length > 0 <;>
  by_cases g2 : e.statics.length > 0 <;>
  by_cases g3 : e.query.length > 0 <;>
  by_cases g4 : e.virtuals.length > 0 <;>
  by_cases g5 : leanIncludeB schemas m <;>
  simp [g1, g2, g3, g4, g5, updateFirst_lookup] <;>
  by_cases h1 : n = m ++ "Methods" <;>
  by_cases h2 : n = m ++ "Statics" <;>
  by_cases h3 : n = m ++ "Queries" <;>
  cases lookupA c.aliases n <;>
  simp [h1, h2, h3, pmapP_pmapP, pmapP_id, g1, g2, g3, d12, d13, d23,
    d12.symm, d13.symm, d23.symm]

theorem strAppendNeSelf (m t : String) (h : t ≠ "") : m ++ t ≠ m := by
  intro he
  have h2 : (m ++ t).length = m.length := congrArg String.length he
  rw [String.length_append] at h2
  have h3 : t.length = 0 := by omega
  exact h (by cases t with
    | mk data =>
        cases data with
        | nil => rfl
        | cons c rest => simp [String.length] at h3)

theorem patchModelPure_ifaceLookup (schemas : String → Option MVal) (m : String) (e : MTypes)
    (c : TContainer) (n : String) :
    lookupA (patchModelPure schemas m e c).interfaces n
      = (lookupA c.interfaces n).map (pmapP (entryIfaceφ schemas m e n)) := by
  have dDoc : (m ++ "Document") ≠ m := strAppendNeSelf m "Document" (by decide)
  unfold patchModelPure entryIfaceφ
  by_cases g1 : e.methods.length > 0 <;>
  by_cases g2 : e.statics.length > 0 <;>
  by_cases g3 : e.query.length > 0 <;>
  by_cases g4 : e.virtuals.length > 0 <;>
  by_cases g5 : leanIncludeB schemas m <;>
  simp [g1, g2, g3, g4, g5, updateFirst_lookup] <;>
  by_cases h1 : n = m ++ "Document" <;>
  by_cases h2 : n = m <;>
  cases lookupA c.interfaces n <;>
  simp [h1, h2, pmapP_pmapP, pmapP_id, g4, g5, dDoc, dDoc.symm]

theorem rmtPure_aliasNames (mts : List (String × MTypes)) (schemas : String → Option MVal) :
    ∀ c, (rmtPure mts schemas c).aliases.map Prod.fst = c.aliases.map Prod.fst := by
  induction mts with
  | nil => intro c; rfl
  | cons me rest ih =>
      intro c
      unfold rmtPure
      rw [List.foldl_cons]
      calc ((rest.foldl (fun c me => patchModelPure schemas me.1 me.2 c)
              (patchModelPure schemas me.1 me.2 c)).aliases).map Prod.fst
          = (patchModelPure schemas me.1 me.2 c).aliases.map Prod.fst := ih _
        _ = c.aliases.map Prod.fst := patchModelPure_aliasNames schemas me.1 me.2 c

theorem rmtPure_ifaceNames (mts : List (String × MTypes)) (schemas : String → Option MVal) :
    ∀ c, (rmtPure mts schemas c).interfaces.map Prod.fst = c.interfaces.map Prod.fst := by
  induction mts with
  | nil => intro c; rfl
  | cons me rest ih =>
      intro c
      unfold rmtPure
      rw [List.foldl_cons]
      calc ((rest.foldl (fun c me => patchModelPure schemas me.1 me.2 c)
              (patchModelPure schemas me.1 me.2 c)).interfaces).map Prod.fst
          = (patchModelPure schemas me.1 me.2 c).interfaces.map Prod.fst := ih _
        _ = c.interfaces.map Prod.fst := patchModelPure_ifaceNames schemas me.1 me.2 c

theorem rmtPure_aliasLookup (mts : List (String × MTypes)) (schemas : String → Option MVal)
    (n : String) :
    ∀ c, lookupA (rmtPure mts schemas c).aliases n
      = (lookupA c.aliases n).map (pmapP (aliasPhiAll mts n)) := by
  induction mts with
  | nil =>
      intro c
      cases h : lookupA c.aliases n <;> simp [rmtPure, aliasPhiAll, pmapP_id, h]
  | cons me rest ih =>
      intro c
      unfold rmtPure
      rw [List.foldl_cons]
      have step := patchModelPure_aliasLookup schemas me.1 me.2 c n
      calc lookupA ((rest.foldl (fun c me => patchModelPure schemas me.1 me.2 c)
              (patchModelPure schemas me.1 me.2 c)).aliases) n
          = (lookupA (patchModelPure schemas me.1 me.2 c).aliases n).map
              (pmapP (aliasPhiAll rest n)) := ih _
        _ = ((lookupA c.aliases n).map (pmapP (entryAliasφ me.1 me.2 n))).map
              (pmapP (aliasPhiAll rest n)) := by rw [step]
        _ = (lookupA c.aliases n).map (pmapP (aliasPhiAll (me :: rest) n)) := by
              cases lookupA c.aliases n <;> simp [aliasPhiAll, pmapP_pmapP]

theorem rmtPure_ifaceLookup (mts : List (String × MTypes)) (schemas : String → Option MVal)
    (n : String) :
    ∀ c, lookupA (rmtPure mts schemas c).interfaces n
      = (lookupA c.interfaces n).map (pmapP (ifacePhiAll schemas mts n)) := by
  induction mts with
  | nil =>
      intro c
      cases h : lookupA c.interfaces n <;> simp [rmtPure, ifacePhiAll, pmapP_id, h]
  | cons me rest ih =>
      intro c
      unfold rmtPure
      rw [List.foldl_cons]
      have step := patchModelPure_ifaceLookup schemas me.1 me.2 c n
      calc lookupA ((rest.foldl (fun c me => patchModelPure schemas me.1 me.2 c)
              (patchModelPure schemas me.1 me.2 c)).interfaces) n
          = (lookupA (patchModelPure schemas me.1 me.2 c).interfaces n).map
              (pmapP (ifacePhiAll schemas rest n)) := ih _
        _ = ((lookupA c.interfaces n).map (pmapP (entryIfaceφ schemas me.1 me.2 n))).map
              (pmapP (ifacePhiAll schemas rest n)) := by rw [step]
        _ = (lookupA c.interfaces n).map (pmapP (ifacePhiAll schemas (me :: rest) n)) := by
              cases lookupA c.interfaces n <;> simp [ifacePhiAll, pmapP_pmapP]

def constOrId (φ : String → String → String) : Prop :=
  ∀ name, (∀ t u, φ name t = φ name u) ∨ (∀ t, φ name t = t)


theorem constOrId_entryAliasφ (m : String) (e : MTypes) (n : String) :
    constOrId (entryAliasφ m e n) := by
  have d12 : (m ++ "Methods") ≠ (m ++ "Statics") :=
    fun h => absurd (strAppendInj h) (by decide)
  have d13 : (m ++ "Methods") ≠ (m ++ "Queries") :=
    fun h => absurd (strAppendInj h) (by decide)
  have d23 : (m ++ "Statics") ≠ (m ++ "Queries") :=
    fun h => absurd (strAppendInj h) (by decide)
  intro name
  unfold entryAliasφ
  by_cases g1 : e.methods.length > 0 ∧ n = m ++ "Methods" <;>
  by_cases g2 : e.statics.length > 0 ∧ n = m ++ "Statics" <;>
  by_cases g3 : e.query.length > 0 ∧ n = m ++ "Queries"
  all_goals try exact absurd (g1.2.symm.trans g2.2) d12
  all_goals try exact absurd (g1.2.symm.trans g3.2) d13
  all_goals try exact absurd (g2.2.symm.trans g3.2) d23
  · simp only [if_pos g1, if_neg g2, if_neg g3]
    unfold patchSigφ
    cases hm : lookupA e.methods name
    · right
      intro t
      simp [hm]
    · left
      intro t u
      simp [hm]
  · simp only [if_neg g1, if_pos g2, if_neg g3]
    unfold patchSigφ
    cases hs : lookupA e.statics name
    · right
      intro t
      simp [hs]
    · left
      intro t u
      simp [hs]
  · simp only [if_neg g1, if_neg g2, if_pos g3]
    unfold patchSigφ
    cases hq : lookupA e.query name
    · right
      intro t
      simp [hq]
    · left
      intro t u
      simp [hq]
  · simp only [if_neg g1, if_neg g2, if_neg g3]
    right
    intro t
    trivial

theorem constOrId_entryIfaceφ (schemas : String → Option MVal) (m : String) (e : MTypes)
    (n : String) : constOrId (entryIfaceφ schemas m e n) := by
  have dD : (m ++ "Document") ≠ m := strAppendNeSelf m "Document" (by decide)
  intro name
  unfold entryIfaceφ
  by_cases g1 : e.virtuals.length > 0 ∧ n = m ++ "Document" <;>
  by_cases g2 : e.virtuals.length > 0 ∧ leanIncludeB schemas m ∧ n = m
  all_goals try exact absurd (g1.2.symm.trans g2.2.2) dD
  · simp only [if_pos g1, if_neg g2]
    unfold patchVirtφ
    cases hv : lookupA e.virtuals name
    · right
      intro t
      simp [hv]
    · left
      intro t u
      simp [hv]
  · simp only [if_neg g1, if_pos g2]
    unfold patchVirtφ
    cases hv : lookupA e.virtuals name
    · right
      intro t
      simp [hv]
    · left
      intro t u
      simp [hv]
  · simp only [if_neg g1, if_neg g2]
    right
    intro t
    trivial

theorem constOrId_comp {φ ψ : String → String → String} (hφ : constOrId φ)
    (hψ : constOrId ψ) : constOrId (fun name old => ψ name (φ name old)) := by
  intro name
  rcases hψ name with hc | hi
  · left
    intro t u
    show ψ name (φ name t) = ψ name (φ name u)
    exact hc _ _
  · rcases hφ name with hc' | hi'
    · left
      intro t u
      show ψ name (φ name t) = ψ name (φ name u)
      rw [hi, hi]
      exact hc' t u
    · right
      intro t
      show ψ name (φ name t) = t
      rw [hi' t, hi t]

theorem constOrId_id : constOrId (fun _ old => old) := fun _ => Or.inr (fun _ => rfl)

theorem constOrId_aliasPhiAll (mts : List (String × MTypes)) (n : String) :
    constOrId (aliasPhiAll mts n) := by
  induction mts with
  | nil => exact constOrId_id
  | cons me rest ih =>
      show constOrId (fun name old =>
        aliasPhiAll rest n name (entryAliasφ me.1 me.2 n name old))
      exact constOrId_comp (constOrId_entryAliasφ me.1 me.2 n) ih

theorem constOrId_ifacePhiAll (schemas : String → Option MVal)
    (mts : List (String × MTypes)) (n : String) :
    constOrId (ifacePhiAll schemas mts n) := by
  induction mts with
  | nil => exact constOrId_id
  | cons me rest ih =>
      show constOrId (fun name old =>
        ifacePhiAll schemas rest n name (entryIfaceφ schemas me.1 me.2 n name old))
      exact constOrId_comp (constOrId_entryIfaceφ schemas me.1 me.2 n) ih

theorem pmapP_idem {φ : String → String → String} (h : constOrId φ) (ps : Props) :
    pmapP φ (pmapP φ ps) = pmapP φ ps := by
  rw [pmapP_pmapP]
  induction ps with
  | nil => rfl
  | cons p rest ih =>
      have hp : φ p.1 (φ p.1 p.2) = φ p.1 p.2 := by
        rcases h p.1 with hc | hi
        · exact hc _ _
        · rw [hi, hi]
      simp only [pmapP, List.map_cons] at ih ⊢
      rw [hp, ih]

theorem lookupA_eq_none {α : Type} {l : List (String × α)} {k : String}
    (h : k ∉ l.map Prod.fst) : lookupA l k = none := by
  induction l with
  | nil => rfl
  | cons kv rest ih =>
      obtain ⟨k', v⟩ := kv
      simp only [List.map_cons, List.mem_cons] at h
      have h1 : ¬ k' = k := fun he => h (Or.inl he.symm)
      simp [lookupA, h1, ih (fun hm => h (Or.inr hm))]

theorem assocExt {α : Type} :
    ∀ (l₁ l₂ : List (String × α)), l₁.map Prod.fst = l₂.map Prod.fst →
    (l₁.map Prod.fst).Nodup → (∀ n, lookupA l₁ n = lookupA l₂ n) → l₁ = l₂ := by
  intro l₁
  induction l₁ with
  | nil =>
      intro l₂ hn _ _
      cases l₂ with
      | nil => rfl
      | cons kv rest => simp at hn
  | cons kv rest ih =>
      intro l₂ hn hd hl
      cases l₂ with
      | nil => simp at hn
      | cons kv₂ rest₂ =>
          obtain ⟨k, v⟩ := kv
          obtain ⟨k₂, v₂⟩ := kv₂
          simp only [List.map_cons, List.cons.injEq] at hn
          obtain ⟨hk, htl⟩ := hn
          subst hk
          have hv : v = v₂ := by
            have hlk := hl k
            simp [lookupA] at hlk
            exact hlk
          subst hv
          simp only [List.map_cons, List.nodup_cons] at hd
          obtain ⟨hknot, hdtl⟩ := hd
          have htail : rest = rest₂ := by
            apply ih rest₂ htl hdtl
            intro n
            by_cases hnk : n = k
            · subst hnk
              rw [lookupA_eq_none hknot, lookupA_eq_none (htl ▸ hknot)]
            · have hln := hl n
              have hkn : ¬ k = n := fun h => hnk h.symm
              simp only [lookupA, if_neg hkn] at hln
              exact hln
          rw [htail]

theorem containerExt (x y : TContainer) (ha : x.aliases = y.aliases)
    (hi : x.interfaces = y.interfaces) : x = y := by
  cases x
  cases y
  simp_all

theorem rmtPure_idem (mts : List (String × MTypes)) (schemas : String → Option MVal)
    (c : TContainer) (h1 : (c.aliases.map Prod.fst).Nodup)
    (h2 : (c.interfaces.map Prod.fst).Nodup) :
    rmtPure mts schemas (rmtPure mts schemas c) = rmtPure mts schemas c := by
  apply containerExt
  · apply assocExt
    · rw [rmtPure_aliasNames, rmtPure_aliasNames]
    · rw [rmtPure_aliasNames, rmtPure_aliasNames]
      exact h1
    · intro n
      rw [rmtPure_aliasLookup, rmtPure_aliasLookup]
      cases h : lookupA c.aliases n with
      | none => simp [h]
      | some ps => simp [h, pmapP_idem (constOrId_aliasPhiAll mts n)]
  · apply assocExt
    · rw [rmtPure_ifaceNames, rmtPure_ifaceNames]
    · rw [rmtPure_ifaceNames, rmtPure_ifaceNames]
      exact h2
    · intro n
      rw [rmtPure_ifaceLookup, rmtPure_ifaceLookup]
      cases h : lookupA c.interfaces n with
      | none => simp [h]
      | some ps => simp [h, pmapP_idem (constOrId_ifacePhiAll schemas mts n)]

/-- The lookup root `getRoot()` resolves to. -/
def rootOf (isAugmented : Bool) (s : SFileM) : TContainer :=
  match isAugmented, s.moduleBlock with
  | true, some c => c
  | true, none => s.topLevel
  | false, _ => s.topLevel

/-- The type text of member `p` of type alias `n`. -/
def propAtAliases (c : TContainer) (n p : String) : Option String :=
  (lookupA c.aliases n).bind (fun ps => lookupA ps p)

/-- The type text of member `p` of interface `n`. -/
def propAtIfaces (c : TContainer) (n p : String) : Option String :=
  (lookupA c.interfaces n).bind (fun ps => lookupA ps p)

/-- Some entry of the Known-Signature Source overrides member `p` of type
alias `n`. -/
def aliasOverride (mts : List (String × MTypes)) (n p : String) : Prop :=
  ∃ me ∈ mts,
    (me.2.methods.length > 0 ∧ n = me.1 ++ "Methods" ∧ (lookupA me.2.methods p).isSome) ∨
    (me.2.statics.length > 0 ∧ n = me.1 ++ "Statics" ∧ (lookupA me.2.statics p).isSome) ∨
    (me.2.query.length > 0 ∧ n = me.1 ++ "Queries" ∧ (lookupA me.2.query p).isSome)

/-- Some entry of the Known-Signature Source overrides member `p` of
interface `n` (live-shape interface, or plain interface when the options
include virtuals in lean output). -/
def ifaceOverride (schemas : String → Option MVal) (mts : List (String × MTypes))
    (n p : String) : Prop :=
  ∃ me ∈ mts, me.2.virtuals.length > 0 ∧
    (n = me.1 ++ "Document" ∨ (leanIncludeB schemas me.1 ∧ n = me.1)) ∧
    (lookupA me.2.virtuals p).isSome

theorem aliasPhiAll_id (mts : List (String × MTypes)) (n p : String)
    (h : ¬ aliasOverride mts n p) : ∀ old, aliasPhiAll mts n p old = old := by
  induction mts with
  | nil => intro old; rfl
  | cons me rest ih =>
      intro old
      have hme : ¬ ((me.2.methods.length > 0 ∧ n = me.1 ++ "Methods" ∧
            (lookupA me.2.methods p).isSome) ∨
          (me.2.statics.length > 0 ∧ n = me.1 ++ "Statics" ∧
            (lookupA me.2.statics p).isSome) ∨
          (me.2.query.length > 0 ∧ n = me.1 ++ "Queries" ∧
            (lookupA me.2.query p).isSome)) :=
        fun hc => h ⟨me, List.mem_cons_self me rest, hc⟩
      have hrest : ¬ aliasOverride rest n p :=
        fun ⟨x, hx, hc⟩ => h ⟨x, List.mem_cons_of_mem me hx, hc⟩
      have d12 : (me.1 ++ "Methods") ≠ (me.1 ++ "Statics") :=
        fun hx => absurd (strAppendInj hx) (by decide)
      have d13 : (me.1 ++ "Methods") ≠ (me.1 ++ "Queries") :=
        fun hx => absurd (strAppendInj hx) (by decide)
      have d23 : (me.1 ++ "Statics") ≠ (me.1 ++ "Queries") :=
        fun hx => absurd (strAppendInj hx) (by decide)
      have hentry : entryAliasφ me.1 me.2 n p old = old := by
        unfold entryAliasφ patchSigφ
        push_neg at hme
        obtain ⟨hm, hs, hq⟩ := hme
        by_cases g1 : me.2.methods.length > 0 ∧ n = me.1 ++ "Methods" <;>
        by_cases g2 : me.2.statics.length > 0 ∧ n = me.1 ++ "Statics" <;>
        by_cases g3 : me.2.query.length > 0 ∧ n = me.1 ++ "Queries"
        all_goals try exact absurd (g1.2.symm.trans g2.2) d12
        all_goals try exact absurd (g1.2.symm.trans g3.2) d13
        all_goals try exact absurd (g2.2.symm.trans g3.2) d23
        · have hn1 : lookupA me.2.methods p = none :=
            Option.not_isSome_iff_eq_none.mp (hm g1.1 g1.2)
          simp [g1, g2, g3, hn1, d12, d13, d23, d12.symm, d13.symm, d23.symm]
        · have hn2 : lookupA me.2.statics p = none :=
            Option.not_isSome_iff_eq_none.mp (hs g2.1 g2.2)
          simp [g1, g2, g3, hn2, d12, d13, d23, d12.symm, d13.symm, d23.symm]
        · have hn3 : lookupA me.2.query p = none :=
            Option.not_isSome_iff_eq_none.mp (hq g3.1 g3.2)
          simp [g1, g2, g3, hn3, d12, d13, d23, d12.symm, d13.symm, d23.symm]
        · simp [g1, g2, g3, d12, d13, d23, d12.symm, d13.symm, d23.symm]
      show aliasPhiAll rest n p (entryAliasφ me.1 me.2 n p old) = old
      rw [hentry, ih hrest]

theorem ifacePhiAll_id (schemas : String → Option MVal) (mts : List (String × MTypes))
    (n p : String) (h : ¬ ifaceOverride schemas mts n p) :
    ∀ old, ifacePhiAll schemas mts n p old = old := by
  induction mts with
  | nil => intro old; rfl
  | cons me rest ih =>
      intro old
      have hme : ¬ (me.2.virtuals.length > 0 ∧
          (n = me.1 ++ "Document" ∨ (leanIncludeB schemas me.1 ∧ n = me.1)) ∧
          (lookupA me.2.virtuals p).isSome) :=
        fun hc => h ⟨me, List.mem_cons_self me rest, hc⟩
      have hrest : ¬ ifaceOverride schemas rest n p :=
        fun ⟨x, hx, hc⟩ => h ⟨x, List.mem_cons_of_mem me hx, hc⟩
      have hentry : entryIfaceφ schemas me.1 me.2 n p old = old := by
        unfold entryIfaceφ patchVirtφ
        by_cases g1 : me.2.virtuals.length > 0 ∧ n = me.1 ++ "Document"
        · have hn : lookupA me.2.virtuals p = none := by
            rcases hlk : lookupA me.2.virtuals p with _ | v
            · rfl
            · exact absurd ⟨g1.1, Or.inl g1.2, by simp [hlk]⟩ hme
          by_cases g2 : me.2.virtuals.length > 0 ∧ leanIncludeB schemas me.1 ∧ n = me.1
          · simp [g1, g2, hn]
          · simp [g1, g2, hn]
        · by_cases g2 : me.2.virtuals.length > 0 ∧ leanIncludeB schemas me.1 ∧ n = me.1
          · have hn : lookupA me.2.virtuals p = none := by
              rcases hlk : lookupA me.2.virtuals p with _ | v
              · rfl
              · exact absurd ⟨g2.1, Or.inr ⟨g2.2.1, g2.2.2⟩, by simp [hlk]⟩ hme
            simp [g1, g2, hn]
          · simp [g1, g2]
      show ifacePhiAll schemas rest n p (entryIfaceφ schemas me.1 me.2 n p old) = old
      rw [hentry, ih hrest]

theorem propAtAliases_rmtPure (mts : List (String × MTypes)) (schemas : String → Option MVal)
    (c : TContainer) (n p : String) (h : ¬ aliasOverride mts n p) :
    propAtAliases (rmtPure mts schemas c) n p = propAtAliases c n p := by
  unfold propAtAliases
  rw [rmtPure_aliasLookup]
  cases hl : lookupA c.aliases n with
  | none => simp
  | some ps =>
      simp only [Option.map_some, Option.some_bind]
      cases hp : lookupA ps p with
      | none => simp [pmapP_lookup, hp]
      | some t => simp [pmapP_lookup, hp, aliasPhiAll_id mts n p h t]

theorem propAtIfaces_rmtPure (mts : List (String × MTypes)) (schemas : String → Option MVal)
    (c : TContainer) (n p : String) (h : ¬ ifaceOverride schemas mts n p) :
    propAtIfaces (rmtPure mts schemas c) n p = propAtIfaces c n p := by
  unfold propAtIfaces
  rw [rmtPure_ifaceLookup]
  cases hl : lookupA c.interfaces n with
  | none => simp
  | some ps =>
      simp only [Option.map_some, Option.some_bind]
      cases hp : lookupA ps p with
      | none => simp [pmapP_lookup, hp]
      | some t => simp [pmapP_lookup, hp, ifacePhiAll_id schemas mts n p h t]

theorem rmtContainer_idem (mts : List (String × MTypes)) (schemas : String → Option MVal)
    (c c' : TContainer) (hA : (c.aliases.map Prod.fst).Nodup)
    (hI : (c.interfaces.map Prod.fst).Nodup)
    (hr : rmtContainer mts schemas c = .ok c') :
    rmtContainer mts schemas c' = .ok c'
    ∧ (∀ n p, ¬ aliasOverride mts n p → propAtAliases c' n p = propAtAliases c n p)
    ∧ (∀ n p, ¬ ifaceOverride schemas mts n p →
        propAtIfaces c' n p = propAtIfaces c n p) := by
  have hcond := rmtContainer_ok_cond mts schemas c c' hr
  have hpure := rmtContainer_ok mts schemas hcond c
  have hc' : c' = rmtPure mts schemas c := by
    rw [hr] at hpure
    exact (Except.ok.inj hpure)
  subst hc'
  refine ⟨?_, ?_, ?_⟩
  · rw [rmtContainer_ok mts schemas hcond _, rmtPure_idem mts schemas c hA hI]
  · intro n p hn
    exact propAtAliases_rmtPure mts schemas c n p hn
  · intro n p hn
    exact propAtIfaces_rmtPure mts schemas c n p hn

/-- C9: the Structural Patch Pass is idempotent. For every known-signature
source, schema map, augmentation flag and generated file whose lookup root
declares each type alias and each interface at most once, if
`replaceModelTypes` succeeds then applying it to its own output reproduces
that output exactly; moreover every alias member and every interface member
with no known override keeps its original type text through the pass. -/
theorem claim9 (mts : List (String × MTypes)) (schemas : String → Option MVal)
    (isAugmented : Bool) (s s' : SFileM)
    (hA : ((rootOf isAugmented s).aliases.map Prod.fst).Nodup)
    (hI : ((rootOf isAugmented s).interfaces.map Prod.fst).Nodup)
    (h : replaceModelTypes mts schemas isAugmented s = .ok s') :
    replaceModelTypes mts schemas isAugmented s' = .ok s'
    ∧ (∀ n p, ¬ aliasOverride mts n p →
        propAtAliases (rootOf isAugmented s') n p
          = propAtAliases (rootOf isAugmented s) n p)
    ∧ (∀ n p, ¬ ifaceOverride schemas mts n p →
        propAtIfaces (rootOf isAugmented s') n p
          = propAtIfaces (rootOf isAugmented s) n p) := by
  cases isAugmented with
  | true =>
      cases hmb : s.moduleBlock with
      | some c =>
          rw [show replaceModelTypes mts schemas true s
              = (rmtContainer mts schemas c).map
                  (fun c' => SFileM.mk (some c') s.topLevel) by
            unfold replaceModelTypes
            rw [hmb]] at h
          cases hr : rmtContainer mts schemas c with
          | error err => rw [hr] at h; simp [Except.map] at h
          | ok c' =>
              rw [hr] at h
              simp only [Except.map] at h
              have hs' : s' = SFileM.mk (some c') s.topLevel := (Except.ok.inj h).symm
              subst hs'
              have hroot : rootOf true s = c := by unfold rootOf; rw [hmb]
              rw [hroot] at hA hI
              obtain ⟨hidem, hal, hif⟩ := rmtContainer_idem mts schemas c c' hA hI hr
              refine ⟨?_, ?_, ?_⟩
              · show (rmtContainer mts schemas c').map
                    (fun c'' => SFileM.mk (some c'') (SFileM.mk (some c') s.topLevel).topLevel)
                    = .ok (SFileM.mk (some c') s.topLevel)
                rw [hidem]
                rfl
              · intro n p hn
                rw [hroot]
                exact hal n p hn
              · intro n p hn
                rw [hroot]
                exact hif n p hn
      | none =>
          rw [show replaceModelTypes mts schemas true s
              = (rmtContainer mts schemas s.topLevel).map (fun c' => SFileM.mk none c') by
            unfold replaceModelTypes
            rw [hmb]] at h
          cases hr : rmtContainer mts schemas s.topLevel with
          | error err => rw [hr] at h; simp [Except.map] at h
          | ok c' =>
              rw [hr] at h
              simp only [Except.map] at h
              have hs' : s' = SFileM.mk none c' := (Except.ok.inj h).symm
              subst hs'
              have hroot : rootOf true s = s.topLevel := by unfold rootOf; rw [hmb]
              rw [hroot] at hA hI
              obtain ⟨hidem, hal, hif⟩ := rmtContainer_idem mts schemas s.topLevel c' hA hI hr
              refine ⟨?_, ?_, ?_⟩
              · show (rmtContainer mts schemas c').map (fun c'' => SFileM.mk none c'')
                    = .ok (SFileM.mk none c')
                rw [hidem]
                rfl
              · intro n p hn
                rw [hroot]
                exact hal n p hn
              · intro n p hn
                rw [hroot]
                exact hif n p hn
  | false =>
      rw [show replaceModelTypes mts schemas false s
          = (rmtContainer mts schemas s.topLevel).map
              (fun c' => SFileM.mk s.moduleBlock c') by
        unfold replaceModelTypes
        rfl] at h
      cases hr : rmtContainer mts schemas s.topLevel with
      | error err => rw [hr] at h; simp [Except.map] at h
      | ok c' =>
          rw [hr] at h
          simp only [Except.map] at h
          have hs' : s' = SFileM.mk s.moduleBlock c' := (Except.ok.inj h).symm
          subst hs'
          have hroot : rootOf false s = s.topLevel := by
            unfold rootOf
            cases s.moduleBlock <;> rfl
          rw [hroot] at hA hI
          obtain ⟨hidem, hal, hif⟩ := rmtContainer_idem mts schemas s.topLevel c' hA hI hr
          refine ⟨?_, ?_, ?_⟩
          · show (rmtContainer mts schemas c').map
                (fun c'' => SFileM.mk s.moduleBlock c'') = .ok (SFileM.mk s.moduleBlock c')
            rw [hidem]
            rfl
          · intro n p hn
            rw [hroot]
            exact hal n p hn
          · intro n p hn
            rw [hroot]
            exact hif n p hn

def w9mts : List (String × MTypes) :=
  [("User", MTypes.mk [("isMinor", "(this: UserDocument) => boolean")] [] [] [])]

def w9schemas : String → Option MVal := fun _ => none

def w9s : SFileM :=
  SFileM.mk none (TContainer.mk
    [("UserMethods", [("isMinor", "(...args: any[]) => any")])]
    [("UserDocument", [("name", "string")])])

def w9s' : SFileM :=
  SFileM.mk none (TContainer.mk
    [("UserMethods", [("isMinor", "(this: UserDocument) => boolean")])]
    [("UserDocument", [("name", "string")])])

theorem claim9_witness :
    ((rootOf false w9s).aliases.map Prod.fst).Nodup
    ∧ replaceModelTypes w9mts w9schemas false w9s' = .ok w9s'
    ∧ propAtIfaces (rootOf false w9s') "UserDocument" "name"
        = propAtIfaces (rootOf false w9s) "UserDocument" "name" := by
  have h : replaceModelTypes w9mts w9schemas false w9s = .ok w9s' := by rfl
  have H := claim9 w9mts w9schemas false w9s w9s' (by decide) (by decide) h
  refine ⟨by decide, H.1, H.2.2 "UserDocument" "name" ?_⟩
  rintro ⟨me, hme, hv, -⟩
  simp only [w9mts, List.mem_cons, List.not_mem_nil, or_false] at hme
  subst hme
  simp at hv

def scalarTy (c : NativeCtor) (isDocument : Bool) : String :=
  match c with
  | .jsString => "string"
  | .jsNumber => "number"
  | .jsBoolean => "boolean"
  | .jsDate => "Date"
  | .jsBuffer => if isDocument then "mongoose.Types.Buffer" else "Buffer"
  | .schemaObjectId => "mongoose.Types.ObjectId"
  | .typesObjectId => "mongoose.Types.ObjectId"
  | .schemaDecimal128 => if isDocument then "mongoose.Types.Decimal128" else "number"
  | .typesDecimal128 => if isDocument then "mongoose.Types.Decimal128" else "number"
  | _ => ""

def scalarLine (isDocument : Bool) (k : String) (c : NativeCtor) : String :=
  makeLine k (scalarTy c isDocument) (if k == "_id" then false else true) true

theorem keyCall_scalar (n : Nat) (schema : MVal) (isDocument : Bool) (k : String)
    (c : NativeCtor) (hc : isBaseTypeCandidate (.vCtor c) = true)
    (hk : k ∉ internalMetadataKeys) :
    runP (n + 1) (.keyCall schema isDocument k (.vCtor c))
      = .ok (scalarLine isDocument k c) := by
  have hks := hk
  simp only [internalMetadataKeys, List.mem_cons, List.not_mem_nil, or_false, not_or] at hks
  obtain ⟨h1, h2, h3, h4, h5, h6, h7, h8, h9⟩ := hks
  have b1 : (k == "get") = false := beq_eq_false_iff_ne.mpr h1
  have b2 : (k == "set") = false := beq_eq_false_iff_ne.mpr h2
  have b3 : (k == "schemaName") = false := beq_eq_false_iff_ne.mpr h3
  have b4 : (k == "defaultOptions") = false := beq_eq_false_iff_ne.mpr h4
  have b5 : (k == "_checkRequired") = false := beq_eq_false_iff_ne.mpr h5
  have b6 : (k == "_cast") = false := beq_eq_false_iff_ne.mpr h6
  have b7 : (k == "checkRequired") = false := beq_eq_false_iff_ne.mpr h7
  have b8 : (k == "cast") = false := beq_eq_false_iff_ne.mpr h8
  have b9 : (k == "__v") = false := beq_eq_false_iff_ne.mpr h9
  have hcon : internalMetadataKeys.contains k = false := by
    simp only [internalMetadataKeys, List.contains_cons, List.contains_nil,
      b1, b2, b3, b4, b5, b6, b7, b8, b9, Bool.or_false, Bool.or_self]
  cases c
  case jsMap => exact absurd hc (by decide)
  case mixed => exact absurd hc (by decide)
  all_goals
    cases isDocument <;>
    simp [runP, pkNormalize, pkPlan, pkFinish, scalarLine, scalarTy,
      convertBaseTypeToTs, convertBaseTypeToTs.convertStringCase, getProp, getPropOpt,
      isStrVal, isCtorVal, isArrayV, isPlainObjectV, cloneDeepV, isBaseTypeCandidate,
      pkExpandBase, truthy, makeLine, jsLenGtZero, jsLenOf, lookupField, hcon, hk, h9, b9,
      beq_iff_eq,
      Bind.bind, Except.bind, Pure.pure, Except.pure]

def concatLines : List String → String
  | [] => ""
  | l :: ls => l ++ concatLines ls

def scalarLineOf (isDocument : Bool) (fields : List (String × MVal)) (k : String) : String :=
  match lookupField fields k with
  | some (MVal.vCtor c) => scalarLine isDocument k c
  | _ => ""

def scalarTreeBody (isDocument : Bool) (fields : List (String × MVal)) : String :=
  concatLines ((jsKeyOrder (fields.map Prod.fst)).map (scalarLineOf isDocument fields))

theorem mem_insertIdxKey (y x : Nat × String) (l : List (Nat × String))
    (h : y ∈ insertIdxKey x l) : y = x ∨ y ∈ l := by
  induction l with
  | nil =>
      simp only [insertIdxKey, List.mem_singleton] at h
      exact Or.inl h
  | cons z zs ih =>
      simp only [insertIdxKey] at h
      by_cases hx : x.1 < z.1
      · rw [if_pos hx] at h
        rcases List.mem_cons.mp h with h | h
        · exact Or.inl h
        · exact Or.inr h
      · rw [if_neg hx] at h
        rcases List.mem_cons.mp h with h | h
        · exact Or.inr (List.mem_cons.mpr (Or.inl h))
        · rcases ih h with h | h
          · exact Or.inl h
          · exact Or.inr (List.mem_cons.mpr (Or.inr h))

theorem mem_sortIdxKeys (y : Nat × String) (l : List (Nat × String))
    (h : y ∈ sortIdxKeys l) : y ∈ l := by
  induction l with
  | nil => simpa [sortIdxKeys] using h
  | cons z zs ih =>
      simp only [sortIdxKeys] at h
      rcases mem_insertIdxKey y z (sortIdxKeys zs) h with h | h
      · exact List.mem_cons.mpr (Or.inl h)
      · exact List.mem_cons.mpr (Or.inr (ih h))

theorem mem_jsKeyOrder (k : String) (ks : List String) (h : k ∈ jsKeyOrder ks) :
    k ∈ ks := by
  simp only [jsKeyOrder, List.mem_append] at h
  rcases h with h | h
  · rcases List.mem_map.mp h with ⟨p, hp, rfl⟩
    have hpl := mem_sortIdxKeys p _ hp
    rcases List.mem_filterMap.mp hpl with ⟨a, ha, hfa⟩
    obtain ⟨n, hn, hp⟩ := Option.map_eq_some'.mp hfa
    rw [← hp]
    exact ha
  · exact List.mem_of_mem_filter h

theorem lookupField_mem_of_mem_keys (fields : List (String × MVal)) (k : String)
    (h : k ∈ fields.map Prod.fst) :
    ∃ v, lookupField fields k = some v ∧ (k, v) ∈ fields := by
  induction fields with
  | nil => simp at h
  | cons kv rest ih =>
      obtain ⟨a, v⟩ := kv
      by_cases hak : a = k
      · subst hak
        exact ⟨v, by simp [lookupField], List.mem_cons.mpr (Or.inl rfl)⟩
      · have h' : k ∈ rest.map Prod.fst := by
          rw [List.map_cons] at h
          rcases List.mem_cons.mp h with h'' | h''
          · exact absurd h''.symm hak
          · exact h''
        obtain ⟨v', hl, hm⟩ := ih h'
        exact ⟨v', by simp [lookupField, hak, hl], List.mem_cons.mpr (Or.inr hm)⟩

theorem foldKeys_scalar (m : Nat) (fields : List (String × MVal)) (schema : MVal)
    (isDocument : Bool)
    (hf : ∀ kv ∈ fields, kv.1 ∉ internalMetadataKeys ∧
      ∃ c, kv.2 = MVal.vCtor c ∧ isBaseTypeCandidate (.vCtor c) = true) :
    ∀ (ks : List String) (acc : String), (∀ k ∈ ks, k ∈ fields.map Prod.fst) →
    (ks.foldlM (fun acc key => do
        let v ← getProp (MVal.vObj fields) key
        let line ← runP (m + 1) (.keyCall schema isDocument key v)
        pure (acc ++ line)) acc : Except String String)
      = .ok (acc ++ concatLines (ks.map (scalarLineOf isDocument fields))) := by
  intro ks
  induction ks with
  | nil =>
      intro acc hks
      simp [concatLines, Pure.pure, Except.pure]
  | cons k ks ih =>
      intro acc hks
      obtain ⟨v, hlook, hmem⟩ := lookupField_mem_of_mem_keys fields k
        (hks k (List.mem_cons.mpr (Or.inl rfl)))
      obtain ⟨hmeta, c, hvc, hcand⟩ := hf (k, v) hmem
      simp only at hvc
      subst hvc
      have hline := keyCall_scalar m schema isDocument k c hcand hmeta
      have hgp : getProp (MVal.vObj fields) k = Except.ok (MVal.vCtor c) := by
        simp [getProp, hlook]
      have hstep : (do
            let v ← getProp (MVal.vObj fields) k
            let line ← runP (m + 1) (PCall.keyCall schema isDocument k v)
            pure (acc ++ line) : Except String String)
          = Except.ok (acc ++ scalarLine isDocument k c) := by
        simp [hgp, hline, Bind.bind, Except.bind, Pure.pure, Except.pure]
      rw [List.foldlM_cons, hstep]
      show (List.foldlM (fun acc key => do
            let v ← getProp (MVal.vObj fields) key
            let line ← runP (m + 1) (PCall.keyCall schema isDocument key v)
            pure (acc ++ line)) (acc ++ scalarLine isDocument k c) ks : Except String String)
          = _
      rw [ih (acc ++ scalarLine isDocument k c)
        (fun k' hk' => hks k' (List.mem_cons.mpr (Or.inr hk')))]
      simp [concatLines, scalarLineOf, hlook, String.append_assoc]

set_option maxHeartbeats 2000000 in
/-- C4 amended: on well-shaped trees the compiler is total. For every tree
whose fields are all bare recognized native type tags (with keys outside the
internal-metadata skip list), `parseSchema` never throws: for every
sufficiently large stack budget it returns exactly the header, one line per
field in JS enumeration order with the tag's TypeScript type, and the
footer. -/
theorem claim4_amended (fields : List (String × MVal))
    (isDocument addModel isAugmented : Bool) (header footer : String) (fuel : Nat)
    (hf : ∀ kv ∈ fields, kv.1 ∉ internalMetadataKeys ∧
      ∃ c, kv.2 = MVal.vCtor c ∧ isBaseTypeCandidate (.vCtor c) = true) :
    parseSchemaF (fuel + 2) (.vObj [("tree", .vObj fields)]) none addModel isDocument
        header footer isAugmented
      = .ok (header ++ scalarTreeBody isDocument fields ++ footer) := by
  have hfold := foldKeys_scalar fuel fields (MVal.vObj [("tree", MVal.vObj fields)])
    isDocument hf (jsKeyOrder (fields.map Prod.fst)) header
    (fun k hk => mem_jsKeyOrder k _ hk)
  cases isDocument <;>
    [skip; skip] <;>
    first
    | (show ((List.foldlM (fun acc key => do
            let v ← getProp (MVal.vObj fields) key
            let line ← runP (fuel + 1)
              (PCall.keyCall (MVal.vObj [("tree", MVal.vObj fields)]) false key v)
            pure (acc ++ line)) header (jsKeyOrder (List.map Prod.fst fields)) :
            Except String String) >>= fun t => pure (t ++ footer)) = _
       rw [hfold]
       simp [scalarTreeBody, Bind.bind, Except.bind, Pure.pure, Except.pure,
         String.append_assoc])
    | (show ((List.foldlM (fun acc key => do
            let v ← getProp (MVal.vObj fields) key
            let line ← runP (fuel + 1)
              (PCall.keyCall (MVal.vObj [("tree", MVal.vObj fields)]) true key v)
            pure (acc ++ line)) header (jsKeyOrder (List.map Prod.fst fields)) :
            Except String String) >>= fun t => pure (t ++ footer)) = _
       rw [hfold]
       simp [scalarTreeBody, Bind.bind, Except.bind, Pure.pure, Except.pure,
         String.append_assoc])

/-- C4 counterexample: `parseSchema` does throw on malformed field shapes.
A field declared as an empty array makes `val = val[0]` undefined and the
following `_isDefaultSetToUndefined` read throws a TypeError; a field whose
value is an unrecognized bare string resolves to the nested-object sentinel
and then recurses forever over the string's character indices, exhausting
the call stack (a RangeError), at any stack budget. -/
theorem claim4_counterexample :
    parseSchemaF 10 (.vObj [("tree", .vObj [("tags", .vArr [])])]) (some "M") true false
        "" "" true
      = .error "TypeError: Cannot read properties of undefined (reading _isDefaultSetToUndefined)"
    ∧ runP 20 (.keyCall (.vObj []) false "f" (.vStr "Weird"))
      = .error "RangeError: Maximum call stack size exceeded" := ⟨rfl, rfl⟩


/-- C4 witness: `claim4_amended` at a two-field tree `\x7b name: String,
age: Number \x7d` in the plain shape; the emitted body is
`name?: string;` and `age?: number;`. -/
theorem claim4_witness :
    parseSchemaF 2
        (.vObj [("tree", .vObj [("name", .vCtor .jsString), ("age", .vCtor .jsNumber)])])
        none false false "A" "B" true
      = .ok ("A" ++ scalarTreeBody false
          [("name", .vCtor .jsString), ("age", .vCtor .jsNumber)] ++ "B")
    ∧ "A" ++ scalarTreeBody false
        [("name", .vCtor .jsString), ("age", .vCtor .jsNumber)] ++ "B"
      = "Aname?: string;\nage?: number;\nB" := by
  constructor
  · exact claim4_amended [("name", .vCtor .jsString), ("age", .vCtor .jsNumber)]
      false false true "A" "B" 0
      (by intro kv hkv
          simp only [List.mem_cons, List.not_mem_nil, or_false] at hkv
          rcases hkv with rfl | rfl
          · exact ⟨by decide, ⟨.jsString, rfl, rfl⟩⟩
          · exact ⟨by decide, ⟨.jsNumber, rfl, rfl⟩⟩)
  · rfl

/-! ## Claim C10: a mutation-aware (ownership-instrumented) embedding

`MVal` has value semantics, so JS heap mutation is not directly observable
in it.  To settle the non-mutation claim we re-run the interpreter over
values whose objects carry an ownership mark: `true` marks an object as
owned by the caller (part of the heap structure the caller passed in),
`false` marks an object the procedure itself created.  `_.cloneDeep` is the
one operation that produces caller-independent copies, so its model
`cloneDeepT` clears every mark; every property write (`setPropT`, and the
merge step of `unflatten`) FAULTS with a distinguished non-JS error when
its target object is marked caller-owned.  The instrumented interpreter
`runPT` is a line-by-line mirror of `runP` over marked values (reads go
through `eraseV`, the mark-forgetting map).  The non-mutation property is
then: for EVERY marking of the inputs, `runPT` behaves exactly as `runP`
does on the mark-erasure — in particular the mutation fault never fires,
i.e. no write ever targets an object reachable from the caller's
arguments. -/

mutual

inductive MValT where
  | tUndefined
  | tNull
  | tBool (b : Bool)
  | tNum (n : Int)
  | tStr (s : String)
  | tCtor (c : NativeCtor)
  | tFunc
  | tArr (l : MListT)
  | tObj (callerOwned : Bool) (fields : MFieldsT)

inductive MListT where
  | nil
  | cons (hd : MValT) (tl : MListT)

inductive MFieldsT where
  | nil
  | cons (k : String) (v : MValT) (tl : MFieldsT)

end

/-- The distinguished fault raised by a write whose target object is owned
by the caller.  It is not a JS error: `runP` never returns it. -/
def mutationFault : String := "MutationFault: write to a caller-owned object"

mutual

/-- Forget the ownership marks. -/
def eraseV : MValT → MVal
  | .tUndefined => .vUndefined
  | .tNull => .vNull
  | .tBool b => .vBool b
  | .tNum n => .vNum n
  | .tStr s => .vStr s
  | .tCtor c => .vCtor c
  | .tFunc => .vFunc
  | .tArr l => .vArr (eraseL l)
  | .tObj _ fields => .vObj (eraseFs fields)

def eraseL : MListT → List MVal
  | .nil => []
  | .cons v tl => eraseV v :: eraseL tl

def eraseFs : MFieldsT → List (String × MVal)
  | .nil => []
  | .cons k v tl => (k, eraseV v) :: eraseFs tl

end

mutual

/-- `_.cloneDeep` over marked values: the copy belongs to the procedure, so
every mark in it is cleared. -/
def cloneDeepT : MValT → MValT
  | .tUndefined => .tUndefined
  | .tNull => .tNull
  | .tBool b => .tBool b
  | .tNum n => .tNum n
  | .tStr s => .tStr s
  | .tCtor c => .tCtor c
  | .tFunc => .tFunc
  | .tArr l => .tArr (cloneL l)
  | .tObj _ fields => .tObj false (cloneFs fields)

def cloneL : MListT → MListT
  | .nil => .nil
  | .cons v tl => .cons (cloneDeepT v) (cloneL tl)

def cloneFs : MFieldsT → MFieldsT
  | .nil => .nil
  | .cons k v tl => .cons k (cloneDeepT v) (cloneFs tl)

end

mutual

/-- No object anywhere in the value is marked caller-owned. -/
def noCallerV : MValT → Bool
  | .tUndefined => true
  | .tNull => true
  | .tBool _ => true
  | .tNum _ => true
  | .tStr _ => true
  | .tCtor _ => true
  | .tFunc => true
  | .tArr l => noCallerL l
  | .tObj b fields => !b && noCallerFs fields

def noCallerL : MListT → Bool
  | .nil => true
  | .cons v tl => noCallerV v && noCallerL tl

def noCallerFs : MFieldsT → Bool
  | .nil => true
  | .cons _ v tl => noCallerV v && noCallerFs tl

end

def fieldsToList : MFieldsT → List (String × MValT)
  | .nil => []
  | .cons k v tl => (k, v) :: fieldsToList tl

def listToFields : List (String × MValT) → MFieldsT
  | [] => .nil
  | (k, v) :: tl => .cons k v (listToFields tl)

def listOfT : MListT → List MValT
  | .nil => []
  | .cons v tl => v :: listOfT tl

def getPropT : MValT → String → Except String MValT
  | .tUndefined, k =>
      .error ("TypeError: Cannot read properties of undefined (reading " ++ k ++ ")")
  | .tNull, k => .error ("TypeError: Cannot read properties of null (reading " ++ k ++ ")")
  | .tObj _ fields, k => .ok ((lookupA (fieldsToList fields) k).getD .tUndefined)
  | .tArr l, k =>
      .ok (if k = "length" then .tNum ((listOfT l).length : Int)
           else match jsIndexOf k with
                | some i => (listOfT l).getD i .tUndefined
                | none => .tUndefined)
  | .tStr s, k =>
      .ok (if k = "length" then .tNum (s.length : Int)
           else match jsIndexOf k with
                | some i =>
                    if h : i < s.toList.length then .tStr (String.mk [s.toList.get ⟨i, h⟩])
                    else .tUndefined
                | none => .tUndefined)
  | .tCtor c, k =>
      .ok (if k = "schemaName" && c = NativeCtor.mixed then .tStr "Mixed" else .tUndefined)
  | .tFunc, k => .ok (if k = "length" then .tNum 0 else .tUndefined)
  | .tBool _, _ => .ok .tUndefined
  | .tNum _, _ => .ok .tUndefined

def getPropOptT (v : MValT) (k : String) : MValT :=
  match v with
  | .tUndefined => .tUndefined
  | .tNull => .tUndefined
  | _ => match getPropT v k with
         | .ok r => r
         | .error _ => .tUndefined

def setFieldG (fields : List (String × MValT)) (key : String) (v : MValT) :
    List (String × MValT) :=
  if (lookupA fields key).isSome then
    fields.map (fun kv => if kv.1 = key then (key, v) else kv)
  else fields ++ [(key, v)]

/-- Property write over marked values: a write to a caller-owned object is
the mutation fault. -/
def setPropT : MValT → String → MValT → Except String MValT
  | .tObj b fields, k, x =>
      if b then .error mutationFault
      else .ok (.tObj false (listToFields (setFieldG (fieldsToList fields) k x)))
  | _, k, _ => .error ("TypeError: Cannot create property " ++ k)

def headOrUndefinedT : MValT → MValT
  | .tArr (.cons x _) => x
  | .tArr .nil => .tUndefined
  | v => v

def orderFieldsG (fields : List (String × MValT)) : List (String × MValT) :=
  (jsKeyOrder (fields.map Prod.fst)).map (fun k => (k, (lookupA fields k).getD .tUndefined))

def flattenFT : Nat → List (String × MValT) → String →
    Except String (List (String × MValT))
  | 0, _, _ => .error "RangeError: Maximum call stack size exceeded"
  | _ + 1, [], _ => .ok []
  | n + 1, (k, v) :: rest, pre => do
      let key := if pre == "" then k else pre ++ "." ++ k
      let head ← match v with
        | .tObj b .nil => pure [(key, MValT.tObj b .nil)]
        | .tObj _ fields => flattenFT n (orderFieldsG (fieldsToList fields)) key
        | _ => pure [(key, v)]
      let tail ← flattenFT n rest pre
      pure (head ++ tail)

def flattenTreeFT (fuel : Nat) (tree : MValT) :
    Except String (List (String × MValT)) := do
  let keys ← jsObjectKeys (eraseV tree)
  flattenFT fuel (keys.map (fun k => (k, getPropOptT tree k))) ""

/-- The `unflatten` rebuild over marked values: descending into an existing
nested object mutates it, so a caller-owned intermediate is the mutation
fault (fresh skeleton objects are procedure-owned). -/
def insertFlatT (fields : List (String × MValT)) :
    List String → MValT → Except String (List (String × MValT))
  | [], _ => .ok fields
  | [seg], v => .ok (setFieldG fields seg v)
  | seg :: rest, v =>
      match lookupA fields seg with
      | some (.tObj b inner) =>
          if b then .error mutationFault
          else (insertFlatT (fieldsToList inner) rest v).map
            (fun l => setFieldG fields seg (.tObj false (listToFields l)))
      | some _ => .ok fields
      | none => (insertFlatT [] rest v).map
          (fun l => setFieldG fields seg (.tObj false (listToFields l)))

def unflattenObjFT (flat : List (String × MValT)) :
    Except String (List (String × MValT)) :=
  flat.foldlM (fun acc kv => insertFlatT acc (splitOnDot kv.1) kv.2) []

structure PKNormT where
  val : MValT
  isOptional : Bool
  isArray : Bool

def pkExpandBaseT (s : PKNormT) : PKNormT :=
  if isBaseTypeCandidate (eraseV s.val) then
    ⟨.tObj false (.cons "type" s.val .nil), s.isOptional, s.isArray⟩
  else s

def pkNormalizeT (valOriginal : MValT) : Except String PKNormT := do
  let val := if isPlainObjectV (eraseV valOriginal) then cloneDeepT valOriginal
    else valOriginal
  let isOptional := !truthy (eraseV (← getPropT val "required"))
  if isArrayV (eraseV val) then
    let val := headOrUndefinedT val
    let d ← getPropT val "_isDefaultSetToUndefined"
    let isOptional := match eraseV d with
      | .vUndefined => false
      | .vNull => false
      | x => truthy x
    pure (pkExpandBaseT ⟨val, isOptional, true⟩)
  else
    let tp ← getPropT val "type"
    if isArrayV (eraseV tp) then
      let val ← setPropT val "type" (headOrUndefinedT tp)
      let t0 ← getPropT val "type"
      let t0t ← getPropT t0 "type"
      if truthy (eraseV t0t) then
        let t0r ← getPropT t0 "ref"
        let val ← if truthy (eraseV t0r) then setPropT val "ref" t0r else pure val
        let val ← setPropT val "type" t0t
        pure (pkExpandBaseT ⟨val, false, true⟩)
      else
        pure (pkExpandBaseT ⟨val, isOptional, true⟩)
    else
      pure (pkExpandBaseT ⟨val, isOptional, false⟩)

inductive PCallT where
  | schemaCallT (schema : MValT) (modelName : Option String) (addModel : Bool)
      (isDocument : Bool) (header footer : String) (isAugmented : Bool)
  | keyCallT (schema : MValT) (isDocument : Bool) (key : String) (valOriginal : MValT)

def erasePCall : PCallT → PCall
  | .schemaCallT s mn am d h f aug => .schemaCall (eraseV s) mn am d h f aug
  | .keyCallT s d k v => .keyCall (eraseV s) d k (eraseV v)

/-- The ownership-instrumented interpreter: a line-by-line mirror of `runP`
over marked values (reads through `eraseV`, writes through `setPropT` /
`insertFlatT`, `_.cloneDeep` through `cloneDeepT`). -/
def runPT : Nat → PCallT → Except String String
  | 0, _ => .error "RangeError: Maximum call stack size exceeded"
  | n + 1, .schemaCallT schemaOriginal modelName addModel isDocument header footer isAugmented => do
      let schema := cloneDeepT schemaOriginal
      let childSchemasV ← getPropT schema "childSchemas"
      let (template, schema) ←
        if jsLenGtZero (eraseV childSchemasV) && optStrTruthy modelName then do
          let rootPath := modelName.getD ""
          let treeV ← getPropT schema "tree"
          let flat0 ← flattenTreeFT n treeV
          let childList ← match childSchemasV with
            | .tArr l => pure (listOfT l)
            | _ => Except.error "TypeError: childSchemas.forEach is not a function"
          let (flatFinal, childInterfaces) ← childList.foldlM (fun st child => do
            let model ← getPropT child "model"
            let pathV ← getPropT model "path"
            let isSubdocArray := truthy (eraseV (← getPropT model "$isArraySubdocument"))
            let pathS ← asStrE (eraseV pathV)
            let name ← getSubDocName pathS rootPath
            let cschema0 ← getPropT child "schema"
            let cschema1 ← setPropT cschema0 "_isReplacedWithSchema" (.tBool true)
            let cschema2 ← setPropT cschema1 "_inferredInterfaceName" (.tStr name)
            let cschema3 ← setPropT cschema2 "_isSubdocArray" (.tBool isSubdocArray)
            let cschema ←
              if isSubdocArray then
                let defaultValuePath := pathS ++ ".default"
                if (match lookupA st.1 defaultValuePath with
                    | some MValT.tUndefined => true
                    | _ => false) then
                  setPropT cschema3 "_isDefaultSetToUndefined" (.tBool true)
                else pure cschema3
              else pure cschema3
            let flat1 := setFieldG st.1 pathS
              (if isSubdocArray then MValT.tArr (.cons cschema .nil) else cschema)
            let flat2 := flat1.filter (fun kv =>
              !(pathS.toList.isPrefixOf kv.1.toList && kv.1.length > pathS.length))
            let hdr :=
              (if isDocument then
                (if isSubdocArray then getSubdocumentDocs rootPath pathS
                 else getDocumentDocs rootPath)
               else getLeanDocs rootPath (some name)) ++
              (if isAugmented then "\n" else "\nexport ") ++
              (if isDocument then
                "interface " ++ name ++ "Document extends " ++
                (if isSubdocArray then "mongoose.Types.EmbeddedDocument"
                 else "mongoose.Document<mongoose.Types.ObjectId>, " ++ name ++ "Methods") ++
                " \x7b\n"
               else "interface " ++ name ++ " \x7b\n")
            let sub ← runPT n (.schemaCallT cschema (some name) false isDocument hdr
              "\x7d\n\n" isAugmented)
            pure (flat2, st.2 ++ sub)) (flat0, "")
          let unflat ← unflattenObjFT flatFinal
          let schema' ← setPropT schema "tree" (.tObj false (listToFields unflat))
          pure (childInterfaces, schema')
        else pure ("", schema)
      let template ←
        if !isDocument then do
          let staticsV ← getPropT schema "statics"
          if truthy (eraseV staticsV) && optStrTruthy modelName && addModel then do
            let mn := modelName.getD ""
            let mut t := template
            t := t ++ getObjectDocs mn
            t := t ++ "\n" ++ (if isAugmented then "" else "export ") ++ "type " ++ mn ++
              "Object = " ++ mn ++ "\n\n"
            let queryV ← getPropT schema "query"
            let qkeys ← jsObjectKeys (eraseV queryV)
            if qkeys.length > 0 then
              t := t ++ getQueryDocs mn
              t := t ++ "\n" ++ (if isAugmented then "" else "export ") ++ "type " ++ mn ++
                "Queries = \x7b\n"
              let qv := match eraseV queryV with
                | .vUndefined => MVal.vObj []
                | .vNull => MVal.vObj []
                | x => x
              t := t ++ (← parseFunctions qv mn .query)
              t := t ++ "\x7d\n\n"
              t := t ++ (if isAugmented then "" else "declare module \"mongoose\" \x7b") ++
                "interface Query<ResultType, DocType extends Document> extends " ++ mn ++
                "Queries \x7b\x7d" ++ (if isAugmented then "" else "\x7d") ++ "\n\n"
            t := t ++ getMethodDocs mn
            t := t ++ "\n" ++ (if isAugmented then "" else "export ") ++ "type " ++ mn ++
              "Methods = \x7b\n"
            t := t ++ (← parseFunctions (eraseV (← getPropT schema "methods")) mn .methods)
            t := t ++ "\x7d\n\n"
            t := t ++ getStaticDocs mn
            t := t ++ "\n" ++ (if isAugmented then "" else "export ") ++ "type " ++ mn ++
              "Statics = \x7b\n"
            t := t ++ (← parseFunctions (eraseV (← getPropT schema "statics")) mn .statics)
            t := t ++ "\x7d\n\n"
            let modelExtend := "mongoose.Model<" ++ mn ++ "Document>"
            t := t ++ getModelDocs mn
            t := t ++ "\n" ++ (if isAugmented then "" else "export ") ++ "interface " ++ mn ++
              "Model extends " ++ modelExtend ++ ", " ++ mn ++ "Statics \x7b\x7d\n\n"
            t := t ++ getSchemaDocs mn
            t := t ++ "\n" ++ (if isAugmented then "" else "export ") ++ "type " ++ mn ++
              "Schema = mongoose.Schema<" ++ mn ++ "Document, " ++ mn ++ "Model>\n\n"
            pure t
          else pure template
        else pure template
      let template := template ++ header
      let schemaTree ← getPropT schema "tree"
      let keys ← jsObjectKeys (eraseV schemaTree)
      let template ← keys.foldlM (fun acc key => do
        let v ← getPropT schemaTree key
        let line ← runPT n (.keyCallT schema isDocument key v)
        pure (acc ++ line)) template
      pure (template ++ footer)
  | n + 1, .keyCallT schema isDocument key valOriginal => do
      let norm ← pkNormalizeT valOriginal
      let plan ← pkPlan n (eraseV schema) isDocument key (eraseV norm.val)
      match plan with
      | .skip => pure ""
      | .direct ty forceRequired =>
          if ty == "" then pure ""
          else pkFinish isDocument key
                 (PKNorm.mk (eraseV norm.val) norm.isOptional norm.isArray) ty forceRequired
      | .recurse => do
          let sub ← runPT n (.schemaCallT (.tObj false (.cons "tree" norm.val .nil))
            none false isDocument "\x7b\n" "\x7d" true)
          if sub == "" then pure ""
          else pkFinish isDocument key
                 (PKNorm.mk (eraseV norm.val) norm.isOptional norm.isArray) sub true

def rootOwned : MValT → Bool
  | .tObj b _ => b
  | _ => false

theorem eraseFs_eq : ∀ fs : MFieldsT,
    eraseFs fs = (fieldsToList fs).map (fun kv => (kv.1, eraseV kv.2))
  | .nil => rfl
  | .cons k v tl => by simp [eraseFs, fieldsToList, eraseFs_eq tl]

theorem eraseL_eq : ∀ l : MListT, eraseL l = (listOfT l).map eraseV
  | .nil => rfl
  | .cons v tl => by simp [eraseL, listOfT, eraseL_eq tl]

theorem eraseFs_listToFields : ∀ L : List (String × MValT),
    eraseFs (listToFields L) = L.map (fun kv => (kv.1, eraseV kv.2))
  | [] => rfl
  | (k, v) :: tl => by simp [listToFields, eraseFs, eraseFs_listToFields tl]

theorem lookupA_map_erase : ∀ (L : List (String × MValT)) (k : String),
    lookupField (L.map (fun kv => (kv.1, eraseV kv.2))) k = (lookupA L k).map eraseV
  | [], _ => rfl
  | (a, v) :: tl, k => by
      by_cases h : a = k <;> simp [lookupField, lookupA, h, lookupA_map_erase tl k]

mutual

theorem eraseV_clone : ∀ t : MValT, eraseV (cloneDeepT t) = eraseV t
  | .tUndefined => rfl
  | .tNull => rfl
  | .tBool _ => rfl
  | .tNum _ => rfl
  | .tStr _ => rfl
  | .tCtor _ => rfl
  | .tFunc => rfl
  | .tArr l => by simp [cloneDeepT, eraseV, eraseL_clone l]
  | .tObj b fs => by simp [cloneDeepT, eraseV, eraseFs_clone fs]

theorem eraseL_clone : ∀ l : MListT, eraseL (cloneL l) = eraseL l
  | .nil => rfl
  | .cons v tl => by simp [cloneL, eraseL, eraseV_clone v, eraseL_clone tl]

theorem eraseFs_clone : ∀ fs : MFieldsT, eraseFs (cloneFs fs) = eraseFs fs
  | .nil => rfl
  | .cons k v tl => by simp [cloneFs, eraseFs, eraseV_clone v, eraseFs_clone tl]

end

mutual

theorem noCallerV_clone : ∀ t : MValT, noCallerV (cloneDeepT t) = true
  | .tUndefined => rfl
  | .tNull => rfl
  | .tBool _ => rfl
  | .tNum _ => rfl
  | .tStr _ => rfl
  | .tCtor _ => rfl
  | .tFunc => rfl
  | .tArr l => by simp [cloneDeepT, noCallerV, noCallerL_clone l]
  | .tObj b fs => by simp [cloneDeepT, noCallerV, noCallerFs_clone fs]

theorem noCallerL_clone : ∀ l : MListT, noCallerL (cloneL l) = true
  | .nil => rfl
  | .cons v tl => by simp [cloneL, noCallerL, noCallerV_clone v, noCallerL_clone tl]

theorem noCallerFs_clone : ∀ fs : MFieldsT, noCallerFs (cloneFs fs) = true
  | .nil => rfl
  | .cons k v tl => by simp [cloneFs, noCallerFs, noCallerV_clone v, noCallerFs_clone tl]

end

theorem rootOwned_clone (t : MValT) : rootOwned (cloneDeepT t) = false := by
  cases t <;> rfl

theorem rootOwned_of_noCaller (t : MValT) (h : noCallerV t = true) :
    rootOwned t = false := by
  cases t <;> simp_all [noCallerV, rootOwned]

theorem noCallerFs_fieldsToList : ∀ fs : MFieldsT, noCallerFs fs = true →
    ∀ kv ∈ fieldsToList fs, noCallerV kv.2 = true
  | .nil, _, kv, hkv => by simp [fieldsToList] at hkv
  | .cons k v tl, h, kv, hkv => by
      simp only [noCallerFs, Bool.and_eq_true] at h
      simp only [fieldsToList, List.mem_cons] at hkv
      rcases hkv with rfl | hkv
      · exact h.1
      · exact noCallerFs_fieldsToList tl h.2 kv hkv

theorem noCallerL_listOfT : ∀ l : MListT, noCallerL l = true →
    ∀ v ∈ listOfT l, noCallerV v = true
  | .nil, _, v, hv => by simp [listOfT] at hv
  | .cons x tl, h, v, hv => by
      simp only [noCallerL, Bool.and_eq_true] at h
      simp only [listOfT, List.mem_cons] at hv
      rcases hv with rfl | hv
      · exact h.1
      · exact noCallerL_listOfT tl h.2 v hv

theorem noCallerFs_listToFields : ∀ L : List (String × MValT),
    (∀ kv ∈ L, noCallerV kv.2 = true) → noCallerFs (listToFields L) = true
  | [], _ => rfl
  | (k, v) :: tl, h => by
      simp only [listToFields, noCallerFs, Bool.and_eq_true]
      exact ⟨h (k, v) (List.mem_cons.mpr (Or.inl rfl)),
        noCallerFs_listToFields tl (fun kv hkv => h kv (List.mem_cons.mpr (Or.inr hkv)))⟩

theorem getPropT_erase (t : MValT) (k : String) :
    getProp (eraseV t) k = (getPropT t k).map eraseV := by
  cases t with
  | tObj b fs =>
      simp only [eraseV, getProp, getPropT, Except.map, eraseFs_eq, lookupA_map_erase]
      cases lookupA (fieldsToList fs) k <;> rfl
  | tArr l =>
      simp only [eraseV, getProp, getPropT, Except.map, eraseL_eq]
      by_cases hk : k = "length"
      · simp [hk, List.length_map, eraseV]
      · simp only [hk, if_false]
        cases jsIndexOf k with
        | none => rfl
        | some i =>
            simp only []
            congr 1
            rw [List.getD_eq_getElem?_getD, List.getD_eq_getElem?_getD,
              List.getElem?_map]
            cases (listOfT l)[i]? <;> rfl
  | tStr s =>
      simp only [eraseV, getProp, getPropT, Except.map]
      by_cases hk : k = "length"
      · simp [hk, eraseV]
      · simp only [hk, if_false]
        cases jsIndexOf k with
        | none => rfl
        | some i =>
            show Except.ok (if h : i < s.toList.length then
                MVal.vStr (String.mk [s.toList.get ⟨i, h⟩]) else MVal.vUndefined)
              = Except.ok (eraseV (if h : i < s.toList.length then
                MValT.tStr (String.mk [s.toList.get ⟨i, h⟩]) else MValT.tUndefined))
            by_cases h : i < s.toList.length
            · rw [dif_pos h]
              rw [dif_pos h]
              rfl
            · rw [dif_neg h]
              rw [dif_neg h]
              rfl
  | tCtor c =>
      simp only [eraseV, getProp, getPropT, Except.map]
      by_cases hk : k = "schemaName" && c = NativeCtor.mixed <;> simp [hk, eraseV]
  | tFunc =>
      simp only [eraseV, getProp, getPropT, Except.map]
      by_cases hk : k = "length" <;> simp [hk, eraseV]
  | _ => rfl

theorem lookupA_noCaller : ∀ (L : List (String × MValT)) (k : String),
    (∀ kv ∈ L, noCallerV kv.2 = true) →
    ∀ v, lookupA L k = some v → noCallerV v = true
  | [], _, _, v, hv => by simp [lookupA] at hv
  | (a, x) :: tl, k, h, v, hv => by
      by_cases hak : a = k
      · simp only [lookupA, if_pos hak] at hv
        exact (Option.some.inj hv) ▸ h (a, x) (List.mem_cons.mpr (Or.inl rfl))
      · simp only [lookupA, if_neg hak] at hv
        exact lookupA_noCaller tl k
          (fun kv hkv => h kv (List.mem_cons.mpr (Or.inr hkv))) v hv

theorem getPropT_noCaller (t : MValT) (k : String) (h : noCallerV t = true)
    (r : MValT) (hr : getPropT t k = .ok r) : noCallerV r = true := by
  cases t with
  | tObj b fs =>
      simp only [getPropT, Except.ok.injEq] at hr
      simp only [noCallerV, Bool.and_eq_true] at h
      cases hl : lookupA (fieldsToList fs) k with
      | none => rw [hl] at hr; simp at hr; rw [← hr]; rfl
      | some v =>
          rw [hl] at hr
          simp only [Option.getD_some] at hr
          rw [← hr]
          exact lookupA_noCaller (fieldsToList fs) k
            (noCallerFs_fieldsToList fs h.2) v hl
  | tArr l =>
      simp only [getPropT, Except.ok.injEq] at hr
      simp only [noCallerV] at h
      by_cases hk : k = "length"
      · rw [if_pos hk] at hr; rw [← hr]; rfl
      · rw [if_neg hk] at hr
        cases hj : jsIndexOf k with
        | none => rw [hj] at hr; rw [← hr]; rfl
        | some i =>
            rw [hj] at hr
            simp only [] at hr
            rw [List.getD_eq_getElem?_getD] at hr
            cases hg : (listOfT l)[i]? with
            | none => rw [hg] at hr; rw [← hr]; rfl
            | some v =>
                rw [hg] at hr
                rw [← hr]
                exact noCallerL_listOfT l h v (List.getElem?_mem hg)
  | tStr s =>
      simp only [getPropT, Except.ok.injEq] at hr
      by_cases hk : k = "length"
      · rw [if_pos hk] at hr; rw [← hr]; rfl
      · rw [if_neg hk] at hr
        cases hj : jsIndexOf k with
        | none => rw [hj] at hr; rw [← hr]; rfl
        | some i =>
            rw [hj] at hr
            by_cases hi : i < s.toList.length
            · simp only [dif_pos hi] at hr; rw [← hr]; rfl
            · simp only [dif_neg hi] at hr; rw [← hr]; rfl
  | tCtor c =>
      simp only [getPropT, Except.ok.injEq] at hr
      by_cases hk : k = "schemaName" && c = NativeCtor.mixed
      · rw [if_pos hk] at hr; rw [← hr]; rfl
      · rw [if_neg hk] at hr; rw [← hr]; rfl
  | tFunc =>
      simp only [getPropT, Except.ok.injEq] at hr
      by_cases hk : k = "length"
      · rw [if_pos hk] at hr; rw [← hr]; rfl
      · rw [if_neg hk] at hr; rw [← hr]; rfl
  | tBool b => simp only [getPropT, Except.ok.injEq] at hr; rw [← hr]; rfl
  | tNum n => simp only [getPropT, Except.ok.injEq] at hr; rw [← hr]; rfl
  | tUndefined => simp [getPropT] at hr
  | tNull => simp [getPropT] at hr

theorem setFieldG_erase (L : List (String × MValT)) (k : String) (x : MValT) :
    (setFieldG L k x).map (fun kv => (kv.1, eraseV kv.2))
      = setField (L.map (fun kv => (kv.1, eraseV kv.2))) k (eraseV x) := by
  cases hl : lookupA L k with
  | some v =>
      simp only [setFieldG, setField, lookupA_map_erase, hl, Option.map_some,
        Option.isSome_some, if_true, List.map_map]
      apply List.map_congr_left
      intro kv hkv
      by_cases hk : kv.1 = k <;> simp [hk, Function.comp]
  | none => simp [setFieldG, setField, lookupA_map_erase, hl]

theorem setFieldG_noCaller (L : List (String × MValT)) (k : String) (x : MValT)
    (hL : ∀ kv ∈ L, noCallerV kv.2 = true) (hx : noCallerV x = true) :
    ∀ kv ∈ setFieldG L k x, noCallerV kv.2 = true := by
  intro kv hkv
  simp only [setFieldG] at hkv
  by_cases h : (lookupA L k).isSome
  · rw [if_pos h] at hkv
    rcases List.mem_map.mp hkv with ⟨kv0, hkv0, hmap⟩
    by_cases hk : kv0.1 = k
    · rw [if_pos hk] at hmap
      rw [← hmap]
      exact hx
    · rw [if_neg hk] at hmap
      rw [← hmap]
      exact hL kv0 hkv0
  · rw [if_neg h] at hkv
    rcases List.mem_append.mp hkv with hkv | hkv
    · exact hL kv hkv
    · simp only [List.mem_singleton] at hkv
      rw [hkv]
      exact hx

theorem fieldsToList_listToFields : ∀ L : List (String × MValT),
    fieldsToList (listToFields L) = L
  | [] => rfl
  | (k, v) :: tl => by simp [listToFields, fieldsToList, fieldsToList_listToFields tl]

theorem setPropT_erase (t : MValT) (k : String) (x : MValT)
    (h : rootOwned t = false) :
    setPropE (eraseV t) k (eraseV x) = (setPropT t k x).map eraseV := by
  cases t with
  | tObj b fs =>
      have hb : b = false := h
      subst hb
      simp only [setPropT, if_neg Bool.false_ne_true, Except.map, eraseV, setPropE,
        eraseFs_eq, fieldsToList_listToFields, setFieldG_erase]
  | tUndefined => rfl
  | tNull => rfl
  | tBool b => rfl
  | tNum n => rfl
  | tStr s => rfl
  | tCtor c => rfl
  | tFunc => rfl
  | tArr l => rfl

theorem setPropT_noCaller (t : MValT) (k : String) (x : MValT)
    (h : noCallerV t = true) (hx : noCallerV x = true)
    (r : MValT) (hr : setPropT t k x = .ok r) : noCallerV r = true := by
  cases t with
  | tObj b fs =>
      have hb : b = false := by
        simp only [noCallerV, Bool.and_eq_true, Bool.not_eq_true'] at h
        exact h.1
      subst hb
      simp only [setPropT, if_neg Bool.false_ne_true, Except.ok.injEq] at hr
      rw [← hr]
      simp only [noCallerV, Bool.and_eq_true, Bool.not_eq_true']
      refine ⟨trivial, ?_⟩
      refine noCallerFs_listToFields _ ?_
      refine setFieldG_noCaller _ k x ?_ hx
      refine noCallerFs_fieldsToList fs ?_
      simp only [noCallerV, Bool.and_eq_true, Bool.not_eq_true'] at h
      exact h.2
  | tUndefined => simp [setPropT] at hr
  | tNull => simp [setPropT] at hr
  | tBool b => simp [setPropT] at hr
  | tNum n => simp [setPropT] at hr
  | tStr s => simp [setPropT] at hr
  | tCtor c => simp [setPropT] at hr
  | tFunc => simp [setPropT] at hr
  | tArr l => simp [setPropT] at hr

theorem setPropT_rootOwned (t : MValT) (k : String) (x : MValT)
    (r : MValT) (hr : setPropT t k x = .ok r) : rootOwned r = false := by
  cases t with
  | tObj b fs =>
      cases b with
      | true => simp [setPropT] at hr
      | false =>
          simp only [setPropT, if_neg Bool.false_ne_true, Except.ok.injEq] at hr
          rw [← hr]
          rfl
  | tUndefined => simp [setPropT] at hr
  | tNull => simp [setPropT] at hr
  | tBool b => simp [setPropT] at hr
  | tNum n => simp [setPropT] at hr
  | tStr s => simp [setPropT] at hr
  | tCtor c => simp [setPropT] at hr
  | tFunc => simp [setPropT] at hr
  | tArr l => simp [setPropT] at hr

theorem headOrUndefinedT_erase (t : MValT) :
    headOrUndefined (eraseV t) = eraseV (headOrUndefinedT t) := by
  cases t with
  | tArr l => cases l <;> rfl
  | _ => rfl

theorem headOrUndefinedT_noCaller (t : MValT) (h : noCallerV t = true) :
    noCallerV (headOrUndefinedT t) = true := by
  cases t with
  | tArr l =>
      cases l with
      | nil => rfl
      | cons x tl =>
          simp only [noCallerV, noCallerL, Bool.and_eq_true] at h
          exact h.1
  | _ => exact h

theorem getPropOptT_erase (t : MValT) (k : String) :
    getPropOpt (eraseV t) k = eraseV (getPropOptT t k) := by
  cases t with
  | tUndefined => rfl
  | tNull => rfl
  | tBool b =>
      show (match getProp (eraseV (MValT.tBool b)) k with
        | Except.ok r => r | Except.error e => MVal.vUndefined)
        = eraseV (match getPropT (MValT.tBool b) k with
        | Except.ok r => r | Except.error e => MValT.tUndefined)
      rw [getPropT_erase]
      cases h : getPropT (MValT.tBool b) k <;> simp [Except.map, h] <;> rfl
  | tNum n =>
      show (match getProp (eraseV (MValT.tNum n)) k with
        | Except.ok r => r | Except.error e => MVal.vUndefined)
        = eraseV (match getPropT (MValT.tNum n) k with
        | Except.ok r => r | Except.error e => MValT.tUndefined)
      rw [getPropT_erase]
      cases h : getPropT (MValT.tNum n) k <;> simp [Except.map, h] <;> rfl
  | tStr s =>
      show (match getProp (eraseV (MValT.tStr s)) k with
        | Except.ok r => r | Except.error e => MVal.vUndefined)
        = eraseV (match getPropT (MValT.tStr s) k with
        | Except.ok r => r | Except.error e => MValT.tUndefined)
      rw [getPropT_erase]
      cases h : getPropT (MValT.tStr s) k <;> simp [Except.map, h] <;> rfl
  | tCtor c =>
      show (match getProp (eraseV (MValT.tCtor c)) k with
        | Except.ok r => r | Except.error e => MVal.vUndefined)
        = eraseV (match getPropT (MValT.tCtor c) k with
        | Except.ok r => r | Except.error e => MValT.tUndefined)
      rw [getPropT_erase]
      cases h : getPropT (MValT.tCtor c) k <;> simp [Except.map, h] <;> rfl
  | tFunc =>
      show (match getProp (eraseV (MValT.tFunc)) k with
        | Except.ok r => r | Except.error e => MVal.vUndefined)
        = eraseV (match getPropT (MValT.tFunc) k with
        | Except.ok r => r | Except.error e => MValT.tUndefined)
      rw [getPropT_erase]
      cases h : getPropT (MValT.tFunc) k <;> simp [Except.map, h] <;> rfl
  | tArr l =>
      show (match getProp (eraseV (MValT.tArr l)) k with
        | Except.ok r => r | Except.error e => MVal.vUndefined)
        = eraseV (match getPropT (MValT.tArr l) k with
        | Except.ok r => r | Except.error e => MValT.tUndefined)
      rw [getPropT_erase]
      cases h : getPropT (MValT.tArr l) k <;> simp [Except.map, h] <;> rfl
  | tObj b fs =>
      show (match getProp (eraseV (MValT.tObj b fs)) k with
        | Except.ok r => r | Except.error e => MVal.vUndefined)
        = eraseV (match getPropT (MValT.tObj b fs) k with
        | Except.ok r => r | Except.error e => MValT.tUndefined)
      rw [getPropT_erase]
      cases h : getPropT (MValT.tObj b fs) k <;> simp [Except.map, h] <;> rfl

theorem getPropOptT_noCaller (t : MValT) (k : String) (h : noCallerV t = true) :
    noCallerV (getPropOptT t k) = true := by
  cases t with
  | tUndefined => rfl
  | tNull => rfl
  | tBool b =>
      show noCallerV (match getPropT (MValT.tBool b) k with
        | Except.ok r => r | Except.error e => MValT.tUndefined) = true
      cases hr : getPropT (MValT.tBool b) k with
      | ok r => exact getPropT_noCaller _ k h r hr
      | error e => rfl
  | tNum n =>
      show noCallerV (match getPropT (MValT.tNum n) k with
        | Except.ok r => r | Except.error e => MValT.tUndefined) = true
      cases hr : getPropT (MValT.tNum n) k with
      | ok r => exact getPropT_noCaller _ k h r hr
      | error e => rfl
  | tStr s =>
      show noCallerV (match getPropT (MValT.tStr s) k with
        | Except.ok r => r | Except.error e => MValT.tUndefined) = true
      cases hr : getPropT (MValT.tStr s) k with
      | ok r => exact getPropT_noCaller _ k h r hr
      | error e => rfl
  | tCtor c =>
      show noCallerV (match getPropT (MValT.tCtor c) k with
        | Except.ok r => r | Except.error e => MValT.tUndefined) = true
      cases hr : getPropT (MValT.tCtor c) k with
      | ok r => exact getPropT_noCaller _ k h r hr
      | error e => rfl
  | tFunc =>
      show noCallerV (match getPropT MValT.tFunc k with
        | Except.ok r => r | Except.error e => MValT.tUndefined) = true
      cases hr : getPropT MValT.tFunc k with
      | ok r => exact getPropT_noCaller _ k h r hr
      | error e => rfl
  | tArr l =>
      show noCallerV (match getPropT (MValT.tArr l) k with
        | Except.ok r => r | Except.error e => MValT.tUndefined) = true
      cases hr : getPropT (MValT.tArr l) k with
      | ok r => exact getPropT_noCaller _ k h r hr
      | error e => rfl
  | tObj b fs =>
      show noCallerV (match getPropT (MValT.tObj b fs) k with
        | Except.ok r => r | Except.error e => MValT.tUndefined) = true
      cases hr : getPropT (MValT.tObj b fs) k with
      | ok r => exact getPropT_noCaller _ k h r hr
      | error e => rfl

theorem orderFieldsG_erase (L : List (String × MValT)) :
    orderFields (L.map (fun kv => (kv.1, eraseV kv.2)))
      = (orderFieldsG L).map (fun kv => (kv.1, eraseV kv.2)) := by
  simp only [orderFields, orderFieldsG, List.map_map]
  have hfst : (Prod.fst ∘ fun kv : String × MValT => (kv.1, eraseV kv.2)) = Prod.fst := by
    funext kv
    rfl
  rw [hfst]
  apply List.map_congr_left
  intro k hk
  simp only [Function.comp, lookupA_map_erase]
  cases lookupA L k <;> rfl

theorem orderFieldsG_noCaller (L : List (String × MValT))
    (h : ∀ kv ∈ L, noCallerV kv.2 = true) :
    ∀ kv ∈ orderFieldsG L, noCallerV kv.2 = true := by
  intro kv hkv
  simp only [orderFieldsG] at hkv
  rcases List.mem_map.mp hkv with ⟨k, hk, rfl⟩
  simp only []
  cases hl : lookupA L k with
  | none => rfl
  | some v =>
      simp only [hl, Option.getD_some]
      exact lookupA_noCaller L k h v hl

theorem flattenFT_erase : ∀ (n : Nat) (L : List (String × MValT)) (pre : String),
    flattenF n (L.map (fun kv => (kv.1, eraseV kv.2))) pre
      = (flattenFT n L pre).map (List.map (fun kv => (kv.1, eraseV kv.2)))
  | 0, _, _ => rfl
  | _ + 1, [], _ => rfl
  | n + 1, (k, v) :: rest, pre => by
      have ihrest := flattenFT_erase n rest pre
      simp only [List.map_cons, flattenF, flattenFT, Bind.bind, Except.bind,
        Pure.pure, Except.pure]
      generalize (if (pre == "") = true then k else pre ++ "." ++ k) = key
      cases v with
      | tObj b fs =>
          cases fs with
          | nil =>
              simp only [eraseV, eraseFs]
              rw [ihrest]
              cases flattenFT n rest pre <;> simp [Except.map] <;> rfl
          | cons k0 v0 tl =>
              simp only [eraseV, eraseFs]
              have hh : flattenF n
                  (orderFields ((k0, eraseV v0) :: eraseFs tl)) key
                  = (flattenFT n (orderFieldsG (fieldsToList (MFieldsT.cons k0 v0 tl))) key).map
                      (List.map (fun kv => (kv.1, eraseV kv.2))) := by
                have heq : (k0, eraseV v0) :: eraseFs tl
                    = (fieldsToList (MFieldsT.cons k0 v0 tl)).map
                        (fun kv => (kv.1, eraseV kv.2)) := by
                  simp [fieldsToList, eraseFs_eq]
                rw [heq, orderFieldsG_erase]
                exact flattenFT_erase n (orderFieldsG (fieldsToList (MFieldsT.cons k0 v0 tl))) key
              rw [hh, ihrest]
              cases flattenFT n (orderFieldsG (fieldsToList (MFieldsT.cons k0 v0 tl))) key <;>
                cases flattenFT n rest pre <;> simp [Except.map]
      | tUndefined =>
          rw [ihrest]
          cases flattenFT n rest pre <;> simp [Except.map, eraseV]
      | tNull =>
          rw [ihrest]
          cases flattenFT n rest pre <;> simp [Except.map, eraseV]
      | tBool b =>
          rw [ihrest]
          cases flattenFT n rest pre <;> simp [Except.map, eraseV]
      | tNum m =>
          rw [ihrest]
          cases flattenFT n rest pre <;> simp [Except.map, eraseV]
      | tStr s =>
          rw [ihrest]
          cases flattenFT n rest pre <;> simp [Except.map, eraseV]
      | tCtor c =>
          rw [ihrest]
          cases flattenFT n rest pre <;> simp [Except.map, eraseV]
      | tFunc =>
          rw [ihrest]
          cases flattenFT n rest pre <;> simp [Except.map, eraseV]
      | tArr l =>
          rw [ihrest]
          cases flattenFT n rest pre <;> simp [Except.map, eraseV]

theorem flattenFT_noCaller : ∀ (n : Nat) (L : List (String × MValT)) (pre : String),
    (∀ kv ∈ L, noCallerV kv.2 = true) →
    ∀ R, flattenFT n L pre = .ok R → ∀ kv ∈ R, noCallerV kv.2 = true
  | 0, _, _, _, R, hR => by simp [flattenFT] at hR
  | _ + 1, [], _, _, R, hR => by
      simp only [flattenFT, Except.ok.injEq] at hR
      rw [← hR]
      intro kv hkv
      simp at hkv
  | n + 1, (k, v) :: rest, pre, h, R, hR => by
      have hv : noCallerV v = true := h (k, v) (List.mem_cons.mpr (Or.inl rfl))
      have hrest : ∀ kv ∈ rest, noCallerV kv.2 = true :=
        fun kv hkv => h kv (List.mem_cons.mpr (Or.inr hkv))
      cases v with
      | tObj b fs =>
          cases fs with
          | nil =>
              simp only [flattenFT, Bind.bind, Except.bind, Pure.pure, Except.pure] at hR
              revert hR
              generalize (if (pre == "") = true then k else pre ++ "." ++ k) = key
              intro hR
              cases hT : flattenFT n rest pre with
              | error e => rw [hT] at hR; simp at hR
              | ok tl =>
                  rw [hT] at hR
                  simp only [Except.ok.injEq] at hR
                  rw [← hR]
                  intro kv hkv
                  rcases List.mem_cons.mp hkv with rfl | hkv
                  · exact hv
                  · exact flattenFT_noCaller n rest pre hrest tl hT kv hkv
          | cons k0 v0 tl0 =>
              simp only [flattenFT, Bind.bind, Except.bind, Pure.pure, Except.pure] at hR
              revert hR
              generalize (if (pre == "") = true then k else pre ++ "." ++ k) = key
              intro hR
              cases hH : flattenFT n (orderFieldsG (fieldsToList (MFieldsT.cons k0 v0 tl0))) key with
              | error e => rw [hH] at hR; simp at hR
              | ok hd =>
                  rw [hH] at hR
                  cases hT : flattenFT n rest pre with
                  | error e => rw [hT] at hR; simp at hR
                  | ok tl =>
                      rw [hT] at hR
                      simp only [Except.ok.injEq] at hR
                      rw [← hR]
                      intro kv hkv
                      rcases List.mem_append.mp hkv with hkv | hkv
                      · refine flattenFT_noCaller n _ key ?_ hd hH kv hkv
                        refine orderFieldsG_noCaller _ (noCallerFs_fieldsToList _ ?_)
                        exact (by simpa [noCallerV] using hv :
                          b = false ∧ noCallerFs (MFieldsT.cons k0 v0 tl0) = true).2
                      · exact flattenFT_noCaller n rest pre hrest tl hT kv hkv
      | tUndefined =>
          simp only [flattenFT, Bind.bind, Except.bind, Pure.pure, Except.pure] at hR
          revert hR
          generalize (if (pre == "") = true then k else pre ++ "." ++ k) = key
          intro hR
          cases hT : flattenFT n rest pre with
          | error e => rw [hT] at hR; simp at hR
          | ok tl =>
              rw [hT] at hR
              simp only [Except.ok.injEq] at hR
              rw [← hR]
              intro kv hkv
              rcases List.mem_cons.mp hkv with rfl | hkv
              · exact hv
              · exact flattenFT_noCaller n rest pre hrest tl hT kv hkv
      | tNull =>
          simp only [flattenFT, Bind.bind, Except.bind, Pure.pure, Except.pure] at hR
          revert hR
          generalize (if (pre == "") = true then k else pre ++ "." ++ k) = key
          intro hR
          cases hT : flattenFT n rest pre with
          | error e => rw [hT] at hR; simp at hR
          | ok tl =>
              rw [hT] at hR
              simp only [Except.ok.injEq] at hR
              rw [← hR]
              intro kv hkv
              rcases List.mem_cons.mp hkv with rfl | hkv
              · exact hv
              · exact flattenFT_noCaller n rest pre hrest tl hT kv hkv
      | tBool b0 =>
          simp only [flattenFT, Bind.bind, Except.bind, Pure.pure, Except.pure] at hR
          revert hR
          generalize (if (pre == "") = true then k else pre ++ "." ++ k) = key
          intro hR
          cases hT : flattenFT n rest pre with
          | error e => rw [hT] at hR; simp at hR
          | ok tl =>
              rw [hT] at hR
              simp only [Except.ok.injEq] at hR
              rw [← hR]
              intro kv hkv
              rcases List.mem_cons.mp hkv with rfl | hkv
              · exact hv
              · exact flattenFT_noCaller n rest pre hrest tl hT kv hkv
      | tNum m =>
          simp only [flattenFT, Bind.bind, Except.bind, Pure.pure, Except.pure] at hR
          revert hR
          generalize (if (pre == "") = true then k else pre ++ "." ++ k) = key
          intro hR
          cases hT : flattenFT n rest pre with
          | error e => rw [hT] at hR; simp at hR
          | ok tl =>
              rw [hT] at hR
              simp only [Except.ok.injEq] at hR
              rw [← hR]
              intro kv hkv
              rcases List.mem_cons.mp hkv with rfl | hkv
              · exact hv
              · exact flattenFT_noCaller n rest pre hrest tl hT kv hkv
      | tStr s0 =>
          simp only [flattenFT, Bind.bind, Except.bind, Pure.pure, Except.pure] at hR
          revert hR
          generalize (if (pre == "") = true then k else pre ++ "." ++ k) = key
          intro hR
          cases hT : flattenFT n rest pre with
          | error e => rw [hT] at hR; simp at hR
          | ok tl =>
              rw [hT] at hR
              simp only [Except.ok.injEq] at hR
              rw [← hR]
              intro kv hkv
              rcases List.mem_cons.mp hkv with rfl | hkv
              · exact hv
              · exact flattenFT_noCaller n rest pre hrest tl hT kv hkv
      | tCtor c0 =>
          simp only [flattenFT, Bind.bind, Except.bind, Pure.pure, Except.pure] at hR
          revert hR
          generalize (if (pre == "") = true then k else pre ++ "." ++ k) = key
          intro hR
          cases hT : flattenFT n rest pre with
          | error e => rw [hT] at hR; simp at hR
          | ok tl =>
              rw [hT] at hR
              simp only [Except.ok.injEq] at hR
              rw [← hR]
              intro kv hkv
              rcases List.mem_cons.mp hkv with rfl | hkv
              · exact hv
              · exact flattenFT_noCaller n rest pre hrest tl hT kv hkv
      | tFunc =>
          simp only [flattenFT, Bind.bind, Except.bind, Pure.pure, Except.pure] at hR
          revert hR
          generalize (if (pre == "") = true then k else pre ++ "." ++ k) = key
          intro hR
          cases hT : flattenFT n rest pre with
          | error e => rw [hT] at hR; simp at hR
          | ok tl =>
              rw [hT] at hR
              simp only [Except.ok.injEq] at hR
              rw [← hR]
              intro kv hkv
              rcases List.mem_cons.mp hkv with rfl | hkv
              · exact hv
              · exact flattenFT_noCaller n rest pre hrest tl hT kv hkv
      | tArr l0 =>
          simp only [flattenFT, Bind.bind, Except.bind, Pure.pure, Except.pure] at hR
          revert hR
          generalize (if (pre == "") = true then k else pre ++ "." ++ k) = key
          intro hR
          cases hT : flattenFT n rest pre with
          | error e => rw [hT] at hR; simp at hR
          | ok tl =>
              rw [hT] at hR
              simp only [Except.ok.injEq] at hR
              rw [← hR]
              intro kv hkv
              rcases List.mem_cons.mp hkv with rfl | hkv
              · exact hv
              · exact flattenFT_noCaller n rest pre hrest tl hT kv hkv

theorem flattenTreeFT_erase (fuel : Nat) (tree : MValT) :
    flattenTreeF fuel (eraseV tree)
      = (flattenTreeFT fuel tree).map (List.map (fun kv => (kv.1, eraseV kv.2))) := by
  simp only [flattenTreeF, flattenTreeFT, Bind.bind, Except.bind]
  cases hk : jsObjectKeys (eraseV tree) with
  | error e => rfl
  | ok keys =>
      have hentries : keys.map (fun k => (k, getPropOpt (eraseV tree) k))
          = (keys.map (fun k => (k, getPropOptT tree k))).map
              (fun kv => (kv.1, eraseV kv.2)) := by
        simp [List.map_map, Function.comp, getPropOptT_erase]
      show flattenF fuel (keys.map (fun k => (k, getPropOpt (eraseV tree) k))) ""
          = Except.map (List.map fun kv => (kv.1, eraseV kv.2))
              (flattenFT fuel (keys.map (fun k => (k, getPropOptT tree k))) "")
      rw [hentries, flattenFT_erase]

theorem flattenTreeFT_noCaller (fuel : Nat) (tree : MValT)
    (h : noCallerV tree = true) (R : List (String × MValT))
    (hR : flattenTreeFT fuel tree = .ok R) : ∀ kv ∈ R, noCallerV kv.2 = true := by
  simp only [flattenTreeFT, Bind.bind, Except.bind] at hR
  cases hk : jsObjectKeys (eraseV tree) with
  | error e => rw [hk] at hR; simp at hR
  | ok keys =>
      rw [hk] at hR
      refine flattenFT_noCaller fuel _ "" ?_ R hR
      intro kv hkv
      rcases List.mem_map.mp hkv with ⟨k, hkmem, rfl⟩
      exact getPropOptT_noCaller tree k h

theorem insertFlatT_ok : ∀ (segs : List String) (L : List (String × MValT)) (v : MValT),
    (∀ kv ∈ L, noCallerV kv.2 = true) → noCallerV v = true →
    ∃ R, insertFlatT L segs v = .ok R
      ∧ R.map (fun kv => (kv.1, eraseV kv.2))
          = insertFlat (L.map (fun kv => (kv.1, eraseV kv.2))) segs (eraseV v)
      ∧ (∀ kv ∈ R, noCallerV kv.2 = true)
  | [], L, v, hL, hv => ⟨L, rfl, rfl, hL⟩
  | [seg], L, v, hL, hv =>
      ⟨setFieldG L seg v, rfl,
        by rw [setFieldG_erase]; rfl, setFieldG_noCaller L seg v hL hv⟩
  | seg :: s2 :: rest, L, v, hL, hv => by
      cases hl : lookupA L seg with
      | none =>
          obtain ⟨R0, hR0, hcomm, hnc⟩ := insertFlatT_ok (s2 :: rest) [] v
            (by intro kv hkv; simp at hkv) hv
          refine ⟨setFieldG L seg (.tObj false (listToFields R0)), ?_, ?_, ?_⟩
          · simp only [insertFlatT, hl, hR0, Except.map]
          · simp only [insertFlat, lookupA_map_erase, hl, Option.map_none]
            rw [setFieldG_erase]
            congr 1
            simp only [eraseV, eraseFs_eq, fieldsToList_listToFields, hcomm]
            rfl
          · refine setFieldG_noCaller L seg _ hL ?_
            simp only [noCallerV, Bool.not_false, Bool.true_and]
            exact noCallerFs_listToFields R0 hnc
      | some w =>
          cases w with
          | tObj b inner =>
              have hw : noCallerV (MValT.tObj b inner) = true :=
                lookupA_noCaller L seg hL _ hl
              have hw' : b = false ∧ noCallerFs inner = true := by
                simpa [noCallerV] using hw
              obtain ⟨hb, hwfs⟩ := hw'
              subst hb
              obtain ⟨R0, hR0, hcomm, hnc⟩ := insertFlatT_ok (s2 :: rest)
                (fieldsToList inner) v
                (noCallerFs_fieldsToList inner hwfs) hv
              refine ⟨setFieldG L seg (.tObj false (listToFields R0)), ?_, ?_, ?_⟩
              · simp only [insertFlatT, hl, hR0, Except.map, if_neg Bool.false_ne_true]
              · simp only [insertFlat, lookupA_map_erase, hl, Option.map_some, eraseV]
                rw [setFieldG_erase]
                congr 1
                simp only [eraseV, eraseFs_eq, fieldsToList_listToFields, hcomm]
              · refine setFieldG_noCaller L seg _ hL ?_
                simp only [noCallerV, Bool.not_false, Bool.true_and]
                exact noCallerFs_listToFields R0 hnc
          | tUndefined =>
              refine ⟨L, by simp [insertFlatT, hl], ?_, hL⟩
              simp [insertFlat, lookupA_map_erase, hl, eraseV]
          | tNull =>
              refine ⟨L, by simp [insertFlatT, hl], ?_, hL⟩
              simp [insertFlat, lookupA_map_erase, hl, eraseV]
          | tBool b0 =>
              refine ⟨L, by simp [insertFlatT, hl], ?_, hL⟩
              simp [insertFlat, lookupA_map_erase, hl, eraseV]
          | tNum m =>
              refine ⟨L, by simp [insertFlatT, hl], ?_, hL⟩
              simp [insertFlat, lookupA_map_erase, hl, eraseV]
          | tStr s0 =>
              refine ⟨L, by simp [insertFlatT, hl], ?_, hL⟩
              simp [insertFlat, lookupA_map_erase, hl, eraseV]
          | tCtor c0 =>
              refine ⟨L, by simp [insertFlatT, hl], ?_, hL⟩
              simp [insertFlat, lookupA_map_erase, hl, eraseV]
          | tFunc =>
              refine ⟨L, by simp [insertFlatT, hl], ?_, hL⟩
              simp [insertFlat, lookupA_map_erase, hl, eraseV]
          | tArr l0 =>
              refine ⟨L, by simp [insertFlatT, hl], ?_, hL⟩
              simp [insertFlat, lookupA_map_erase, hl, eraseV]

theorem unflattenAux_ok : ∀ (flat : List (String × MValT))
    (acc : List (String × MValT)),
    (∀ kv ∈ flat, noCallerV kv.2 = true) → (∀ kv ∈ acc, noCallerV kv.2 = true) →
    ∃ R, (flat.foldlM (fun a kv => insertFlatT a (splitOnDot kv.1) kv.2) acc
            : Except String (List (String × MValT))) = .ok R
      ∧ R.map (fun kv => (kv.1, eraseV kv.2))
          = (flat.map (fun kv => (kv.1, eraseV kv.2))).foldl
              (fun a kv => insertFlat a (splitOnDot kv.1) kv.2)
              (acc.map (fun kv => (kv.1, eraseV kv.2)))
  | [], acc, _, hacc => ⟨acc, rfl, rfl⟩
  | (k, v) :: rest, acc, hflat, hacc => by
      obtain ⟨R1, hR1, hcomm1, hnc1⟩ := insertFlatT_ok (splitOnDot k) acc v hacc
        (hflat (k, v) (List.mem_cons.mpr (Or.inl rfl)))
      obtain ⟨R, hR, hcomm⟩ := unflattenAux_ok rest R1
        (fun kv hkv => hflat kv (List.mem_cons.mpr (Or.inr hkv))) hnc1
      refine ⟨R, ?_, ?_⟩
      · rw [List.foldlM_cons]
        simp only [hR1, Bind.bind, Except.bind]
        exact hR
      · rw [List.map_cons, List.foldl_cons]
        simp only []
        rw [← hcomm1]
        exact hcomm

theorem unflattenObjFT_ok (flat : List (String × MValT))
    (h : ∀ kv ∈ flat, noCallerV kv.2 = true) :
    ∃ R, unflattenObjFT flat = .ok R
      ∧ R.map (fun kv => (kv.1, eraseV kv.2))
          = unflattenObjF (flat.map (fun kv => (kv.1, eraseV kv.2))) := by
  obtain ⟨R, hR, hcomm⟩ := unflattenAux_ok flat [] h (by intro kv hkv; simp at hkv)
  exact ⟨R, hR, hcomm⟩

theorem pkExpandBaseT_erase (s : PKNormT) :
    pkExpandBase (PKNorm.mk (eraseV s.val) s.isOptional s.isArray)
      = (fun nt : PKNormT => PKNorm.mk (eraseV nt.val) nt.isOptional nt.isArray)
          (pkExpandBaseT s) := by
  by_cases h : isBaseTypeCandidate (eraseV s.val) <;>
    simp [pkExpandBase, pkExpandBaseT, h, eraseV, eraseFs]

theorem pkNormalizeT_erase (v : MValT) :
    pkNormalize (eraseV v)
      = (pkNormalizeT v).map
          (fun nt : PKNormT => PKNorm.mk (eraseV nt.val) nt.isOptional nt.isArray) := by
  have hroot : rootOwned (if isPlainObjectV (eraseV v) then cloneDeepT v else v)
      = false := by
    by_cases h : isPlainObjectV (eraseV v)
    · simp [h, rootOwned_clone]
    · simp only [h, if_false]
      cases v <;> first | rfl | (exact absurd rfl h)
  have hval : eraseV (if isPlainObjectV (eraseV v) then cloneDeepT v else v)
      = eraseV v := by
    by_cases h : isPlainObjectV (eraseV v) <;> simp [h, eraseV_clone]
  simp only [pkNormalize, pkNormalizeT, cloneDeepV, ite_self, Bind.bind, Except.bind,
    Pure.pure, Except.pure]
  generalize hW : (if isPlainObjectV (eraseV v) then cloneDeepT v else v) = W
    at hroot hval ⊢
  rw [← hval]
  rw [getPropT_erase W "required"]
  cases hreq : getPropT W "required" with
  | error e => rfl
  | ok rq =>
      simp only [Except.map]
      by_cases harr : isArrayV (eraseV W)
      · simp only [harr, if_true]
        rw [headOrUndefinedT_erase W, getPropT_erase (headOrUndefinedT W)]
        cases hd : getPropT (headOrUndefinedT W) "_isDefaultSetToUndefined" with
        | error e => rfl
        | ok d =>
            simp only [Except.map, pkExpandBaseT_erase ⟨headOrUndefinedT W, _, true⟩]
      · simp only [harr, if_false]
        rw [getPropT_erase W "type"]
        cases htp : getPropT W "type" with
        | error e => rfl
        | ok tp =>
            simp only [Except.map]
            by_cases htparr : isArrayV (eraseV tp)
            · simp only [htparr, if_true]
              rw [headOrUndefinedT_erase tp, setPropT_erase W "type" (headOrUndefinedT tp) hroot]
              cases hw1 : setPropT W "type" (headOrUndefinedT tp) with
              | error e => rfl
              | ok W1 =>
                  have hroot1 : rootOwned W1 = false := setPropT_rootOwned W _ _ W1 hw1
                  simp only [Except.map]
                  rw [getPropT_erase W1 "type"]
                  cases ht0 : getPropT W1 "type" with
                  | error e => rfl
                  | ok t0 =>
                      simp only [Except.map]
                      rw [getPropT_erase t0 "type"]
                      cases ht0t : getPropT t0 "type" with
                      | error e => rfl
                      | ok t0t =>
                          simp only [Except.map]
                          by_cases htr : truthy (eraseV t0t)
                          · simp only [htr, if_true]
                            rw [getPropT_erase t0 "ref"]
                            cases ht0r : getPropT t0 "ref" with
                            | error e => rfl
                            | ok t0r =>
                                simp only [Except.map]
                                by_cases hrr : truthy (eraseV t0r)
                                · simp only [hrr, if_true]
                                  rw [setPropT_erase W1 "ref" t0r hroot1]
                                  cases hw2 : setPropT W1 "ref" t0r with
                                  | error e => rfl
                                  | ok W2 =>
                                      have hroot2 : rootOwned W2 = false :=
                                        setPropT_rootOwned W1 _ _ W2 hw2
                                      simp only [Except.map]
                                      rw [setPropT_erase W2 "type" t0t hroot2]
                                      cases hw3 : setPropT W2 "type" t0t with
                                      | error e => rfl
                                      | ok W3 =>
                                          simp only [Except.map,
                                            pkExpandBaseT_erase ⟨W3, false, true⟩]
                                          rfl
                                · simp only [hrr, if_false]
                                  rw [setPropT_erase W1 "type" t0t hroot1]
                                  cases hw3 : setPropT W1 "type" t0t with
                                  | error e => rfl
                                  | ok W3 =>
                                      simp only [Except.map,
                                        pkExpandBaseT_erase ⟨W3, false, true⟩]
                                      rfl
                          · simp only [htr, if_false]
                            simp only [Except.map,
                              pkExpandBaseT_erase ⟨W1, _, true⟩]
                            rfl
            · simp only [htparr, if_false]
              simp only [Except.map, pkExpandBaseT_erase ⟨W, _, false⟩]
              rfl

theorem keysFold_erase (n : Nat)
    (IH : ∀ c : PCallT, runPT n c = runP n (erasePCall c))
    (schemaT treeT : MValT) (isDocument : Bool) :
    ∀ (keys : List String) (acc : String),
    (keys.foldlM (fun acc key => do
        let v ← getProp (eraseV treeT) key
        let line ← runP n (.keyCall (eraseV schemaT) isDocument key v)
        pure (acc ++ line)) acc : Except String String)
      = keys.foldlM (fun acc key => do
          let v ← getPropT treeT key
          let line ← runPT n (.keyCallT schemaT isDocument key v)
          pure (acc ++ line)) acc
  | [], acc => rfl
  | k :: ks, acc => by
      rw [List.foldlM_cons, List.foldlM_cons]
      simp only [Bind.bind, Except.bind]
      rw [getPropT_erase treeT k]
      cases hv : getPropT treeT k with
      | error e => rfl
      | ok v =>
          simp only [Except.map]
          rw [IH (.keyCallT schemaT isDocument k v)]
          simp only [erasePCall]
          cases runP n (.keyCall (eraseV schemaT) isDocument k (eraseV v)) with
          | error e => rfl
          | ok line =>
              simp only [Pure.pure, Except.pure]
              exact keysFold_erase n IH schemaT treeT isDocument ks (acc ++ line)

theorem lookupUndef_erase (L : List (String × MValT)) (p : String) :
    (match lookupField (L.map (fun kv => (kv.1, eraseV kv.2))) p with
      | some MVal.vUndefined => true
      | _ => false)
    = (match lookupA L p with
      | some MValT.tUndefined => true
      | _ => false) := by
  rw [lookupA_map_erase]
  cases h : lookupA L p with
  | none => rfl
  | some t => cases t <;> rfl

theorem filterPath_erase (L : List (String × MValT)) (pathS : String) :
    (L.map (fun kv => (kv.1, eraseV kv.2))).filter (fun kv =>
        !(pathS.toList.isPrefixOf kv.1.toList && kv.1.length > pathS.length))
      = (L.filter (fun kv =>
          !(pathS.toList.isPrefixOf kv.1.toList && kv.1.length > pathS.length))).map
          (fun kv => (kv.1, eraseV kv.2)) := by
  rw [List.map_filter]
  congr 1

theorem filter_noCaller (L : List (String × MValT)) (p : String × MValT → Bool)
    (h : ∀ kv ∈ L, noCallerV kv.2 = true) :
    ∀ kv ∈ L.filter p, noCallerV kv.2 = true :=
  fun kv hkv => h kv (List.mem_of_mem_filter hkv)

theorem childStep_erase (n : Nat)
    (IH : ∀ c : PCallT, runPT n c = runP n (erasePCall c))
    (rootPath : String) (isDocument isAugmented : Bool)
    (child : MValT) (hc : noCallerV child = true)
    (flatT : List (String × MValT)) (acc : String)
    (hflat : ∀ kv ∈ flatT, noCallerV kv.2 = true) :
    ((do
      let model ← getProp (eraseV child) "model"
      let pathV ← getProp model "path"
      let isSubdocArray := truthy (← getProp model "$isArraySubdocument")
      let pathS ← asStrE pathV
      let name ← getSubDocName pathS rootPath
      let cschema0 ← getProp (eraseV child) "schema"
      let cschema1 ← setPropE cschema0 "_isReplacedWithSchema" (.vBool true)
      let cschema2 ← setPropE cschema1 "_inferredInterfaceName" (.vStr name)
      let cschema3 ← setPropE cschema2 "_isSubdocArray" (.vBool isSubdocArray)
      let cschema ←
        if isSubdocArray then
          let defaultValuePath := pathS ++ ".default"
          if (match lookupField (flatT.map (fun kv => (kv.1, eraseV kv.2)))
                defaultValuePath with
              | some MVal.vUndefined => true
              | _ => false) then
            setPropE cschema3 "_isDefaultSetToUndefined" (.vBool true)
          else pure cschema3
        else pure cschema3
      let flat1 := setField (flatT.map (fun kv => (kv.1, eraseV kv.2))) pathS
        (if isSubdocArray then MVal.vArr [cschema] else cschema)
      let flat2 := flat1.filter (fun (kv : String × MVal) =>
        !(pathS.toList.isPrefixOf kv.1.toList && kv.1.length > pathS.length))
      let hdr :=
        (if isDocument then
          (if isSubdocArray then getSubdocumentDocs rootPath pathS
           else getDocumentDocs rootPath)
         else getLeanDocs rootPath (some name)) ++
        (if isAugmented then "\n" else "\nexport ") ++
        (if isDocument then
          "interface " ++ name ++ "Document extends " ++
          (if isSubdocArray then "mongoose.Types.EmbeddedDocument"
           else "mongoose.Document<mongoose.Types.ObjectId>, " ++ name ++ "Methods") ++
          " \x7b\n"
         else "interface " ++ name ++ " \x7b\n")
      let sub ← runP n (.schemaCall cschema (some name) false isDocument hdr
        "\x7d\n\n" isAugmented)
      pure (flat2, acc ++ sub)) : Except String (List (String × MVal) × String))
      = ((do
          let model ← getPropT child "model"
          let pathV ← getPropT model "path"
          let isSubdocArray := truthy (eraseV (← getPropT model "$isArraySubdocument"))
          let pathS ← asStrE (eraseV pathV)
          let name ← getSubDocName pathS rootPath
          let cschema0 ← getPropT child "schema"
          let cschema1 ← setPropT cschema0 "_isReplacedWithSchema" (.tBool true)
          let cschema2 ← setPropT cschema1 "_inferredInterfaceName" (.tStr name)
          let cschema3 ← setPropT cschema2 "_isSubdocArray" (.tBool isSubdocArray)
          let cschema ←
            if isSubdocArray then
              let defaultValuePath := pathS ++ ".default"
              if (match lookupA flatT defaultValuePath with
                  | some MValT.tUndefined => true
                  | _ => false) then
                setPropT cschema3 "_isDefaultSetToUndefined" (.tBool true)
              else pure cschema3
            else pure cschema3
          let flat1 := setFieldG flatT pathS
            (if isSubdocArray then MValT.tArr (.cons cschema .nil) else cschema)
          let flat2 := flat1.filter (fun (kv : String × MValT) =>
            !(pathS.toList.isPrefixOf kv.1.toList && kv.1.length > pathS.length))
          let hdr :=
            (if isDocument then
              (if isSubdocArray then getSubdocumentDocs rootPath pathS
               else getDocumentDocs rootPath)
             else getLeanDocs rootPath (some name)) ++
            (if isAugmented then "\n" else "\nexport ") ++
            (if isDocument then
              "interface " ++ name ++ "Document extends " ++
              (if isSubdocArray then "mongoose.Types.EmbeddedDocument"
               else "mongoose.Document<mongoose.Types.ObjectId>, " ++ name ++ "Methods") ++
              " \x7b\n"
             else "interface " ++ name ++ " \x7b\n")
          let sub ← runPT n (.schemaCallT cschema (some name) false isDocument hdr
            "\x7d\n\n" isAugmented)
          pure (flat2, acc ++ sub)) : Except String (List (String × MValT) × String)).map
          (fun (st : List (String × MValT) × String) =>
            (st.1.map (fun (kv : String × MValT) => (kv.1, eraseV kv.2)), st.2))
    ∧ (∀ st', ((do
          let model ← getPropT child "model"
          let pathV ← getPropT model "path"
          let isSubdocArray := truthy (eraseV (← getPropT model "$isArraySubdocument"))
          let pathS ← asStrE (eraseV pathV)
          let name ← getSubDocName pathS rootPath
          let cschema0 ← getPropT child "schema"
          let cschema1 ← setPropT cschema0 "_isReplacedWithSchema" (.tBool true)
          let cschema2 ← setPropT cschema1 "_inferredInterfaceName" (.tStr name)
          let cschema3 ← setPropT cschema2 "_isSubdocArray" (.tBool isSubdocArray)
          let cschema ←
            if isSubdocArray then
              let defaultValuePath := pathS ++ ".default"
              if (match lookupA flatT defaultValuePath with
                  | some MValT.tUndefined => true
                  | _ => false) then
                setPropT cschema3 "_isDefaultSetToUndefined" (.tBool true)
              else pure cschema3
            else pure cschema3
          let flat1 := setFieldG flatT pathS
            (if isSubdocArray then MValT.tArr (.cons cschema .nil) else cschema)
          let flat2 := flat1.filter (fun (kv : String × MValT) =>
            !(pathS.toList.isPrefixOf kv.1.toList && kv.1.length > pathS.length))
          let hdr :=
            (if isDocument then
              (if isSubdocArray then getSubdocumentDocs rootPath pathS
               else getDocumentDocs rootPath)
             else getLeanDocs rootPath (some name)) ++
            (if isAugmented then "\n" else "\nexport ") ++
            (if isDocument then
              "interface " ++ name ++ "Document extends " ++
              (if isSubdocArray then "mongoose.Types.EmbeddedDocument"
               else "mongoose.Document<mongoose.Types.ObjectId>, " ++ name ++ "Methods") ++
              " \x7b\n"
             else "interface " ++ name ++ " \x7b\n")
          let sub ← runPT n (.schemaCallT cschema (some name) false isDocument hdr
            "\x7d\n\n" isAugmented)
          pure (flat2, acc ++ sub)) : Except String (List (String × MValT) × String))
          = .ok st' → ∀ kv ∈ st'.1, noCallerV kv.2 = true) := by
  simp only [Bind.bind, Except.bind, Pure.pure, Except.pure]
  rw [getPropT_erase child "model"]
  cases hm : getPropT child "model" with
  | error e => exact ⟨rfl, fun st' h => by simp at h⟩
  | ok model =>
  have hmnc : noCallerV model = true := getPropT_noCaller child _ hc model hm
  simp only [Except.map]
  rw [getPropT_erase model "path"]
  cases hpv : getPropT model "path" with
  | error e => exact ⟨rfl, fun st' h => by simp at h⟩
  | ok pathV =>
  simp only [Except.map]
  rw [getPropT_erase model "$isArraySubdocument"]
  cases hsd : getPropT model "$isArraySubdocument" with
  | error e => exact ⟨rfl, fun st' h => by simp at h⟩
  | ok sd =>
  simp only [Except.map]
  cases hps : asStrE (eraseV pathV) with
  | error e => exact ⟨rfl, fun st' h => by simp at h⟩
  | ok pathS =>
  simp only [Except.map]
  cases hnm : getSubDocName pathS rootPath with
  | error e => exact ⟨rfl, fun st' h => by simp at h⟩
  | ok name =>
  simp only [Except.map]
  generalize ((if isDocument then
      (if truthy (eraseV sd) then getSubdocumentDocs rootPath pathS
       else getDocumentDocs rootPath)
     else getLeanDocs rootPath (some name)) ++
    (if isAugmented then "\n" else "\nexport ") ++
    (if isDocument then
      "interface " ++ name ++ "Document extends " ++
      (if truthy (eraseV sd) then "mongoose.Types.EmbeddedDocument"
       else "mongoose.Document<mongoose.Types.ObjectId>, " ++ name ++ "Methods") ++
      " \x7b\n"
     else "interface " ++ name ++ " \x7b\n")) = hdr
  rw [getPropT_erase child "schema"]
  cases hc0 : getPropT child "schema" with
  | error e => exact ⟨rfl, fun st' h => by simp at h⟩
  | ok cschema0 =>
  have hnc0 : noCallerV cschema0 = true := getPropT_noCaller child _ hc cschema0 hc0
  simp only [Except.map]
  rw [show MVal.vBool true = eraseV (MValT.tBool true) from rfl]
  rw [setPropT_erase cschema0 "_isReplacedWithSchema" (.tBool true)
    (rootOwned_of_noCaller cschema0 hnc0)]
  cases hc1 : setPropT cschema0 "_isReplacedWithSchema" (.tBool true) with
  | error e => exact ⟨rfl, fun st' h => by simp at h⟩
  | ok cschema1 =>
  have hnc1 : noCallerV cschema1 = true :=
    setPropT_noCaller cschema0 "_isReplacedWithSchema" (.tBool true) hnc0 rfl cschema1 hc1
  simp only [Except.map]
  rw [show MVal.vStr name = eraseV (MValT.tStr name) from rfl,
    setPropT_erase cschema1 "_inferredInterfaceName" (.tStr name)
      (rootOwned_of_noCaller cschema1 hnc1)]
  cases hc2 : setPropT cschema1 "_inferredInterfaceName" (.tStr name) with
  | error e => exact ⟨rfl, fun st' h => by simp at h⟩
  | ok cschema2 =>
  have hnc2 : noCallerV cschema2 = true :=
    setPropT_noCaller cschema1 "_inferredInterfaceName" (.tStr name) hnc1 rfl cschema2 hc2
  simp only [Except.map]
  rw [show MVal.vBool (truthy (eraseV sd))
    = eraseV (MValT.tBool (truthy (eraseV sd))) from rfl]
  rw [setPropT_erase cschema2 "_isSubdocArray" (.tBool (truthy (eraseV sd)))
    (rootOwned_of_noCaller cschema2 hnc2)]
  cases hc3 : setPropT cschema2 "_isSubdocArray" (.tBool (truthy (eraseV sd))) with
  | error e => exact ⟨rfl, fun st' h => by simp at h⟩
  | ok cschema3 =>
  have hnc3 : noCallerV cschema3 = true :=
    setPropT_noCaller cschema2 "_isSubdocArray" (.tBool (truthy (eraseV sd))) hnc2 rfl
      cschema3 hc3
  simp only [Except.map]
  rw [lookupUndef_erase flatT (pathS ++ ".default")]
  generalize hB : (match lookupA flatT (pathS ++ ".default") with
      | some MValT.tUndefined => true
      | _ => false) = B
  generalize hSB : truthy (eraseV sd) = SB
  cases SB with
  | false =>
      simp only [Bool.false_eq_true, if_false]
      rw [IH (.schemaCallT cschema3 (some name) false isDocument hdr "\x7d\n\n" isAugmented)]
      simp only [erasePCall]
      cases hrun : runP n (.schemaCall (eraseV cschema3) (some name) false isDocument hdr
          "\x7d\n\n" isAugmented) with
      | error e => exact ⟨rfl, fun st' h => by simp at h⟩
      | ok sub =>
          constructor
          · simp only [Except.map, Except.ok.injEq, Prod.mk.injEq]
            refine ⟨?_, trivial⟩
            rw [← filterPath_erase, setFieldG_erase]
          · intro st' h
            simp only [Except.ok.injEq] at h
            rw [← h]
            refine filter_noCaller _ _ ?_
            exact setFieldG_noCaller flatT pathS _ hflat hnc3
  | true =>
      simp only [if_pos]
      cases B with
      | false =>
          simp only [Bool.false_eq_true, if_false]
          rw [IH (.schemaCallT cschema3 (some name) false isDocument hdr "\x7d\n\n" isAugmented)]
          simp only [erasePCall]
          cases hrun : runP n (.schemaCall (eraseV cschema3) (some name) false isDocument hdr
              "\x7d\n\n" isAugmented) with
          | error e => exact ⟨rfl, fun st' h => by simp at h⟩
          | ok sub =>
              constructor
              · simp only [Except.map, Except.ok.injEq, Prod.mk.injEq]
                refine ⟨?_, trivial⟩
                rw [show MVal.vArr [eraseV cschema3]
                  = eraseV (MValT.tArr (.cons cschema3 .nil)) from rfl]
                rw [← filterPath_erase, setFieldG_erase]
              · intro st' h
                simp only [Except.ok.injEq] at h
                rw [← h]
                refine filter_noCaller _ _ ?_
                refine setFieldG_noCaller flatT pathS _ hflat ?_
                simp only [noCallerV, noCallerL, hnc3, Bool.and_self]
      | true =>
          simp only [if_pos]
          rw [setPropT_erase cschema3 "_isDefaultSetToUndefined" (.tBool true)
            (rootOwned_of_noCaller cschema3 hnc3)]
          cases hc4 : setPropT cschema3 "_isDefaultSetToUndefined" (.tBool true) with
          | error e => exact ⟨rfl, fun st' h => by simp at h⟩
          | ok cschema4 =>
          have hnc4 : noCallerV cschema4 = true :=
            setPropT_noCaller cschema3 "_isDefaultSetToUndefined" (.tBool true) hnc3 rfl
              cschema4 hc4
          simp only [Except.map]
          rw [IH (.schemaCallT cschema4 (some name) false isDocument hdr "\x7d\n\n" isAugmented)]
          simp only [erasePCall]
          cases hrun : runP n (.schemaCall (eraseV cschema4) (some name) false isDocument hdr
              "\x7d\n\n" isAugmented) with
          | error e => exact ⟨rfl, fun st' h => by simp at h⟩
          | ok sub =>
              constructor
              · simp only [Except.map, Except.ok.injEq, Prod.mk.injEq]
                refine ⟨?_, trivial⟩
                rw [show MVal.vArr [eraseV cschema4]
                  = eraseV (MValT.tArr (.cons cschema4 .nil)) from rfl]
                rw [← filterPath_erase, setFieldG_erase]
              · intro st' h
                simp only [Except.ok.injEq] at h
                rw [← h]
                refine filter_noCaller _ _ ?_
                refine setFieldG_noCaller flatT pathS _ hflat ?_
                simp only [noCallerV, noCallerL, hnc4, Bool.and_self]

theorem bindMapPair (eT : Except String (List (String × MValT) × String))
    (fU : List (String × MVal) × String → Except String (List (String × MVal) × String))
    (fT : List (String × MValT) × String →
      Except String (List (String × MValT) × String))
    (hf : ∀ st', eT = .ok st' →
      fU (st'.1.map (fun kv => (kv.1, eraseV kv.2)), st'.2)
        = (fT st').map (fun st => (st.1.map (fun kv => (kv.1, eraseV kv.2)), st.2))) :
    ((eT.map (fun st => (st.1.map (fun kv => (kv.1, eraseV kv.2)), st.2))) >>= fU)
      = (eT >>= fT).map (fun st => (st.1.map (fun kv => (kv.1, eraseV kv.2)), st.2)) := by
  cases eT with
  | error e => rfl
  | ok st' =>
      simp only [Except.map, Bind.bind, Except.bind]
      exact hf st' rfl

theorem bindOkInv {α β : Type} (e : Except String α) (f : α → Except String β) (b : β)
    (h : (e >>= f) = .ok b) : ∃ a, e = .ok a ∧ f a = .ok b := by
  cases he : e with
  | error err => rw [he] at h; simp [Bind.bind, Except.bind] at h
  | ok a =>
      rw [he] at h
      exact ⟨a, rfl, by simpa [Bind.bind, Except.bind] using h⟩

theorem childFold_erase (n : Nat)
    (IH : ∀ c : PCallT, runPT n c = runP n (erasePCall c))
    (rootPath : String) (isDocument isAugmented : Bool) :
    ∀ (children : List MValT) (flatT : List (String × MValT)) (acc : String),
    (∀ v ∈ children, noCallerV v = true) →
    (∀ kv ∈ flatT, noCallerV kv.2 = true) →
    ((children.map eraseV).foldlM
      (fun (st : List (String × MVal) × String) (child : MVal) => do
        let model ← getProp child "model"
        let pathV ← getProp model "path"
        let isSubdocArray := truthy (← getProp model "$isArraySubdocument")
        let pathS ← asStrE pathV
        let name ← getSubDocName pathS rootPath
        let cschema0 ← getProp child "schema"
        let cschema1 ← setPropE cschema0 "_isReplacedWithSchema" (.vBool true)
        let cschema2 ← setPropE cschema1 "_inferredInterfaceName" (.vStr name)
        let cschema3 ← setPropE cschema2 "_isSubdocArray" (.vBool isSubdocArray)
        let cschema ←
          if isSubdocArray then
            let defaultValuePath := pathS ++ ".default"
            if (match lookupField st.1 defaultValuePath with
                | some MVal.vUndefined => true
                | _ => false) then
              setPropE cschema3 "_isDefaultSetToUndefined" (.vBool true)
            else pure cschema3
          else pure cschema3
        let flat1 := setField st.1 pathS
          (if isSubdocArray then MVal.vArr [cschema] else cschema)
        let flat2 := flat1.filter (fun (kv : String × MVal) =>
          !(pathS.toList.isPrefixOf kv.1.toList && kv.1.length > pathS.length))
        let hdr :=
          (if isDocument then
            (if isSubdocArray then getSubdocumentDocs rootPath pathS
             else getDocumentDocs rootPath)
           else getLeanDocs rootPath (some name)) ++
          (if isAugmented then "\n" else "\nexport ") ++
          (if isDocument then
            "interface " ++ name ++ "Document extends " ++
            (if isSubdocArray then "mongoose.Types.EmbeddedDocument"
             else "mongoose.Document<mongoose.Types.ObjectId>, " ++ name ++ "Methods") ++
            " \x7b\n"
           else "interface " ++ name ++ " \x7b\n")
        let sub ← runP n (.schemaCall cschema (some name) false isDocument hdr
          "\x7d\n\n" isAugmented)
        pure (flat2, st.2 ++ sub))
        (flatT.map (fun kv => (kv.1, eraseV kv.2)), acc)
      = (children.foldlM
        (fun (st : List (String × MValT) × String) (child : MValT) => do
          let model ← getPropT child "model"
          let pathV ← getPropT model "path"
          let isSubdocArray := truthy (eraseV (← getPropT model "$isArraySubdocument"))
          let pathS ← asStrE (eraseV pathV)
          let name ← getSubDocName pathS rootPath
          let cschema0 ← getPropT child "schema"
          let cschema1 ← setPropT cschema0 "_isReplacedWithSchema" (.tBool true)
          let cschema2 ← setPropT cschema1 "_inferredInterfaceName" (.tStr name)
          let cschema3 ← setPropT cschema2 "_isSubdocArray" (.tBool isSubdocArray)
          let cschema ←
            if isSubdocArray then
              let defaultValuePath := pathS ++ ".default"
              if (match lookupA st.1 defaultValuePath with
                  | some MValT.tUndefined => true
                  | _ => false) then
                setPropT cschema3 "_isDefaultSetToUndefined" (.tBool true)
              else pure cschema3
            else pure cschema3
          let flat1 := setFieldG st.1 pathS
            (if isSubdocArray then MValT.tArr (.cons cschema .nil) else cschema)
          let flat2 := flat1.filter (fun (kv : String × MValT) =>
            !(pathS.toList.isPrefixOf kv.1.toList && kv.1.length > pathS.length))
          let hdr :=
            (if isDocument then
              (if isSubdocArray then getSubdocumentDocs rootPath pathS
               else getDocumentDocs rootPath)
             else getLeanDocs rootPath (some name)) ++
            (if isAugmented then "\n" else "\nexport ") ++
            (if isDocument then
              "interface " ++ name ++ "Document extends " ++
              (if isSubdocArray then "mongoose.Types.EmbeddedDocument"
               else "mongoose.Document<mongoose.Types.ObjectId>, " ++ name ++ "Methods") ++
              " \x7b\n"
             else "interface " ++ name ++ " \x7b\n")
          let sub ← runPT n (.schemaCallT cschema (some name) false isDocument hdr
            "\x7d\n\n" isAugmented)
          pure (flat2, st.2 ++ sub)) (flatT, acc)).map
          (fun (st : List (String × MValT) × String) =>
            (st.1.map (fun (kv : String × MValT) => (kv.1, eraseV kv.2)), st.2)))
    ∧ (∀ R, children.foldlM
        (fun (st : List (String × MValT) × String) (child : MValT) => do
          let model ← getPropT child "model"
          let pathV ← getPropT model "path"
          let isSubdocArray := truthy (eraseV (← getPropT model "$isArraySubdocument"))
          let pathS ← asStrE (eraseV pathV)
          let name ← getSubDocName pathS rootPath
          let cschema0 ← getPropT child "schema"
          let cschema1 ← setPropT cschema0 "_isReplacedWithSchema" (.tBool true)
          let cschema2 ← setPropT cschema1 "_inferredInterfaceName" (.tStr name)
          let cschema3 ← setPropT cschema2 "_isSubdocArray" (.tBool isSubdocArray)
          let cschema ←
            if isSubdocArray then
              let defaultValuePath := pathS ++ ".default"
              if (match lookupA st.1 defaultValuePath with
                  | some MValT.tUndefined => true
                  | _ => false) then
                setPropT cschema3 "_isDefaultSetToUndefined" (.tBool true)
              else pure cschema3
            else pure cschema3
          let flat1 := setFieldG st.1 pathS
            (if isSubdocArray then MValT.tArr (.cons cschema .nil) else cschema)
          let flat2 := flat1.filter (fun (kv : String × MValT) =>
            !(pathS.toList.isPrefixOf kv.1.toList && kv.1.length > pathS.length))
          let hdr :=
            (if isDocument then
              (if isSubdocArray then getSubdocumentDocs rootPath pathS
               else getDocumentDocs rootPath)
             else getLeanDocs rootPath (some name)) ++
            (if isAugmented then "\n" else "\nexport ") ++
            (if isDocument then
              "interface " ++ name ++ "Document extends " ++
              (if isSubdocArray then "mongoose.Types.EmbeddedDocument"
               else "mongoose.Document<mongoose.Types.ObjectId>, " ++ name ++ "Methods") ++
              " \x7b\n"
             else "interface " ++ name ++ " \x7b\n")
          let sub ← runPT n (.schemaCallT cschema (some name) false isDocument hdr
            "\x7d\n\n" isAugmented)
          pure (flat2, st.2 ++ sub)) (flatT, acc) = .ok R →
        ∀ kv ∈ R.1, noCallerV kv.2 = true)
  | [], flatT, acc, hch, hflat => by
      constructor
      · rfl
      · intro R hR kv hkv
        simp only [List.foldlM_nil, Pure.pure, Except.pure, Except.ok.injEq] at hR
        rw [← hR] at hkv
        exact hflat kv hkv
  | child :: rest, flatT, acc, hch, hflat => by
      have hc : noCallerV child = true := hch child (List.mem_cons.mpr (Or.inl rfl))
      have hrest : ∀ v ∈ rest, noCallerV v = true :=
        fun v hv => hch v (List.mem_cons.mpr (Or.inr hv))
      obtain ⟨hstep, hstepnc⟩ := childStep_erase n IH rootPath isDocument isAugmented
        child hc flatT acc hflat
      constructor
      · rw [List.map_cons, List.foldlM_cons, List.foldlM_cons]
        simp only []
        rw [hstep]
        refine bindMapPair _ _ _ ?_
        intro st' hok
        exact (childFold_erase n IH rootPath isDocument isAugmented rest st'.1 st'.2
          hrest (hstepnc st' hok)).1
      · intro R hR
        rw [List.foldlM_cons] at hR
        obtain ⟨st', hst', hRrest⟩ := bindOkInv _ _ _ hR
        exact (childFold_erase n IH rootPath isDocument isAugmented rest st'.1 st'.2
          hrest (hstepnc st' hst')).2 R hRrest

theorem bindMapGen {αT α β : Type} (eT : Except String αT) (er : αT → α)
    (fU : α → Except String β) (fT : αT → Except String β)
    (hf : ∀ x, eT = .ok x → fU (er x) = fT x) :
    ((eT.map er) >>= fU) = (eT >>= fT) := by
  cases eT with
  | error e => rfl
  | ok x =>
      simp only [Except.map, Bind.bind, Except.bind]
      exact hf x rfl

theorem bindCongr {α β : Type} (e : Except String α)
    (f g : α → Except String β) (h : ∀ x, e = .ok x → f x = g x) :
    (e >>= f) = (e >>= g) := by
  cases he : e with
  | error err => rfl
  | ok x =>
      simp only [Bind.bind, Except.bind]
      exact h x he

theorem bindCongr2 {α β : Type} (e e' : Except String α)
    (f g : α → Except String β) (he : e = e') (h : ∀ x, e' = .ok x → f x = g x) :
    (e >>= f) = (e' >>= g) := by
  subst he
  exact bindCongr e f g h

theorem mainTail_erase (n : Nat)
    (IH : ∀ c : PCallT, runPT n c = runP n (erasePCall c))
    (mn : Option String) (am d aug : Bool) (hd0 ft : String)
    (tpl : String) (S' : MValT) :
    (do
      let template ←
        if !d then do
          let staticsV ← getProp (eraseV S') "statics"
          if truthy staticsV && optStrTruthy mn && am then do
            let mn2 := mn.getD ""
            let mut t := tpl
            t := t ++ getObjectDocs mn2
            t := t ++ "\n" ++ (if aug then "" else "export ") ++ "type " ++ mn2 ++
              "Object = " ++ mn2 ++ "\n\n"
            let queryV ← getProp (eraseV S') "query"
            let qkeys ← jsObjectKeys queryV
            if qkeys.length > 0 then
              t := t ++ getQueryDocs mn2
              t := t ++ "\n" ++ (if aug then "" else "export ") ++ "type " ++ mn2 ++
                "Queries = \x7b\n"
              let qv := match queryV with
                | .vUndefined => MVal.vObj []
                | .vNull => MVal.vObj []
                | x => x
              t := t ++ (← parseFunctions qv mn2 .query)
              t := t ++ "\x7d\n\n"
              t := t ++ (if aug then "" else "declare module \"mongoose\" \x7b") ++
                "interface Query<ResultType, DocType extends Document> extends " ++ mn2 ++
                "Queries \x7b\x7d" ++ (if aug then "" else "\x7d") ++ "\n\n"
            t := t ++ getMethodDocs mn2
            t := t ++ "\n" ++ (if aug then "" else "export ") ++ "type " ++ mn2 ++
              "Methods = \x7b\n"
            t := t ++ (← parseFunctions (← getProp (eraseV S') "methods") mn2 .methods)
            t := t ++ "\x7d\n\n"
            t := t ++ getStaticDocs mn2
            t := t ++ "\n" ++ (if aug then "" else "export ") ++ "type " ++ mn2 ++
              "Statics = \x7b\n"
            t := t ++ (← parseFunctions (← getProp (eraseV S') "statics") mn2 .statics)
            t := t ++ "\x7d\n\n"
            let modelExtend := "mongoose.Model<" ++ mn2 ++ "Document>"
            t := t ++ getModelDocs mn2
            t := t ++ "\n" ++ (if aug then "" else "export ") ++ "interface " ++ mn2 ++
              "Model extends " ++ modelExtend ++ ", " ++ mn2 ++ "Statics \x7b\x7d\n\n"
            t := t ++ getSchemaDocs mn2
            t := t ++ "\n" ++ (if aug then "" else "export ") ++ "type " ++ mn2 ++
              "Schema = mongoose.Schema<" ++ mn2 ++ "Document, " ++ mn2 ++ "Model>\n\n"
            pure t
          else pure tpl
        else pure tpl
      let template := template ++ hd0
      let schemaTree ← getProp (eraseV S') "tree"
      let keys ← jsObjectKeys schemaTree
      let template ← keys.foldlM (fun acc key => do
        let v ← getProp schemaTree key
        let line ← runP n (.keyCall (eraseV S') d key v)
        pure (acc ++ line)) template
      pure (template ++ ft) : Except String String)
      = (do
          let template ←
            if !d then do
              let staticsV ← getPropT S' "statics"
              if truthy (eraseV staticsV) && optStrTruthy mn && am then do
                let mn2 := mn.getD ""
                let mut t := tpl
                t := t ++ getObjectDocs mn2
                t := t ++ "\n" ++ (if aug then "" else "export ") ++ "type " ++ mn2 ++
                  "Object = " ++ mn2 ++ "\n\n"
                let queryV ← getPropT S' "query"
                let qkeys ← jsObjectKeys (eraseV queryV)
                if qkeys.length > 0 then
                  t := t ++ getQueryDocs mn2
                  t := t ++ "\n" ++ (if aug then "" else "export ") ++ "type " ++ mn2 ++
                    "Queries = \x7b\n"
                  let qv := match eraseV queryV with
                    | .vUndefined => MVal.vObj []
                    | .vNull => MVal.vObj []
                    | x => x
                  t := t ++ (← parseFunctions qv mn2 .query)
                  t := t ++ "\x7d\n\n"
                  t := t ++ (if aug then "" else "declare module \"mongoose\" \x7b") ++
                    "interface Query<ResultType, DocType extends Document> extends " ++ mn2 ++
                    "Queries \x7b\x7d" ++ (if aug then "" else "\x7d") ++ "\n\n"
                t := t ++ getMethodDocs mn2
                t := t ++ "\n" ++ (if aug then "" else "export ") ++ "type " ++ mn2 ++
                  "Methods = \x7b\n"
                t := t ++ (← parseFunctions (eraseV (← getPropT S' "methods")) mn2 .methods)
                t := t ++ "\x7d\n\n"
                t := t ++ getStaticDocs mn2
                t := t ++ "\n" ++ (if aug then "" else "export ") ++ "type " ++ mn2 ++
                  "Statics = \x7b\n"
                t := t ++ (← parseFunctions (eraseV (← getPropT S' "statics")) mn2 .statics)
                t := t ++ "\x7d\n\n"
                let modelExtend := "mongoose.Model<" ++ mn2 ++ "Document>"
                t := t ++ getModelDocs mn2
                t := t ++ "\n" ++ (if aug then "" else "export ") ++ "interface " ++ mn2 ++
                  "Model extends " ++ modelExtend ++ ", " ++ mn2 ++ "Statics \x7b\x7d\n\n"
                t := t ++ getSchemaDocs mn2
                t := t ++ "\n" ++ (if aug then "" else "export ") ++ "type " ++ mn2 ++
                  "Schema = mongoose.Schema<" ++ mn2 ++ "Document, " ++ mn2 ++ "Model>\n\n"
                pure t
              else pure tpl
            else pure tpl
          let template := template ++ hd0
          let schemaTree ← getPropT S' "tree"
          let keys ← jsObjectKeys (eraseV schemaTree)
          let template ← keys.foldlM (fun acc key => do
            let v ← getPropT schemaTree key
            let line ← runPT n (.keyCallT S' d key v)
            pure (acc ++ line)) template
          pure (template ++ ft) : Except String String) := by
  have htree : ∀ (template : String),
      (do
        let schemaTree ← getProp (eraseV S') "tree"
        let keys ← jsObjectKeys schemaTree
        let template ← keys.foldlM (fun acc key => do
          let v ← getProp schemaTree key
          let line ← runP n (.keyCall (eraseV S') d key v)
          pure (acc ++ line)) template
        pure (template ++ ft) : Except String String)
        = (do
            let schemaTree ← getPropT S' "tree"
            let keys ← jsObjectKeys (eraseV schemaTree)
            let template ← keys.foldlM (fun acc key => do
              let v ← getPropT schemaTree key
              let line ← runPT n (.keyCallT S' d key v)
              pure (acc ++ line)) template
            pure (template ++ ft) : Except String String) := by
    intro template
    rw [getPropT_erase S' "tree"]
    refine bindMapGen _ _ _ _ ?_
    intro treeT _
    refine bindCongr _ _ _ ?_
    intro keys _
    refine bindCongr2 _ _ _ _ ?_ ?_
    · exact keysFold_erase n IH S' treeT d keys template
    · intro t2 _
      rfl
  cases d with
  | true =>
      simp only [Bool.not_true, Bool.false_eq_true, if_false]
      refine bindCongr _ _ _ ?_
      intro x _
      exact htree (x ++ hd0)
  | false =>
      simp only [Bool.not_false, if_pos]
      rw [getPropT_erase S' "statics"]
      refine bindMapGen _ _ _ _ ?_
      intro staticsV _
      by_cases hcnd : (truthy (eraseV staticsV) && optStrTruthy mn && am) = true
      · rw [if_pos hcnd]
        rw [if_pos hcnd]
        rw [getPropT_erase S' "query"]
        refine bindMapGen _ _ _ _ ?_
        intro queryV _
        refine bindCongr _ _ _ ?_
        intro qkeys _
        by_cases hqlen : qkeys.length > 0
        · rw [if_pos hqlen]
          rw [if_pos hqlen]
          refine bindCongr _ _ _ ?_
          intro fq _
          refine bindCongr _ _ _ ?_
          intro u _
          rw [getPropT_erase S' "methods"]
          refine bindMapGen _ _ _ _ ?_
          intro mV _
          refine bindCongr _ _ _ ?_
          intro fm _
          refine bindMapGen _ _ _ _ ?_
          intro sV2 _
          refine bindCongr _ _ _ ?_
          intro fs _
          refine bindCongr _ _ _ ?_
          intro y _
          exact htree (y ++ hd0)
        · rw [if_neg hqlen]
          rw [if_neg hqlen]
          refine bindCongr _ _ _ ?_
          intro u _
          rw [getPropT_erase S' "methods"]
          refine bindMapGen _ _ _ _ ?_
          intro mV _
          refine bindCongr _ _ _ ?_
          intro fm _
          refine bindMapGen _ _ _ _ ?_
          intro sV2 _
          refine bindCongr _ _ _ ?_
          intro fs _
          refine bindCongr _ _ _ ?_
          intro y _
          exact htree (y ++ hd0)
      · rw [if_neg hcnd]
        rw [if_neg hcnd]
        refine bindCongr _ _ _ ?_
        intro y _
        exact htree (y ++ hd0)

theorem bindOkRight {α β : Type} (e : Except String α) (a : α)
    (f : α → Except String β) (A : Except String β)
    (he : e = .ok a) (h : A = f a) : A = (e >>= f) := by
  subst he
  exact h

theorem bindPureBoth {α α2 β : Type} (a : α) (a2 : α2)
    (f : α → Except String β) (g : α2 → Except String β)
    (h : f a = g a2) :
    ((pure a : Except String α) >>= f) = ((pure a2 : Except String α2) >>= g) := h

theorem bindEraseFold {αT α β : Type} (eU : Except String α) (eT : Except String αT)
    (er : αT → α) (fU : α → Except String β) (fT : αT → Except String β)
    (he : eU = eT.map er) (hf : ∀ x, eT = .ok x → fU (er x) = fT x) :
    (eU >>= fU) = (eT >>= fT) := by
  subst he
  exact bindMapGen eT er fU fT hf

theorem runPT_erase : ∀ (fuel : Nat) (c : PCallT),
    runPT fuel c = runP fuel (erasePCall c)
  | 0, c => by cases c <;> rfl
  | n + 1, .keyCallT s d k v => by
    have IH : ∀ c : PCallT, runPT n c = runP n (erasePCall c) :=
      fun c => runPT_erase n c
    refine Eq.symm ?_
    show (do
        let norm ← pkNormalize (eraseV v)
        let plan ← pkPlan n (eraseV s) d k norm.val
        match plan with
        | .skip => pure ""
        | .direct ty forceRequired =>
            if ty == "" then pure ""
            else pkFinish d k norm ty forceRequired
        | .recurse => do
            let sub ← runP n (.schemaCall (.vObj [("tree", norm.val)]) none false d
              "\x7b\n" "\x7d" true)
            if sub == "" then pure ""
            else pkFinish d k norm sub true : Except String String)
      = runPT (n + 1) (.keyCallT s d k v)
    rw [pkNormalizeT_erase v]
    refine bindMapGen _ _ _ _ ?_
    intro nt _
    refine bindCongr _ _ _ ?_
    intro plan _
    cases plan with
    | skip => rfl
    | direct ty forceRequired => rfl
    | recurse =>
        rw [IH (.schemaCallT (.tObj false (.cons "tree" nt.val .nil)) none false d
          "\x7b\n" "\x7d" true)]
        simp only [erasePCall, eraseV, eraseFs]
  | n + 1, .schemaCallT s0 mn am d hd0 ft aug => by
    have IH : ∀ c : PCallT, runPT n c = runP n (erasePCall c) :=
      fun c => runPT_erase n c
    refine Eq.symm ?_
    have hncS : noCallerV (cloneDeepT s0) = true := noCallerV_clone s0
    have hrootS : rootOwned (cloneDeepT s0) = false := rootOwned_clone s0
    simp only [runP, runPT, erasePCall, cloneDeepV]
    rw [← eraseV_clone s0]
    generalize hS : cloneDeepT s0 = S at hncS hrootS ⊢
    rw [getPropT_erase S "childSchemas"]
    refine bindMapGen _ _ _ _ ?_
    intro cs hcs
    have hnccs : noCallerV cs = true := getPropT_noCaller S _ hncS cs hcs
    generalize hB : (jsLenGtZero (eraseV cs) && optStrTruthy mn) = B
    cases B with
    | false =>
        simp only [Bool.false_eq_true, if_false]
        refine bindPureBoth _ _ _ _ ?_
        exact mainTail_erase n IH mn am d aug hd0 ft "" S
    | true =>
        simp only [if_pos]
        rw [getPropT_erase S "tree"]
        refine bindMapGen _ _ _ _ ?_
        intro treeT htreeT
        have hnct : noCallerV treeT = true :=
          getPropT_noCaller S "tree" hncS treeT htreeT
        rw [flattenTreeFT_erase n treeT]
        refine bindMapGen _ _ _ _ ?_
        intro flat0 hflat0
        have hncf0 := flattenTreeFT_noCaller n treeT hnct flat0 hflat0
        cases cs with
        | tArr l =>
            simp only [eraseV]
            refine bindPureBoth _ _ _ _ ?_
            rw [eraseL_eq l]
            obtain ⟨hcomm, hncfold⟩ :=
              childFold_erase n IH (mn.getD "") d aug (listOfT l) flat0 ""
                (noCallerL_listOfT l hnccs) hncf0
            refine bindEraseFold _ _ _ _ _ hcomm ?_
            intro st2 hst2
            have hncst := hncfold st2 hst2
            obtain ⟨Ufl, hUfl, hUcomm⟩ := unflattenObjFT_ok st2.1 hncst
            refine bindOkRight _ Ufl _ _ hUfl ?_
            rw [← hUcomm]
            rw [show MVal.vObj (Ufl.map (fun kv => (kv.1, eraseV kv.2)))
                  = eraseV (MValT.tObj false (listToFields Ufl)) from by
                rw [eraseV, eraseFs_listToFields]]
            rw [setPropT_erase S "tree" (MValT.tObj false (listToFields Ufl)) hrootS]
            refine bindMapGen _ _ _ _ ?_
            intro schema2 _
            refine bindPureBoth _ _ _ _ ?_
            exact mainTail_erase n IH mn am d aug hd0 ft st2.2 schema2
        | tNull => rfl
        | tUndefined => rfl
        | tBool b => rfl
        | tNum x => rfl
        | tStr s1 => rfl
        | tCtor c => rfl
        | tFunc => rfl
        | tObj b fs => rfl

/-- C10: parseSchema never mutates the schema object supplied by its caller.
We instrument the interpreter with ownership marks: `MValT` values carry a
`callerOwned` flag on every object node, `_.cloneDeep` (modelled by
`cloneDeepT`) clears all marks, and every property write (`setPropT`,
`insertFlatT`) faults with `mutationFault` when its target is caller-owned.
Because parseSchema deep-clones the whole schema before the hoisting edits and
parseKey deep-clones each plain-object field value before normalization, the
instrumented run `runPT` never faults and computes exactly the same result as
the plain run `runP` on the mark-erased input, for every fuel and every marking
of the input; the second conjunct shows the instrumentation is not vacuous: a
direct write to a caller-owned object does fault. -/
theorem claim10 (fuel : Nat) (c : PCallT) :
    runPT fuel c = runP fuel (erasePCall c)
      ∧ setPropT (MValT.tObj true MFieldsT.nil) "x" MValT.tNull
          = .error mutationFault :=
  ⟨runPT_erase fuel c, rfl⟩
